import Mathlib

/-! Pet elevator (`part3/src/elevator.c`): embedding and verification.

The shared state of the kernel module is one record, `ElevState`.  Every function
of `elevator.c` that runs under `elev_lock` is a pure function on that record:

* the intrusive linked lists (`floor_waiting[i]`, `elevator_pets`) are `List pet`,
  head first; `list_add_tail` appends, `list_del` removes the visited node;
* the two arrays of length 5 are functions on `Fin 5`; an index outside `0..4`
  (undefined behaviour in C, and never produced from a floor in `1..5`) reads the
  default value and writes nothing;
* C `int` is `Int`; the counters are assumed not to overflow;
* `weights[t]` for `t` outside `0..3` (again out of bounds in C) reads as `0`;
* one iteration of the `while` loop of `elevator_thread_fn`, from `mutex_lock`
  to the matching `mutex_unlock`, is `tick`; sleeping and waiting do not touch
  the state;
* the outcome of `kmalloc` and of `kthread_run` is a Boolean argument.
-/

namespace Elevator

/-- The lifecycle states, `enum state_t`. -/
inductive state_t where
  | OFFLINE
  | IDLE
  | UP
  | DOWN
  | LOADING
  deriving DecidableEq, Repr

/-- A request, `struct pet` (the list linkage is the position in a `List`). -/
structure pet where
  type : Int
  dest_floor : Int
  deriving DecidableEq, Repr

/-- The table `weights[] = {3, 14, 10, 16}`. -/
def weights_table : List Int := [3, 14, 10, 16]

/-- The lookup `weights[t]`. -/
def weights (t : Int) : Int :=
  if 0 ≤ t then weights_table.getD t.toNat 0 else 0

/-- The shared elevator state: the file-level variables of `elevator.c`. -/
@[ext]
structure ElevState where
  floor_waiting : Fin 5 → List pet
  floor_num_waiting : Fin 5 → Int
  elevator_pets : List pet
  elevator_num_pets : Int
  elevator_weight : Int
  total_serviced : Int
  total_waiting : Int
  elevator_state : state_t
  current_floor : Int
  direction : Int
  is_deactivating : Bool
  work_to_do : Bool

/-- The array index `floor - 1`, when it lies inside the array. -/
def floor_idx (floor : Int) : Option (Fin 5) :=
  if h : 1 ≤ floor ∧ floor ≤ 5 then some ⟨(floor - 1).toNat, by omega⟩ else none

/-- The queue `floor_waiting[floor - 1]`. -/
def waiting_at (s : ElevState) (floor : Int) : List pet :=
  match floor_idx floor with
  | some k => s.floor_waiting k
  | none => []

/-- The count `floor_num_waiting[floor - 1]`. -/
def num_waiting_at (s : ElevState) (floor : Int) : Int :=
  match floor_idx floor with
  | some k => s.floor_num_waiting k
  | none => 0

/-- Sum of the kind-weights of a list of items. -/
def weight_sum (l : List pet) : Int :=
  (l.map (fun p => weights p.type)).sum

/-- The function `need_service`. -/
def need_service (s : ElevState) (floor : Int) : Bool :=
  let has_wait := !s.is_deactivating && decide (num_waiting_at s floor > 0)
  let has_dest := s.elevator_pets.any (fun p => decide (p.dest_floor = floor))
  has_wait || has_dest

/-- The function `has_pending`: floors 1 to 5 in turn. -/
def has_pending (s : ElevState) : Bool :=
  (List.range 5).any (fun i => need_service s ((i : Int) + 1))

/-- The function `has_requests_in_dir`: the floors strictly beyond the current
one, upwards to 5 when `dir > 0`, downwards to 1 otherwise. -/
def has_requests_in_dir (s : ElevState) (dir : Int) : Bool :=
  if dir > 0 then
    (List.range (5 - s.current_floor).toNat).any
      (fun j => need_service s (s.current_floor + 1 + (j : Int)))
  else
    (List.range (s.current_floor - 1).toNat).any
      (fun j => need_service s (s.current_floor - 1 - (j : Int)))

/-- The loop of `do_unload`: `kept` are the nodes already passed and left in
the list, the list argument holds the nodes from the cursor on. -/
def do_unload_loop : List pet → List pet → ElevState → ElevState
  | _, [], s => s
  | kept, p :: rest, s =>
    if p.dest_floor = s.current_floor then
      do_unload_loop kept rest
        { s with
          elevator_weight := s.elevator_weight - weights p.type
          elevator_num_pets := s.elevator_num_pets - 1
          total_serviced := s.total_serviced + 1
          elevator_pets := kept ++ rest }
    else
      do_unload_loop (kept ++ [p]) rest s

/-- The function `do_unload`. -/
def do_unload (s : ElevState) : ElevState :=
  do_unload_loop [] s.elevator_pets s

/-- The function `can_unload`. -/
def can_unload (s : ElevState) : Bool :=
  s.elevator_pets.any (fun p => decide (p.dest_floor = s.current_floor))

/-- The loop of `do_load` on queue `k`: the list argument holds the nodes from
the cursor on; every node before the cursor has been moved to the car. -/
def do_load_loop (k : Fin 5) : List pet → ElevState → ElevState
  | [], s => s
  | p :: rest, s =>
    if s.elevator_num_pets < 5 ∧ s.elevator_weight + weights p.type ≤ 50 then
      do_load_loop k rest
        { s with
          floor_waiting := Function.update s.floor_waiting k rest
          elevator_pets := s.elevator_pets ++ [p]
          elevator_weight := s.elevator_weight + weights p.type
          elevator_num_pets := s.elevator_num_pets + 1
          floor_num_waiting :=
            Function.update s.floor_num_waiting k (s.floor_num_waiting k - 1)
          total_waiting := s.total_waiting - 1 }
    else s

/-- The function `do_load`. -/
def do_load (s : ElevState) : ElevState :=
  match floor_idx s.current_floor with
  | some k => do_load_loop k (s.floor_waiting k) s
  | none => s

/-- The function `can_load`. -/
def can_load (s : ElevState) : Bool :=
  match waiting_at s s.current_floor with
  | [] => false
  | p :: _ =>
    decide (s.elevator_num_pets < 5) && decide (s.elevator_weight + weights p.type ≤ 50)

/-- One iteration of the loop of `elevator_thread_fn`, lock to unlock. -/
def tick (s : ElevState) : ElevState :=
  if s.is_deactivating = true ∧ s.elevator_pets = [] then
    { s with elevator_state := state_t.OFFLINE, work_to_do := false }
  else
    let loading := can_unload s
    let boarding := !s.is_deactivating && can_load s
    if loading || boarding then
      let s1 := { s with elevator_state := state_t.LOADING }
      let s2 := if loading then do_unload s1 else s1
      if boarding then do_load s2 else s2
    else if has_pending s then
      let d := if has_requests_in_dir s s.direction then s.direction else -s.direction
      { s with
        direction := d
        elevator_state := if d > 0 then state_t.UP else state_t.DOWN
        current_floor := s.current_floor + d }
    else
      { s with elevator_state := state_t.IDLE, work_to_do := false }

/-- The error number `ENOMEM`. -/
def ENOMEM : Int := 12

/-- The function `my_start_elevator`; `thread_ok` tells whether `kthread_run`
returned a thread. -/
def my_start_elevator (s : ElevState) (thread_ok : Bool) : Int × ElevState :=
  if s.elevator_state ≠ state_t.OFFLINE then (1, s)
  else
    let s1 : ElevState :=
      { s with
        current_floor := 1
        elevator_weight := 0
        elevator_num_pets := 0
        is_deactivating := false
        direction := 1
        elevator_state := state_t.IDLE }
    let s2 : ElevState := { s1 with work_to_do := has_pending s1 }
    if thread_ok then (0, s2)
    else (-ENOMEM, { s2 with elevator_state := state_t.OFFLINE })

/-- The function `my_issue_request`; `alloc_ok` tells whether `kmalloc`
returned memory. -/
def my_issue_request (s : ElevState) (start dest type : Int) (alloc_ok : Bool) :
    Int × ElevState :=
  if start < 1 ∨ start > 5 ∨ dest < 1 ∨ dest > 5 ∨ start = dest ∨ type < 0 ∨ type > 3 then
    (1, s)
  else if !alloc_ok then (1, s)
  else
    let s1 : ElevState :=
      match floor_idx start with
      | some k =>
        { s with
          floor_waiting := Function.update s.floor_waiting k (s.floor_waiting k ++ [⟨type, dest⟩])
          floor_num_waiting := Function.update s.floor_num_waiting k (s.floor_num_waiting k + 1)
          total_waiting := s.total_waiting + 1 }
      | none => s
    if s1.elevator_state ≠ state_t.OFFLINE then (0, { s1 with work_to_do := true })
    else (0, s1)

/-- The function `my_stop_elevator`. -/
def my_stop_elevator (s : ElevState) : Int × ElevState :=
  if s.is_deactivating then (1, s)
  else (0, { s with is_deactivating := true })

/-- The state set up by the static initialisers and `elevator_init`. -/
def init_state : ElevState where
  floor_waiting := fun _ => []
  floor_num_waiting := fun _ => 0
  elevator_pets := []
  elevator_num_pets := 0
  elevator_weight := 0
  total_serviced := 0
  total_waiting := 0
  elevator_state := state_t.OFFLINE
  current_floor := 1
  direction := 1
  is_deactivating := false
  work_to_do := false

/-- The states reachable from module initialisation by the three control
calls (with either outcome of the worker start and of the allocation) and by
scheduler ticks, in any order.  A tick is allowed at any point, also where the
worker would be asleep or not running, so this set contains every state the
module can be in between two critical sections. -/
inductive Reachable : ElevState → Prop where
  | init : Reachable init_state
  | start (s : ElevState) (thread_ok : Bool) :
      Reachable s → Reachable (my_start_elevator s thread_ok).2
  | issue (s : ElevState) (start dest type : Int) (alloc_ok : Bool) :
      Reachable s → Reachable (my_issue_request s start dest type alloc_ok).2
  | stop (s : ElevState) : Reachable s → Reachable (my_stop_elevator s).2
  | tick (s : ElevState) : Reachable s → Reachable (tick s)

/-- The number of nodes the loop of `do_load` moves: it stops at the first
node that fails the test, with `n` items aboard weighing `w`. -/
def board_count (n w : Int) : List pet → Nat
  | [] => 0
  | p :: rest =>
    if n < 5 ∧ w + weights p.type ≤ 50 then
      board_count (n + 1) (w + weights p.type) rest + 1
    else 0

/-- The destination test of `do_unload` and `can_unload`. -/
def goes_to (floor : Int) (p : pet) : Bool := decide (p.dest_floor = floor)

/-- A request that passed the checks of `my_issue_request`. -/
def valid_pet (p : pet) : Prop :=
  0 ≤ p.type ∧ p.type ≤ 3 ∧ 1 ≤ p.dest_floor ∧ p.dest_floor ≤ 5

/-- Sum of an array of five counters. -/
def sum5 (g : Fin 5 → Int) : Int := g 0 + g 1 + g 2 + g 3 + g 4

/-- The consistency conditions that hold in every reachable state. -/
structure Inv (s : ElevState) : Prop where
  weight_eq : s.elevator_weight = weight_sum s.elevator_pets
  num_eq : s.elevator_num_pets = (s.elevator_pets.length : Int)
  num_le : s.elevator_pets.length ≤ 5
  weight_le : s.elevator_weight ≤ 50
  count_eq : ∀ k, s.floor_num_waiting k = ((s.floor_waiting k).length : Int)
  total_eq : s.total_waiting = sum5 s.floor_num_waiting
  offline_empty : s.elevator_state = state_t.OFFLINE → s.elevator_pets = []
  dir_unit : s.direction = 1 ∨ s.direction = -1
  floor_range : 1 ≤ s.current_floor ∧ s.current_floor ≤ 5
  pets_valid : ∀ p ∈ s.elevator_pets, valid_pet p
  queue_valid : ∀ k, ∀ p ∈ s.floor_waiting k, valid_pet p

/-- Example state: one request (floor 1 to floor 3, kind 0) submitted before
activation. -/
def ex_submitted : ElevState := (my_issue_request init_state 1 3 0 true).2

/-- Example state: the request of `ex_submitted`, the car activated, and one
scheduler tick (which boards the request at floor 1). -/
def ex_loaded : ElevState := tick (my_start_elevator ex_submitted true).2

/-- Example state: requests waiting on floors 1 and 4, car not activated. -/
def ex_two_floors : ElevState := (my_issue_request ex_submitted 4 2 1 true).2

/-- Example state (Scenario B): six requests on floor 1, kinds 3, 3, 2, 0, 0
(weights 16 + 16 + 10 + 3 + 3 = 48) and then a sixth of kind 0 (weight 3);
the car activated, empty, at floor 1. -/
def ex_scenario_b : ElevState :=
  (my_start_elevator
    (my_issue_request
      (my_issue_request
        (my_issue_request
          (my_issue_request
            (my_issue_request
              (my_issue_request init_state 1 2 3 true).2 1 3 3 true).2 1 4 2 true).2
          1 5 0 true).2 1 2 0 true).2 1 3 0 true).2 true).2

/-- Example state: three items aboard (kinds 3, 3, 2: 42 units) at floor 1,
where the queue then holds kind 1 (weight 14, too heavy) ahead of kind 0
(weight 3, which would fit on its own). -/
def ex_head_blocked : ElevState :=
  (my_issue_request
    (my_issue_request
      (tick
        (my_start_elevator
          (my_issue_request
            (my_issue_request
              (my_issue_request init_state 1 2 3 true).2 1 3 3 true).2 1 4 2 true).2 true).2)
      1 4 1 true).2 1 2 0 true).2

/-- Example state: the car of `ex_loaded` three ticks later (at floor 3, the
item delivered, direction still up), with a new request waiting on floor 2. -/
def ex_reversal : ElevState := (my_issue_request (tick^[3] ex_loaded) 2 1 0 true).2

/-- Example state: the car of `ex_loaded` told to stop while it carries its
item (bound for floor 3) and a further request waits on floor 2. -/
def ex_stopping : ElevState :=
  (my_stop_elevator (my_issue_request ex_loaded 2 5 1 true).2).2

/-- Example state: `ex_stopping` three ticks later, the manifest emptied at
floor 3 and the drain tick not yet taken. -/
def ex_drained : ElevState := tick^[3] ex_stopping

/-- Whether some item aboard is bound for `floor`: the `has_dest` scan of
`need_service`. -/
def dest_flag (s : ElevState) (floor : Int) : Bool :=
  s.elevator_pets.any (fun p => decide (p.dest_floor = floor))

/-- Two deactivating cars at the same floor, heading the same way, whose
manifests are bound for the same set of floors. -/
def SameCar (s t : ElevState) : Prop :=
  s.is_deactivating = true ∧ t.is_deactivating = true ∧
    s.current_floor = t.current_floor ∧ s.direction = t.direction ∧
    ∀ f : Int, dest_flag s f = dest_flag t f

/-- A deactivating car at floor `cf` heading `dir` that carries one item for
each floor of 1..5 whose flag is set. -/
def canon (cf dir : Int) (b1 b2 b3 b4 b5 : Bool) : ElevState :=
  { init_state with
    current_floor := cf
    direction := dir
    is_deactivating := true
    elevator_pets :=
      (if b1 then [⟨0, 1⟩] else []) ++ (if b2 then [⟨0, 2⟩] else []) ++
        (if b3 then [⟨0, 3⟩] else []) ++ (if b4 then [⟨0, 4⟩] else []) ++
        (if b5 then [⟨0, 5⟩] else []) }

/-- Example state: `ex_submitted` after a successful `my_start_elevator`. -/
def ex_activated : ElevState := (my_start_elevator ex_submitted true).2

/-- Two states that differ at most in `total_serviced`, `work_to_do` and
`elevator_state`: the three variables the scheduler writes but never reads. -/
def Agree (s t : ElevState) : Prop :=
  s.floor_waiting = t.floor_waiting ∧ s.floor_num_waiting = t.floor_num_waiting ∧
    s.elevator_pets = t.elevator_pets ∧ s.elevator_num_pets = t.elevator_num_pets ∧
    s.elevator_weight = t.elevator_weight ∧ s.total_waiting = t.total_waiting ∧
    s.current_floor = t.current_floor ∧ s.direction = t.direction ∧
    s.is_deactivating = t.is_deactivating

/-- Example state: `ex_drained` after its drain tick: Offline at floor 3 with
the deactivation flag still set and a request still waiting on floor 2. -/
def ex_offline_at_3 : ElevState := tick ex_drained

/-- The calls and scheduler steps that make up a run of the module. -/
inductive Event where
  | start (thread_ok : Bool)
  | issue (start dest type : Int) (alloc_ok : Bool)
  | stop
  | tick

/-- The state after one event. -/
def step (s : ElevState) : Event → ElevState
  | Event.start ok => (my_start_elevator s ok).2
  | Event.issue a b c ok => (my_issue_request s a b c ok).2
  | Event.stop => (my_stop_elevator s).2
  | Event.tick => tick s

/-- Whether the event is a `my_issue_request` call that returns 0. -/
def accepted (s : ElevState) : Event → Bool
  | Event.issue a b c ok => decide ((my_issue_request s a b c ok).1 = 0)
  | _ => false

/-- The state after a run (a list of events, first event first). -/
def run : List Event → ElevState → ElevState
  | [], s => s
  | e :: es, s => run es (step s e)

/-- The number of `my_issue_request` calls of a run that returned 0. -/
def accepted_count : List Event → ElevState → Nat
  | [], _ => 0
  | e :: es, s => (if accepted s e then 1 else 0) + accepted_count es (step s e)

/-- The number of items in the system and delivered, as the counters have it. -/
def in_system (s : ElevState) : Int :=
  s.total_waiting + s.elevator_num_pets + s.total_serviced

/-- Example state: five items of kind 0 for floor 2 boarded at floor 1, one
item waiting on floor 2, and the car just arrived at floor 2. -/
def ex_full_arrival : ElevState :=
  tick^[2]
    (my_start_elevator
      (my_issue_request
        (my_issue_request
          (my_issue_request
            (my_issue_request
              (my_issue_request
                (my_issue_request init_state 1 2 0 true).2 1 2 0 true).2 1 2 0 true).2
            1 2 0 true).2 1 2 0 true).2 2 3 0 true).2 true).2

end Elevator

/-! The timer module (`part2/src/my_timer.c`).

`my_timer_show` is a function of the module state (`last_read_time`,
`is_first_read`) and of the clock value returned by `ktime_get_real_ts64`; its
result is what it prints and the new module state.  `s64` and `time64_t` are
`Int` (no overflow: differences of real clock values are far below 2^63 ns);
C division and remainder are `Int.tdiv` and `Int.tmod`. -/

namespace Timer

/-- The kernel type `struct timespec64`. -/
structure timespec64 where
  tv_sec : Int
  tv_nsec : Int
  deriving DecidableEq, Repr

/-- The constant `NSEC_PER_SEC`. -/
def NSEC_PER_SEC : Int := 1000000000

/-- The kernel helper `set_normalized_timespec64` (Linux `kernel/time/time.c`,
not part of this repository): it adds or removes whole seconds until
`0 ≤ tv_nsec < NSEC_PER_SEC`, which is floor division of `nsec`. -/
def set_normalized_timespec64 (sec nsec : Int) : timespec64 :=
  { tv_sec := sec + nsec / NSEC_PER_SEC, tv_nsec := nsec % NSEC_PER_SEC }

/-- The kernel helper `timespec64_sub` (Linux `include/linux/time64.h`, not
part of this repository): the normalised difference `lhs - rhs`. -/
def timespec64_sub (lhs rhs : timespec64) : timespec64 :=
  set_normalized_timespec64 (lhs.tv_sec - rhs.tv_sec) (lhs.tv_nsec - rhs.tv_nsec)

/-- The file-level variables of `my_timer.c` that `my_timer_show` uses. -/
structure TimerState where
  last_read_time : timespec64
  is_first_read : Bool
  deriving DecidableEq, Repr

/-- What one read prints: the two numbers of the `Current time` line and, when
the `Elapsed time` line is printed, its two numbers
(`elapsed_ns / 1000000000` and `elapsed_ns % 1000000000`). -/
structure TimerOutput where
  current : Int × Int
  elapsed : Option (Int × Int)
  deriving DecidableEq, Repr

/-- The value `elapsed_ns` computed by `my_timer_show` on a read that is not
the first. -/
def elapsed_ns (current_time last_read_time : timespec64) : Int :=
  (timespec64_sub current_time last_read_time).tv_nsec +
    (current_time.tv_sec - last_read_time.tv_sec) * 1000000000

/-- The function `my_timer_show`, given the clock value `current_time`. -/
def my_timer_show (st : TimerState) (current_time : timespec64) : TimerOutput × TimerState :=
  let out : TimerOutput :=
    { current := (current_time.tv_sec, current_time.tv_nsec)
      elapsed :=
        if !st.is_first_read then
          some ((elapsed_ns current_time st.last_read_time).tdiv 1000000000,
            (elapsed_ns current_time st.last_read_time).tmod 1000000000)
        else none }
  (out, { last_read_time := current_time, is_first_read := false })

/-- The state set up by `my_timer_init` when the module is loaded at
`start_time`. -/
def my_timer_init (start_time : timespec64) : TimerState :=
  { last_read_time := start_time, is_first_read := true }

/-- A timestamp as a number of nanoseconds. -/
def to_ns (t : timespec64) : Int := t.tv_sec * 1000000000 + t.tv_nsec

/-- A normalised timestamp: nanoseconds in 0..999999999. -/
def normalised (t : timespec64) : Prop := 0 ≤ t.tv_nsec ∧ t.tv_nsec ≤ 999999999

end Timer

namespace Elevator

/-- The table `state_str[]`, indexed by the lifecycle state. -/
def state_str : state_t → String
  | state_t.OFFLINE => "OFFLINE"
  | state_t.IDLE => "IDLE"
  | state_t.UP => "UP"
  | state_t.DOWN => "DOWN"
  | state_t.LOADING => "LOADING"

/-- The table `type_chars[] = {'C', 'P', 'H', 'D'}`. -/
def type_chars_table : List Char := ['C', 'P', 'H', 'D']

/-- The lookup `type_chars[t]` (an index outside the table, out of bounds in
C, reads as `'?'`). -/
def type_chars (t : Int) : Char :=
  if 0 ≤ t then type_chars_table.getD t.toNat '?' else '?'

/-- The conversion `%d`. -/
def fmt_d (n : Int) : List Char := (toString n).toList

/-- The size `PROC_BUF_SIZE` of the kernel buffer. -/
def PROC_BUF_SIZE : Nat := 2048

/-- One step `len += scnprintf(kbuf + len, PROC_BUF_SIZE - len, ...)`: `buf`
is the text written so far (`len` characters) and `text` the formatted output
of the call; `scnprintf` stores as much of it as fits before the terminating
NUL and returns the number of characters stored. -/
def scnprintf (buf text : List Char) : List Char :=
  buf ++ text.take (PROC_BUF_SIZE - buf.length - 1)

/-- The loop `list_for_each_entry` of `proc_read` that prints ` %c%d` for each
item of a list. -/
def print_pets (buf : List Char) (l : List pet) : List Char :=
  l.foldl (fun b p => scnprintf b (' ' :: type_chars p.type :: fmt_d p.dest_floor)) buf

/-- The body of the floor loop of `proc_read` for floor `f`. -/
def print_floor (s : ElevState) (buf : List Char) (f : Int) : List Char :=
  let b1 :=
    scnprintf buf
      ("[".toList ++ [if f = s.current_floor then '*' else ' '] ++ "] Floor ".toList ++
        fmt_d f ++ ": ".toList ++ fmt_d (num_waiting_at s f))
  let b2 := if num_waiting_at s f > 0 then print_pets b1 (waiting_at s f) else b1
  scnprintf b2 "\n".toList

/-- The text that `proc_read` builds in `kbuf` (its first `len` characters). -/
def proc_buf (s : ElevState) : List Char :=
  let b1 :=
    scnprintf [] ("Elevator state: ".toList ++ (state_str s.elevator_state).toList ++ "\n".toList)
  let b2 := scnprintf b1 ("Current floor: ".toList ++ fmt_d s.current_floor ++ "\n".toList)
  let b3 := scnprintf b2 ("Current load: ".toList ++ fmt_d s.elevator_weight ++ " lbs\n".toList)
  let b4 := scnprintf b3 "Elevator status:".toList
  let b5 :=
    if s.elevator_pets = [] then scnprintf b4 " (empty)".toList
    else print_pets b4 s.elevator_pets
  let b6 := scnprintf b5 "\n".toList
  let b7 := ([5, 4, 3, 2, 1] : List Int).foldl (print_floor s) b6
  let b8 := scnprintf b7 ("Number of pets: ".toList ++ fmt_d s.elevator_num_pets ++ "\n".toList)
  let b9 :=
    scnprintf b8 ("Number of pets waiting: ".toList ++ fmt_d s.total_waiting ++ "\n".toList)
  scnprintf b9 ("Number of pets serviced: ".toList ++ fmt_d s.total_serviced ++ "\n".toList)

/-- The error number `ENOSPC`. -/
def ENOSPC : Int := 28

/-- The error number `EFAULT`. -/
def EFAULT : Int := 14

/-- What a call of `proc_read` gives back: its return value, the characters
copied to the user buffer, and the file offset afterwards. -/
structure ReadResult where
  ret : Int
  copied : List Char
  offs : Int
  deriving DecidableEq

/-- The function `proc_read`, for a user buffer of `size` bytes and file
offset `offs`; `alloc_ok` and `copy_ok` tell whether `kmalloc` and
`copy_to_user` succeeded.  It returns the shared state as well: no statement
of `proc_read` writes to it. -/
def proc_read (s : ElevState) (size : Nat) (offs : Int) (alloc_ok copy_ok : Bool) :
    ReadResult × ElevState :=
  if offs > 0 then ({ ret := 0, copied := [], offs := offs }, s)
  else if !alloc_ok then ({ ret := -ENOMEM, copied := [], offs := offs }, s)
  else if (proc_buf s).length > size then ({ ret := -ENOSPC, copied := [], offs := offs }, s)
  else if !copy_ok then ({ ret := -EFAULT, copied := [], offs := offs }, s)
  else
    ({ ret := ((proc_buf s).length : Int), copied := proc_buf s,
       offs := offs + ((proc_buf s).length : Int) }, s)

/-- The report the specification describes, items part: ` <kind char><dest>`
for each item, in list order. -/
def pets_text : List pet → List Char
  | [] => []
  | p :: rest => (' ' :: type_chars p.type :: fmt_d p.dest_floor) ++ pets_text rest

/-- The report the specification describes, line of floor `f`: the marker,
the count and the waiting items in FIFO order. -/
def report_floor (s : ElevState) (f : Int) : List Char :=
  "[".toList ++ [if f = s.current_floor then '*' else ' '] ++ "] Floor ".toList ++
    fmt_d f ++ ": ".toList ++ fmt_d (num_waiting_at s f) ++ pets_text (waiting_at s f) ++
    "\n".toList

/-- The report the specification describes, in full: state, floor, load,
manifest line, floors 5 down to 1, the three counters. -/
def report (s : ElevState) : List Char :=
  "Elevator state: ".toList ++ (state_str s.elevator_state).toList ++ "\n".toList ++
    ("Current floor: ".toList ++ fmt_d s.current_floor ++ "\n".toList) ++
    ("Current load: ".toList ++ fmt_d s.elevator_weight ++ " lbs\n".toList) ++
    "Elevator status:".toList ++
    (if s.elevator_pets = [] then " (empty)".toList else pets_text s.elevator_pets) ++
    "\n".toList ++
    report_floor s 5 ++ report_floor s 4 ++ report_floor s 3 ++ report_floor s 2 ++
    report_floor s 1 ++
    ("Number of pets: ".toList ++ fmt_d s.elevator_num_pets ++ "\n".toList) ++
    ("Number of pets waiting: ".toList ++ fmt_d s.total_waiting ++ "\n".toList) ++
    ("Number of pets serviced: ".toList ++ fmt_d s.total_serviced ++ "\n".toList)

/-- One more request of kind 0 on floor 1, for floor 2. -/
def crowd_step (s : ElevState) : ElevState := (my_issue_request s 1 2 0 true).2

/-- Example state: 700 requests (kind 0, for floor 2) submitted on floor 1. -/
def ex_crowd : ElevState := crowd_step^[700] init_state

/-- Whether the head of the queue of `floor` would be admitted by the car as
it is: the test of `can_load`, for any floor. -/
def head_fits (s : ElevState) (floor : Int) : Bool :=
  match waiting_at s floor with
  | [] => false
  | p :: _ =>
    decide (s.elevator_num_pets < 5) && decide (s.elevator_weight + weights p.type ≤ 50)

/-- Whether a tick with the car at `floor` would take the loading branch:
something to unload there, or boarding possible there. -/
def serviceable (s : ElevState) (floor : Int) : Bool :=
  dest_flag s floor || (!s.is_deactivating && head_fits s floor)

/-- The scan of `has_requests_in_dir` over an arbitrary set of floors `S`. -/
def ahead (S : Int → Bool) (cf dir : Int) : Bool :=
  if dir > 0 then
    (List.range (5 - cf).toNat).any (fun j => S (cf + 1 + (j : Int)))
  else
    (List.range (cf - 1).toNat).any (fun j => S (cf - 1 - (j : Int)))

/-- The direction the movement branch takes: kept when a floor of `S` lies
ahead, reversed otherwise. -/
def look_dir (S : Int → Bool) (cf dir : Int) : Int :=
  if ahead S cf dir then dir else -dir

/-- The number of movement steps (counted up to `fuel`) the LOOK rule over the
floors `S` takes from floor `cf`, direction `dir`, until the car stands on a
floor of `U`. -/
def steps_to (S U : Int → Bool) : Nat → Int → Int → Nat
  | 0, _, _ => 0
  | fuel + 1, cf, dir =>
    if U cf then 0
    else steps_to S U fuel (cf + look_dir S cf dir) (look_dir S cf dir) + 1

/-- The set of floors among 1..5 given by five flags. -/
def bits (b1 b2 b3 b4 b5 : Bool) (f : Int) : Bool :=
  if f = 1 then b1 else if f = 2 then b2 else if f = 3 then b3 else if f = 4 then b4
  else if f = 5 then b5 else false

/-- Work left for the loading ticks: every item waiting still has to board and
to get off, every item aboard still has to get off. -/
def load_work (s : ElevState) : Int := 3 * s.total_waiting + 2 * s.elevator_num_pets

/-- A bound on the number of ticks before the scheduler goes Idle: 17 ticks
for each unit of `load_work`, plus the movement steps to the next floor where
loading is possible. -/
def ticks_bound (s : ElevState) : Nat :=
  (load_work s).toNat * 17 +
    steps_to (need_service s) (serviceable s) 16 s.current_floor s.direction

/-- Example state: the car of `ex_loaded` (one item aboard, bound for floor 3,
state Loading at floor 1) with a further request waiting on floor 4 for
floor 2. -/
def ex_busy : ElevState := (my_issue_request ex_loaded 4 2 1 true).2

theorem weights_nonneg (t : Int) : 0 ≤ weights t := by
  unfold weights weights_table
  split
  · rcases h : t.toNat with _ | _ | _ | _ | _ | n <;> simp [List.getD]
  · exact le_refl 0

theorem weights_le (t : Int) : weights t ≤ 16 := by
  unfold weights weights_table
  split
  · rcases h : t.toNat with _ | _ | _ | _ | _ | n <;> simp [List.getD]
  · decide

theorem weight_sum_nonneg (l : List pet) : 0 ≤ weight_sum l := by
  induction l with
  | nil => simp [weight_sum]
  | cons p l ih =>
    have := weights_nonneg p.type
    simp only [weight_sum, List.map_cons, List.sum_cons] at ih ⊢
    omega

theorem weight_sum_cons (p : pet) (l : List pet) :
    weight_sum (p :: l) = weights p.type + weight_sum l := by
  simp [weight_sum]

theorem weight_sum_append (a b : List pet) :
    weight_sum (a ++ b) = weight_sum a + weight_sum b := by
  simp [weight_sum]

theorem do_unload_loop_eq (l kept : List pet) (s : ElevState)
    (h : s.elevator_pets = kept ++ l) :
    do_unload_loop kept l s =
      { s with
        elevator_pets := kept ++ l.filter (fun p => !goes_to s.current_floor p)
        elevator_weight := s.elevator_weight - weight_sum (l.filter (goes_to s.current_floor))
        elevator_num_pets := s.elevator_num_pets - ((l.filter (goes_to s.current_floor)).length : Int)
        total_serviced := s.total_serviced + ((l.filter (goes_to s.current_floor)).length : Int) } := by
  induction l generalizing kept s with
  | nil =>
    cases s
    simp_all [do_unload_loop, weight_sum]
  | cons p rest ih =>
    by_cases hp : p.dest_floor = s.current_floor
    · rw [do_unload_loop, if_pos hp, ih _ _ rfl]
      cases s
      simp_all [goes_to, weight_sum]
      omega
    · rw [do_unload_loop, if_neg hp, ih _ _ (by simp [h])]
      cases s
      simp_all [goes_to, weight_sum]

theorem do_unload_eq (s : ElevState) :
    do_unload s =
      { s with
        elevator_pets := s.elevator_pets.filter (fun p => !goes_to s.current_floor p)
        elevator_weight :=
          s.elevator_weight - weight_sum (s.elevator_pets.filter (goes_to s.current_floor))
        elevator_num_pets :=
          s.elevator_num_pets - ((s.elevator_pets.filter (goes_to s.current_floor)).length : Int)
        total_serviced :=
          s.total_serviced + ((s.elevator_pets.filter (goes_to s.current_floor)).length : Int) } := by
  have := do_unload_loop_eq s.elevator_pets [] s rfl
  simpa [do_unload] using this

theorem do_load_loop_eq (k : Fin 5) (l : List pet) (s : ElevState)
    (h : s.floor_waiting k = l) :
    do_load_loop k l s =
      { s with
        floor_waiting :=
          Function.update s.floor_waiting k
            (l.drop (board_count s.elevator_num_pets s.elevator_weight l))
        elevator_pets :=
          s.elevator_pets ++ l.take (board_count s.elevator_num_pets s.elevator_weight l)
        elevator_weight :=
          s.elevator_weight +
            weight_sum (l.take (board_count s.elevator_num_pets s.elevator_weight l))
        elevator_num_pets :=
          s.elevator_num_pets + (board_count s.elevator_num_pets s.elevator_weight l : Int)
        floor_num_waiting :=
          Function.update s.floor_num_waiting k
            (s.floor_num_waiting k - (board_count s.elevator_num_pets s.elevator_weight l : Int))
        total_waiting :=
          s.total_waiting - (board_count s.elevator_num_pets s.elevator_weight l : Int) } := by
  induction l generalizing s with
  | nil =>
    cases s
    simp_all [do_load_loop, board_count, weight_sum]
  | cons p rest ih =>
    by_cases hp : s.elevator_num_pets < 5 ∧ s.elevator_weight + weights p.type ≤ 50
    · rw [do_load_loop, if_pos hp, ih _ (by simp)]
      simp only [board_count, if_pos hp]
      apply ElevState.ext <;>
        simp only [Function.update_same, Function.update_idem, List.drop_succ_cons,
          List.take_succ_cons, List.append_assoc, List.singleton_append, weight_sum_cons,
          Nat.cast_add, Nat.cast_one]
      all_goals first | omega | ring_nf
    · rw [do_load_loop, if_neg hp]
      simp only [board_count, if_neg hp]
      apply ElevState.ext <;> simp [weight_sum, ← h]

theorem board_count_le (l : List pet) (n w : Int) : board_count n w l ≤ l.length := by
  induction l generalizing n w with
  | nil => simp [board_count]
  | cons p rest ih =>
    unfold board_count
    split
    · have := ih (n + 1) (w + weights p.type)
      simp only [List.length_cons]
      omega
    · omega

theorem board_count_fits (l : List pet) (n w : Int) (a c : List pet) (b : pet)
    (h : l.take (board_count n w l) = a ++ b :: c) :
    n + (a.length : Int) < 5 ∧ w + weight_sum a + weights b.type ≤ 50 := by
  induction l generalizing n w a with
  | nil => simp [board_count] at h
  | cons p rest ih =>
    by_cases hp : n < 5 ∧ w + weights p.type ≤ 50
    · simp only [board_count, if_pos hp, List.take_succ_cons] at h
      cases a with
      | nil =>
        simp only [List.nil_append, List.cons.injEq] at h
        rw [← h.1]
        simpa [weight_sum] using hp
      | cons q a2 =>
        simp only [List.cons_append, List.cons.injEq] at h
        have := ih (n + 1) (w + weights p.type) a2 h.2
        rw [← h.1, weight_sum_cons]
        simp only [List.length_cons, Nat.cast_add, Nat.cast_one]
        omega
    · simp [board_count, if_neg hp] at h

theorem board_count_stops (l : List pet) (n w : Int) (p : pet) (rest : List pet)
    (h : l.drop (board_count n w l) = p :: rest) :
    ¬ (n + (board_count n w l : Int) < 5 ∧
        w + weight_sum (l.take (board_count n w l)) + weights p.type ≤ 50) := by
  induction l generalizing n w with
  | nil => simp [board_count] at h
  | cons q l2 ih =>
    by_cases hq : n < 5 ∧ w + weights q.type ≤ 50
    · simp only [board_count, if_pos hq, List.drop_succ_cons, List.take_succ_cons,
        weight_sum_cons, Nat.cast_add, Nat.cast_one] at h ⊢
      have := ih (n + 1) (w + weights q.type) h
      intro hc
      apply this
      omega
    · simp only [board_count, if_neg hq, List.drop_zero, List.cons.injEq, List.take_zero,
        Nat.cast_zero] at h ⊢
      rw [← h.1]
      simpa [weight_sum] using hq

/-! ## Scans over the floors -/

theorem sum5_update (g : Fin 5 → Int) (k : Fin 5) (v : Int) :
    sum5 (Function.update g k v) = sum5 g - g k + v := by
  fin_cases k <;> simp [sum5, Function.update] <;> omega

theorem floor_idx_none (f : Int) (h : ¬ (1 ≤ f ∧ f ≤ 5)) : floor_idx f = none := by
  simp [floor_idx, h]

theorem floor_idx_some (f : Int) (h : 1 ≤ f ∧ f ≤ 5) : ∃ k : Fin 5, floor_idx f = some k := by
  simp [floor_idx, h]

theorem floor_idx_val (f : Int) (k : Fin 5) (h : floor_idx f = some k) :
    ((k : Nat) : Int) = f - 1 ∧ 1 ≤ f ∧ f ≤ 5 := by
  unfold floor_idx at h
  split at h
  · rename_i hf
    simp only [Option.some.injEq] at h
    subst h
    simp only
    omega
  · exact absurd h (by simp)

theorem has_pending_iff (s : ElevState) :
    has_pending s = true ↔ ∃ f : Int, 1 ≤ f ∧ f ≤ 5 ∧ need_service s f = true := by
  unfold has_pending
  rw [List.any_eq_true]
  constructor
  · rintro ⟨i, hi, hs⟩
    rw [List.mem_range] at hi
    exact ⟨(i : Int) + 1, by omega, by omega, hs⟩
  · rintro ⟨f, h1, h5, hs⟩
    refine ⟨(f - 1).toNat, List.mem_range.mpr (by omega), ?_⟩
    have : (((f - 1).toNat : Nat) : Int) + 1 = f := by omega
    rw [this]
    exact hs

theorem has_requests_up_iff (s : ElevState) (dir : Int) (hd : dir > 0) :
    has_requests_in_dir s dir = true ↔
      ∃ f : Int, s.current_floor < f ∧ f ≤ 5 ∧ need_service s f = true := by
  unfold has_requests_in_dir
  rw [if_pos hd, List.any_eq_true]
  constructor
  · rintro ⟨j, hj, hs⟩
    rw [List.mem_range] at hj
    exact ⟨s.current_floor + 1 + (j : Int), by omega, by omega, hs⟩
  · rintro ⟨f, h1, h5, hs⟩
    refine ⟨(f - s.current_floor - 1).toNat, List.mem_range.mpr (by omega), ?_⟩
    have : s.current_floor + 1 + (((f - s.current_floor - 1).toNat : Nat) : Int) = f := by omega
    rw [this]
    exact hs

theorem has_requests_down_iff (s : ElevState) (dir : Int) (hd : ¬ dir > 0) :
    has_requests_in_dir s dir = true ↔
      ∃ f : Int, 1 ≤ f ∧ f < s.current_floor ∧ need_service s f = true := by
  unfold has_requests_in_dir
  rw [if_neg hd, List.any_eq_true]
  constructor
  · rintro ⟨j, hj, hs⟩
    rw [List.mem_range] at hj
    exact ⟨s.current_floor - 1 - (j : Int), by omega, by omega, hs⟩
  · rintro ⟨f, h1, h5, hs⟩
    refine ⟨(s.current_floor - 1 - f).toNat, List.mem_range.mpr (by omega), ?_⟩
    have : s.current_floor - 1 - (((s.current_floor - 1 - f).toNat : Nat) : Int) = f := by omega
    rw [this]
    exact hs

theorem need_service_of_dest (s : ElevState) (p : pet) (hp : p ∈ s.elevator_pets) :
    need_service s p.dest_floor = true := by
  unfold need_service
  simp only [Bool.or_eq_true, List.any_eq_true, decide_eq_true_eq]
  exact Or.inr ⟨p, hp, rfl⟩

theorem can_unload_false_iff (s : ElevState) :
    can_unload s = false ↔ ∀ p ∈ s.elevator_pets, p.dest_floor ≠ s.current_floor := by
  unfold can_unload
  simp [List.any_eq_false]

/-! ## The invariant -/

theorem weight_sum_filter (f : pet → Bool) (l : List pet) :
    weight_sum l = weight_sum (l.filter f) + weight_sum (l.filter (fun p => !f p)) := by
  induction l with
  | nil => simp [weight_sum]
  | cons p l ih =>
    cases hf : f p <;> simp [List.filter, hf, weight_sum_cons] <;> omega

theorem length_filter_split (f : pet → Bool) (l : List pet) :
    l.length = (l.filter f).length + (l.filter (fun p => !f p)).length := by
  induction l with
  | nil => simp
  | cons p l ih =>
    cases hf : f p <;> simp [List.filter, hf] <;> omega

theorem board_count_bound (l : List pet) (n w : Int) (hn : n ≤ 5) (hw : w ≤ 50) :
    n + (board_count n w l : Int) ≤ 5 ∧ w + weight_sum (l.take (board_count n w l)) ≤ 50 := by
  induction l generalizing n w with
  | nil => simp [board_count, weight_sum, hn, hw]
  | cons p rest ih =>
    by_cases hp : n < 5 ∧ w + weights p.type ≤ 50
    · simp only [board_count, if_pos hp, List.take_succ_cons, weight_sum_cons, Nat.cast_add,
        Nat.cast_one]
      have := ih (n + 1) (w + weights p.type) (by omega) hp.2
      omega
    · simp [board_count, if_neg hp, weight_sum, hn, hw]

theorem inv_init : Inv init_state := by
  constructor <;> simp [init_state, weight_sum, sum5]

theorem inv_do_unload (s : ElevState) (h : Inv s) : Inv (do_unload s) := by
  rw [do_unload_eq]
  have hw := weight_sum_filter (goes_to s.current_floor) s.elevator_pets
  have hl := length_filter_split (goes_to s.current_floor) s.elevator_pets
  have hnn := weight_sum_nonneg (s.elevator_pets.filter (goes_to s.current_floor))
  have h1 := h.weight_eq
  have h2 := h.num_eq
  have h3 := h.num_le
  have h4 := h.weight_le
  constructor
  · simp only; omega
  · simp only; omega
  · simp only; omega
  · simp only; omega
  · exact h.count_eq
  · exact h.total_eq
  · intro ho
    simp only at ho ⊢
    rw [h.offline_empty ho]
    rfl
  · exact h.dir_unit
  · exact h.floor_range
  · intro p hp
    exact h.pets_valid p (List.mem_of_mem_filter hp)
  · exact h.queue_valid

theorem inv_do_load (s : ElevState) (h : Inv s) (hs : s.elevator_state ≠ state_t.OFFLINE) :
    Inv (do_load s) := by
  unfold do_load
  split
  · rename_i k hk
    rw [do_load_loop_eq k _ s rfl]
    have hb := board_count_bound (s.floor_waiting k) s.elevator_num_pets s.elevator_weight
      (by have := h.num_eq; have := h.num_le; omega) h.weight_le
    have hle := board_count_le (s.floor_waiting k) s.elevator_num_pets s.elevator_weight
    have h1 := h.weight_eq
    have h2 := h.num_eq
    have h5 := h.count_eq k
    constructor
    · simp only [weight_sum_append]; omega
    · simp only [List.length_append, List.length_take, Nat.cast_add]; omega
    · simp only [List.length_append, List.length_take]; omega
    · simp only; omega
    · intro j
      by_cases hj : j = k
      · subst hj
        simp only [Function.update_same, List.length_drop]
        omega
      · simp only [Function.update_noteq hj]
        exact h.count_eq j
    · simp only [sum5_update]
      have := h.total_eq
      omega
    · intro ho
      exact absurd ho hs
    · exact h.dir_unit
    · exact h.floor_range
    · intro p hp
      simp only [List.mem_append] at hp
      rcases hp with hp | hp
      · exact h.pets_valid p hp
      · exact h.queue_valid k p (List.mem_of_mem_take hp)
    · intro j p hp
      by_cases hj : j = k
      · subst hj
        simp only [Function.update_same] at hp
        exact h.queue_valid j p (List.mem_of_mem_drop hp)
      · simp only [Function.update_noteq hj] at hp
        exact h.queue_valid j p hp
  · exact h

theorem inv_start (s : ElevState) (thread_ok : Bool) (h : Inv s) :
    Inv (my_start_elevator s thread_ok).2 := by
  unfold my_start_elevator
  by_cases ho : s.elevator_state = state_t.OFFLINE
  · have he := h.offline_empty ho
    rw [if_neg (by simpa using ho)]
    cases thread_ok <;>
    · constructor <;> simp [he, weight_sum]
      · exact h.count_eq
      · exact h.total_eq
      · exact h.queue_valid
  · rw [if_pos ho]
    exact h

theorem inv_issue (s : ElevState) (start dest type : Int) (alloc_ok : Bool) (h : Inv s) :
    Inv (my_issue_request s start dest type alloc_ok).2 := by
  unfold my_issue_request
  split
  · exact h
  · rename_i hv
    split
    · exact h
    · obtain ⟨k, hk⟩ := floor_idx_some start (by omega)
      simp only [hk]
      have key : Inv
          { s with
            floor_waiting :=
              Function.update s.floor_waiting k (s.floor_waiting k ++ [⟨type, dest⟩])
            floor_num_waiting :=
              Function.update s.floor_num_waiting k (s.floor_num_waiting k + 1)
            total_waiting := s.total_waiting + 1 } := by
        constructor
        · exact h.weight_eq
        · exact h.num_eq
        · exact h.num_le
        · exact h.weight_le
        · intro j
          by_cases hj : j = k
          · subst hj
            have := h.count_eq j
            simp only [Function.update_same, List.length_append, List.length_singleton,
              Nat.cast_add, Nat.cast_one]
            omega
          · simp only [Function.update_noteq hj]
            exact h.count_eq j
        · have := h.total_eq
          simp only [sum5_update]
          omega
        · exact h.offline_empty
        · exact h.dir_unit
        · exact h.floor_range
        · exact h.pets_valid
        · intro j p hp
          by_cases hj : j = k
          · subst hj
            simp only [Function.update_same, List.mem_append, List.mem_singleton] at hp
            rcases hp with hp | hp
            · exact h.queue_valid j p hp
            · subst hp
              simp only [valid_pet]
              omega
          · simp only [Function.update_noteq hj] at hp
            exact h.queue_valid j p hp
      split
      · exact
          { weight_eq := key.weight_eq, num_eq := key.num_eq, num_le := key.num_le,
            weight_le := key.weight_le, count_eq := key.count_eq, total_eq := key.total_eq,
            offline_empty := key.offline_empty, dir_unit := key.dir_unit,
            floor_range := key.floor_range, pets_valid := key.pets_valid,
            queue_valid := key.queue_valid }
      · exact key

theorem inv_stop (s : ElevState) (h : Inv s) : Inv (my_stop_elevator s).2 := by
  unfold my_stop_elevator
  split
  · exact h
  · exact
      { weight_eq := h.weight_eq, num_eq := h.num_eq, num_le := h.num_le,
        weight_le := h.weight_le, count_eq := h.count_eq, total_eq := h.total_eq,
        offline_empty := h.offline_empty, dir_unit := h.dir_unit,
        floor_range := h.floor_range, pets_valid := h.pets_valid,
        queue_valid := h.queue_valid }

/-- When the scheduler reaches the movement branch in a consistent state, some
floor other than the current one needs service. -/
theorem pending_elsewhere (s : ElevState) (h : Inv s)
    (hl : can_unload s = false) (hb : (!s.is_deactivating && can_load s) = false)
    (hp : has_pending s = true) :
    ∃ f : Int, 1 ≤ f ∧ f ≤ 5 ∧ f ≠ s.current_floor ∧ need_service s f = true := by
  obtain ⟨f, h1, h5, hf⟩ := (has_pending_iff s).mp hp
  by_cases hfc : f = s.current_floor
  · have hnd := (can_unload_false_iff s).mp hl
    have hne : s.elevator_pets ≠ [] := by
      intro he
      unfold need_service at hf
      simp only [he, List.any_nil, Bool.or_false, Bool.and_eq_true, Bool.not_eq_true',
        decide_eq_true_eq] at hf
      obtain ⟨hd, hc⟩ := hf
      obtain ⟨k, hk⟩ := floor_idx_some f ⟨h1, h5⟩
      have hcnt := h.count_eq k
      have hw := h.weight_eq
      have hn := h.num_eq
      simp only [num_waiting_at, hk] at hc
      simp only [hd, Bool.not_false, Bool.true_and] at hb
      unfold can_load at hb
      simp only [waiting_at, ← hfc, hk] at hb
      cases hq : s.floor_waiting k with
      | nil => simp [hq] at hcnt; omega
      | cons p rest =>
        simp only [hq, Bool.and_eq_false_iff, decide_eq_false_iff_not] at hb
        have := weights_le p.type
        simp only [he, weight_sum, List.map_nil, List.sum_nil, List.length_nil, Nat.cast_zero]
          at hw hn
        omega
    obtain ⟨q, hq⟩ := List.exists_mem_of_ne_nil _ hne
    have hv := h.pets_valid q hq
    exact ⟨q.dest_floor, hv.2.2.1, hv.2.2.2, hnd q hq, need_service_of_dest s q hq⟩
  · exact ⟨f, h1, h5, hfc, hf⟩

theorem inv_with_state (s : ElevState) (st : state_t) (wk : Bool) (h : Inv s)
    (hst : st = state_t.OFFLINE → s.elevator_pets = []) :
    Inv { s with elevator_state := st, work_to_do := wk } :=
  { weight_eq := h.weight_eq, num_eq := h.num_eq, num_le := h.num_le,
    weight_le := h.weight_le, count_eq := h.count_eq, total_eq := h.total_eq,
    offline_empty := hst, dir_unit := h.dir_unit,
    floor_range := h.floor_range, pets_valid := h.pets_valid,
    queue_valid := h.queue_valid }

theorem do_unload_state (s : ElevState) : (do_unload s).elevator_state = s.elevator_state := by
  rw [do_unload_eq]

/-- In the movement branch the floor the car moves to is inside the building. -/
theorem move_in_range (s : ElevState) (h : Inv s)
    (hl : can_unload s = false) (hb : (!s.is_deactivating && can_load s) = false)
    (hp : has_pending s = true) :
    1 ≤ s.current_floor +
        (if has_requests_in_dir s s.direction = true then s.direction else -s.direction) ∧
      s.current_floor +
        (if has_requests_in_dir s s.direction = true then s.direction else -s.direction) ≤ 5 := by
  obtain ⟨f, h1, h5, hne, hf⟩ := pending_elsewhere s h hl hb hp
  have hr := h.floor_range
  rcases h.dir_unit with hd | hd
  · by_cases ha : has_requests_in_dir s s.direction = true
    · rw [if_pos ha]
      obtain ⟨g, hg1, hg5, _⟩ := (has_requests_up_iff s s.direction (by omega)).mp ha
      omega
    · rw [if_neg ha]
      have hlow : f < s.current_floor := by
        by_contra hc
        exact ha ((has_requests_up_iff s s.direction (by omega)).mpr ⟨f, by omega, h5, hf⟩)
      omega
  · by_cases ha : has_requests_in_dir s s.direction = true
    · rw [if_pos ha]
      obtain ⟨g, hg1, hg5, _⟩ := (has_requests_down_iff s s.direction (by omega)).mp ha
      omega
    · rw [if_neg ha]
      have hhigh : s.current_floor < f := by
        by_contra hc
        exact ha ((has_requests_down_iff s s.direction (by omega)).mpr ⟨f, h1, by omega, hf⟩)
      omega

theorem inv_tick (s : ElevState) (h : Inv s) : Inv (tick s) := by
  unfold tick
  split
  · rename_i hd
    exact inv_with_state s state_t.OFFLINE false h (fun _ => hd.2)
  · simp only []
    split
    · have h1 : Inv { s with elevator_state := state_t.LOADING } :=
        inv_with_state s state_t.LOADING s.work_to_do h (fun hc => by cases hc)
      have h2 : Inv (if can_unload s = true then do_unload { s with elevator_state := state_t.LOADING }
          else { s with elevator_state := state_t.LOADING }) := by
        split
        · exact inv_do_unload _ h1
        · exact h1
      have h2s : (if can_unload s = true then do_unload { s with elevator_state := state_t.LOADING }
          else { s with elevator_state := state_t.LOADING }).elevator_state ≠ state_t.OFFLINE := by
        split
        · rw [do_unload_state]; simp
        · simp
      split
      · exact inv_do_load _ h2 h2s
      · exact h2
    · rename_i hnl
      simp only [Bool.or_eq_true, not_or, Bool.not_eq_true] at hnl
      split
      · rename_i hp
        have hm := move_in_range s h hnl.1 hnl.2 hp
        exact
          { weight_eq := h.weight_eq, num_eq := h.num_eq, num_le := h.num_le,
            weight_le := h.weight_le, count_eq := h.count_eq, total_eq := h.total_eq,
            offline_empty := by
              intro hc
              simp only at hc
              split_ifs at hc
            dir_unit := by
              simp only
              rcases h.dir_unit with hd | hd <;> split <;> omega
            floor_range := hm, pets_valid := h.pets_valid,
            queue_valid := h.queue_valid }
      · exact inv_with_state s state_t.IDLE false h (fun hc => by cases hc)

theorem inv_reachable (s : ElevState) (h : Reachable s) : Inv s := by
  induction h with
  | init => exact inv_init
  | start s ok _ ih => exact inv_start s ok ih
  | issue s a b c ok _ ih => exact inv_issue s a b c ok ih
  | stop s _ ih => exact inv_stop s ih
  | tick s _ ih => exact inv_tick s ih

/-! ## Invariants of the reachable states -/

/-- C1: in every reachable state the car weight is the sum of the kind-weights
of the manifest (3, 14, 10, 16 for kinds 0..3, and every kind aboard is one of
these), the onboard count is the manifest length, the manifest holds at most 5
items and the weight is at most 50. -/
theorem C1_car_invariant (s : ElevState) (h : Reachable s) :
    s.elevator_weight = weight_sum s.elevator_pets ∧
      s.elevator_num_pets = (s.elevator_pets.length : Int) ∧
      s.elevator_pets.length ≤ 5 ∧
      s.elevator_weight ≤ 50 ∧
      (∀ p ∈ s.elevator_pets, 0 ≤ p.type ∧ p.type ≤ 3) ∧
      (weights 0 = 3 ∧ weights 1 = 14 ∧ weights 2 = 10 ∧ weights 3 = 16) := by
  have hi := inv_reachable s h
  refine ⟨hi.weight_eq, hi.num_eq, hi.num_le, hi.weight_le, ?_, by decide⟩
  intro p hp
  exact ⟨(hi.pets_valid p hp).1, (hi.pets_valid p hp).2.1⟩

theorem C1_car_invariant_witness :
    Reachable ex_loaded ∧
      (ex_loaded.elevator_pets = [⟨0, 3⟩] ∧ ex_loaded.elevator_weight = 3) ∧
      (ex_loaded.elevator_weight = weight_sum ex_loaded.elevator_pets ∧
        ex_loaded.elevator_num_pets = (ex_loaded.elevator_pets.length : Int) ∧
        ex_loaded.elevator_pets.length ≤ 5 ∧
        ex_loaded.elevator_weight ≤ 50 ∧
        (∀ p ∈ ex_loaded.elevator_pets, 0 ≤ p.type ∧ p.type ≤ 3) ∧
        (weights 0 = 3 ∧ weights 1 = 14 ∧ weights 2 = 10 ∧ weights 3 = 16)) :=
  have hr : Reachable ex_loaded :=
    Reachable.tick _ (Reachable.start _ true (Reachable.issue _ 1 3 0 true Reachable.init))
  ⟨hr, by decide, C1_car_invariant ex_loaded hr⟩

/-- C2: in every reachable state each cached count `floor_num_waiting[f]`
is the length of the queue of floor `f`, and `total_waiting` is the sum of the
five floor counts. -/
theorem C2_queue_counts (s : ElevState) (h : Reachable s) :
    (∀ k : Fin 5, s.floor_num_waiting k = ((s.floor_waiting k).length : Int)) ∧
      (∀ f : Int, num_waiting_at s f = ((waiting_at s f).length : Int)) ∧
      s.total_waiting =
        s.floor_num_waiting 0 + s.floor_num_waiting 1 + s.floor_num_waiting 2 +
          s.floor_num_waiting 3 + s.floor_num_waiting 4 := by
  have hi := inv_reachable s h
  refine ⟨hi.count_eq, ?_, hi.total_eq⟩
  intro f
  unfold num_waiting_at waiting_at
  split
  · exact hi.count_eq _
  · rfl

theorem C2_queue_counts_witness :
    Reachable ex_two_floors ∧
      (ex_two_floors.floor_waiting 0 = [⟨0, 3⟩] ∧ ex_two_floors.floor_waiting 3 = [⟨1, 2⟩] ∧
        ex_two_floors.total_waiting = 2) ∧
      ((∀ k : Fin 5,
          ex_two_floors.floor_num_waiting k = ((ex_two_floors.floor_waiting k).length : Int)) ∧
        (∀ f : Int, num_waiting_at ex_two_floors f = ((waiting_at ex_two_floors f).length : Int)) ∧
        ex_two_floors.total_waiting =
          ex_two_floors.floor_num_waiting 0 + ex_two_floors.floor_num_waiting 1 +
            ex_two_floors.floor_num_waiting 2 + ex_two_floors.floor_num_waiting 3 +
            ex_two_floors.floor_num_waiting 4) :=
  have hr : Reachable ex_two_floors :=
    Reachable.issue _ 4 2 1 true (Reachable.issue _ 1 3 0 true Reachable.init)
  ⟨hr, by decide, C2_queue_counts ex_two_floors hr⟩

/-! ## The control calls -/

/-- C3: with the allocation succeeding, `my_issue_request` returns 1 exactly
when `start` or `dest` is outside 1..5, or they are equal, or `type` is outside
0..3, and 0 otherwise; whenever it returns 1 (bad arguments or failed
allocation) the whole shared state is exactly as before. -/
theorem C3_issue_validation (s : ElevState) (start dest type : Int) :
    ((my_issue_request s start dest type true).1 = 1 ↔
        (start < 1 ∨ 5 < start) ∨ (dest < 1 ∨ 5 < dest) ∨ start = dest ∨
          (type < 0 ∨ 3 < type)) ∧
      ((my_issue_request s start dest type true).1 ≠ 1 ↔
        (my_issue_request s start dest type true).1 = 0) ∧
      (∀ alloc_ok : Bool, (my_issue_request s start dest type alloc_ok).1 = 1 →
        (my_issue_request s start dest type alloc_ok).2 = s) := by
  refine ⟨?_, ?_, ?_⟩
  · unfold my_issue_request
    split
    · simp only [true_iff]
      omega
    · simp only [Bool.not_true, Bool.false_eq_true, if_false]
      split <;> simp <;> omega
  · unfold my_issue_request
    split
    · simp
    · simp only [Bool.not_true, Bool.false_eq_true, if_false]
      split <;> simp
  · intro alloc_ok
    unfold my_issue_request
    split
    · intro _; rfl
    · split
      · intro _; rfl
      · split <;> (simp only []; split_ifs <;> simp)

/-- C4: for valid arguments (and a successful allocation) `my_issue_request`
returns 0, appends the item `(type, dest)` at the tail of the queue of floor
`start`, raises that floor count and `total_waiting` by one, leaves every other
queue and count and the rest of the state alone, and sets the wake flag exactly
when the car is not Offline. -/
theorem C4_issue_effect (s : ElevState) (start dest type : Int)
    (hs : 1 ≤ start ∧ start ≤ 5) (hd : 1 ≤ dest ∧ dest ≤ 5) (hne : start ≠ dest)
    (ht : 0 ≤ type ∧ type ≤ 3) :
    (my_issue_request s start dest type true).1 = 0 ∧
      waiting_at (my_issue_request s start dest type true).2 start =
        waiting_at s start ++ [⟨type, dest⟩] ∧
      num_waiting_at (my_issue_request s start dest type true).2 start =
        num_waiting_at s start + 1 ∧
      (my_issue_request s start dest type true).2.total_waiting = s.total_waiting + 1 ∧
      (∀ f : Int, f ≠ start →
        waiting_at (my_issue_request s start dest type true).2 f = waiting_at s f ∧
          num_waiting_at (my_issue_request s start dest type true).2 f = num_waiting_at s f) ∧
      (my_issue_request s start dest type true).2.elevator_pets = s.elevator_pets ∧
      (my_issue_request s start dest type true).2.elevator_weight = s.elevator_weight ∧
      (my_issue_request s start dest type true).2.elevator_num_pets = s.elevator_num_pets ∧
      (my_issue_request s start dest type true).2.total_serviced = s.total_serviced ∧
      (my_issue_request s start dest type true).2.current_floor = s.current_floor ∧
      (my_issue_request s start dest type true).2.direction = s.direction ∧
      (my_issue_request s start dest type true).2.is_deactivating = s.is_deactivating ∧
      (my_issue_request s start dest type true).2.elevator_state = s.elevator_state ∧
      (s.elevator_state ≠ state_t.OFFLINE →
        (my_issue_request s start dest type true).2.work_to_do = true) ∧
      (s.elevator_state = state_t.OFFLINE →
        (my_issue_request s start dest type true).2.work_to_do = s.work_to_do) := by
  obtain ⟨k, hk⟩ := floor_idx_some start hs
  have hv : ¬ (start < 1 ∨ start > 5 ∨ dest < 1 ∨ dest > 5 ∨ start = dest ∨ type < 0 ∨ type > 3) := by
    omega
  have hother : ∀ f : Int, f ≠ start → floor_idx f ≠ some k := by
    intro f hf hfk
    have h1 := floor_idx_val f k hfk
    have h2 := floor_idx_val start k hk
    omega
  unfold my_issue_request
  rw [if_neg hv]
  simp only [Bool.not_true, Bool.false_eq_true, if_false, hk]
  by_cases ho : s.elevator_state = state_t.OFFLINE
  · simp only [ho, ne_eq, not_true_eq_false, if_false, waiting_at, num_waiting_at, hk,
      Function.update_same, true_and, not_false_eq_true, true_implies, false_implies, and_true]
    intro f hf
    cases hfi : floor_idx f with
    | none => simp
    | some j =>
      have hjk : j ≠ k := fun hjk => hother f hf (by rw [hfi, hjk])
      simp [Function.update_noteq hjk]
  · simp only [ho, ne_eq, not_false_eq_true, if_true, waiting_at, num_waiting_at, hk,
      Function.update_same, true_and, true_implies, false_implies, and_true]
    intro f hf
    cases hfi : floor_idx f with
    | none => simp
    | some j =>
      have hjk : j ≠ k := fun hjk => hother f hf (by rw [hfi, hjk])
      simp [Function.update_noteq hjk]

theorem C4_issue_effect_witness :
    ((1 : Int) ≤ 1 ∧ (1 : Int) ≤ 5) ∧ ((1 : Int) ≤ 3 ∧ (3 : Int) ≤ 5) ∧ (1 : Int) ≠ 3 ∧
      ((0 : Int) ≤ 0 ∧ (0 : Int) ≤ 3) ∧
      (my_issue_request ex_loaded 1 3 0 true).1 = 0 ∧
      waiting_at (my_issue_request ex_loaded 1 3 0 true).2 1 = [⟨0, 3⟩] ∧
      (my_issue_request ex_loaded 1 3 0 true).2.work_to_do = true :=
  have h := C4_issue_effect ex_loaded 1 3 0 (by decide) (by decide) (by decide) (by decide)
  ⟨by decide, by decide, by decide, by decide, h.1, by decide, h.2.2.2.2.2.2.2.2.2.2.2.2.2.1 (by decide)⟩

/-- C5: in a reachable state that is not Offline, `my_start_elevator` returns 1
and changes nothing (whatever the worker start would do); in a reachable
Offline state with the worker starting it returns 0 and afterwards the floor is
1, the direction is up, the deactivation flag is clear, the manifest is empty
with weight 0 and count 0, the state is Idle, the wake flag is `has_pending` of
the new state, which is true exactly when some floor queue is non-empty, and
the queues, floor counts, `total_waiting` and `total_serviced` are unchanged. -/
theorem C5_start_elevator (s : ElevState) (h : Reachable s) :
    (s.elevator_state ≠ state_t.OFFLINE →
        ∀ thread_ok : Bool, my_start_elevator s thread_ok = (1, s)) ∧
      (s.elevator_state = state_t.OFFLINE →
        (my_start_elevator s true).1 = 0 ∧
          (my_start_elevator s true).2.current_floor = 1 ∧
          (my_start_elevator s true).2.direction = 1 ∧
          (my_start_elevator s true).2.is_deactivating = false ∧
          (my_start_elevator s true).2.elevator_pets = [] ∧
          (my_start_elevator s true).2.elevator_weight = 0 ∧
          (my_start_elevator s true).2.elevator_num_pets = 0 ∧
          (my_start_elevator s true).2.elevator_state = state_t.IDLE ∧
          (my_start_elevator s true).2.work_to_do = has_pending (my_start_elevator s true).2 ∧
          ((my_start_elevator s true).2.work_to_do = true ↔ ∃ k : Fin 5, s.floor_waiting k ≠ []) ∧
          (my_start_elevator s true).2.floor_waiting = s.floor_waiting ∧
          (my_start_elevator s true).2.floor_num_waiting = s.floor_num_waiting ∧
          (my_start_elevator s true).2.total_waiting = s.total_waiting ∧
          (my_start_elevator s true).2.total_serviced = s.total_serviced) := by
  have hi := inv_reachable s h
  constructor
  · intro hs ok
    unfold my_start_elevator
    rw [if_pos hs]
  · intro hs
    have he := hi.offline_empty hs
    unfold my_start_elevator
    rw [if_neg (by simpa using hs)]
    simp only [if_true, he, true_and, and_true]
    refine ⟨?_, ?_⟩
    · unfold has_pending need_service
      rfl
    · rw [has_pending_iff]
      constructor
      · rintro ⟨f, h1, h5, hf⟩
        obtain ⟨k, hk⟩ := floor_idx_some f ⟨h1, h5⟩
        simp only [need_service, List.any_nil, Bool.or_false, Bool.not_false, Bool.true_and,
          num_waiting_at, hk, gt_iff_lt, decide_eq_true_eq] at hf
        refine ⟨k, ?_⟩
        intro hq
        have := hi.count_eq k
        rw [hq] at this
        simp only [List.length_nil, Nat.cast_zero] at this
        omega
      · rintro ⟨k, hk⟩
        refine ⟨(k : Nat) + 1, by omega, by have := k.isLt; omega, ?_⟩
        have hidx : floor_idx (((k : Nat) : Int) + 1) = some k := by
          unfold floor_idx
          have hk5 := k.isLt
          rw [dif_pos (by omega)]
          simp
        simp only [need_service, List.any_nil, Bool.or_false, Bool.not_false, Bool.true_and,
          num_waiting_at, hidx, gt_iff_lt, decide_eq_true_eq]
        have := hi.count_eq k
        have hpos : 0 < (s.floor_waiting k).length := List.length_pos.mpr hk
        omega

theorem C5_start_elevator_witness :
    Reachable ex_submitted ∧ ex_submitted.elevator_state = state_t.OFFLINE ∧
      (my_start_elevator ex_submitted true).1 = 0 ∧
      (my_start_elevator ex_submitted true).2.work_to_do = true ∧
      (my_start_elevator ex_submitted true).2.floor_waiting 0 = [⟨0, 3⟩] ∧
      (my_start_elevator (my_start_elevator ex_submitted true).2 true).1 = 1 :=
  have hr : Reachable ex_submitted := Reachable.issue _ 1 3 0 true Reachable.init
  have h := (C5_start_elevator ex_submitted hr).2 (by decide)
  ⟨hr, by decide, h.1, by decide, by decide, by decide⟩

/-- C6: `my_stop_elevator` returns 1 and leaves the whole state unchanged when
the deactivation flag is already set; otherwise it returns 0 and changes only
the deactivation flag, to true.  So two calls in a row from a state with the
flag clear return 0 then 1, and the second call leaves the state of the first. -/
theorem C6_stop_elevator (s : ElevState) :
    (s.is_deactivating = true → my_stop_elevator s = (1, s)) ∧
      (s.is_deactivating = false →
        my_stop_elevator s = (0, { s with is_deactivating := true })) ∧
      (s.is_deactivating = false →
        (my_stop_elevator s).1 = 0 ∧
          (my_stop_elevator (my_stop_elevator s).2).1 = 1 ∧
          (my_stop_elevator (my_stop_elevator s).2).2 = (my_stop_elevator s).2) := by
  refine ⟨?_, ?_, ?_⟩
  · intro h
    simp [my_stop_elevator, h]
  · intro h
    simp [my_stop_elevator, h]
  · intro h
    simp [my_stop_elevator, h]

theorem C6_stop_elevator_witness :
    ex_loaded.is_deactivating = false ∧
      (my_stop_elevator ex_loaded).1 = 0 ∧
      (my_stop_elevator ex_loaded).2.is_deactivating = true ∧
      (my_stop_elevator (my_stop_elevator ex_loaded).2).1 = 1 ∧
      (my_stop_elevator (my_stop_elevator ex_loaded).2).2 = (my_stop_elevator ex_loaded).2 :=
  have h := (C6_stop_elevator ex_loaded).2.2 (by decide)
  ⟨by decide, h.1, by decide, h.2.1, h.2.2⟩

/-! ## Boarding -/

theorem do_load_blocked (s : ElevState) (p : pet) (rest : List pet)
    (hq : waiting_at s s.current_floor = p :: rest)
    (hp : ¬ (s.elevator_num_pets < 5 ∧ s.elevator_weight + weights p.type ≤ 50)) :
    do_load s = s := by
  unfold waiting_at at hq
  unfold do_load
  split
  · rename_i k hk
    rw [hk] at hq
    simp only at hq
    rw [hq, do_load_loop, if_neg hp]
  · rfl

theorem do_load_five_of_six (s : ElevState) (p1 p2 p3 p4 p5 p6 : pet)
    (hf : s.current_floor = 1) (hn : s.elevator_num_pets = 0) (hw : s.elevator_weight = 0)
    (hq : s.floor_waiting 0 = [p1, p2, p3, p4, p5, p6])
    (h48 : weight_sum [p1, p2, p3, p4, p5] = 48) :
    do_load s =
      { s with
        floor_waiting := Function.update s.floor_waiting 0 [p6]
        elevator_pets := s.elevator_pets ++ [p1, p2, p3, p4, p5]
        elevator_weight := 48
        elevator_num_pets := 5
        floor_num_waiting := Function.update s.floor_num_waiting 0 (s.floor_num_waiting 0 - 5)
        total_waiting := s.total_waiting - 5 } := by
  have h1 := weights_nonneg p1.type
  have h2 := weights_nonneg p2.type
  have h3 := weights_nonneg p3.type
  have h4 := weights_nonneg p4.type
  have h5 := weights_nonneg p5.type
  simp only [weight_sum, List.map_cons, List.map_nil, List.sum_cons, List.sum_nil] at h48
  have hidx : floor_idx s.current_floor = some 0 := by rw [hf]; rfl
  have hc : board_count s.elevator_num_pets s.elevator_weight [p1, p2, p3, p4, p5, p6] = 5 := by
    rw [hn, hw]
    rw [board_count, if_pos (by omega), board_count, if_pos (by omega), board_count,
      if_pos (by omega), board_count, if_pos (by omega), board_count, if_pos (by omega),
      board_count, if_neg (by omega)]
  unfold do_load
  rw [hidx]
  simp only
  rw [do_load_loop_eq 0 _ s rfl, hq, hc]
  apply ElevState.ext <;> simp [weight_sum, hn, hw]
  omega

/-- C7: `do_load` moves a run of items from the head of the current floor
queue onto the end of the manifest, in order: the queue splits as `pre ++ suf`,
the new manifest is the old one followed by `pre`, the new queue is `suf`, each
item of `pre` in turn found fewer than 5 items aboard and fitted in the weight
limit of 50, and the head of `suf` (if any) did not.  If the head of the queue
does not fit, nothing changes.  Scenario B: an empty car at floor 1 whose queue
holds five items weighing 48 in all and then a sixth of weight 3 boards exactly
the first five in the loading tick and the sixth stays queued. -/
theorem C7_do_load_fifo (s : ElevState) :
    (∃ pre suf : List pet,
        waiting_at s s.current_floor = pre ++ suf ∧
          (do_load s).elevator_pets = s.elevator_pets ++ pre ∧
          waiting_at (do_load s) s.current_floor = suf ∧
          (∀ (a c : List pet) (b : pet), pre = a ++ b :: c →
            s.elevator_num_pets + (a.length : Int) < 5 ∧
              s.elevator_weight + weight_sum a + weights b.type ≤ 50) ∧
          (∀ (p : pet) (rest : List pet), suf = p :: rest →
            ¬ (s.elevator_num_pets + (pre.length : Int) < 5 ∧
                s.elevator_weight + weight_sum pre + weights p.type ≤ 50))) ∧
      (∀ (p : pet) (rest : List pet), waiting_at s s.current_floor = p :: rest →
        ¬ (s.elevator_num_pets < 5 ∧ s.elevator_weight + weights p.type ≤ 50) →
        do_load s = s) ∧
      (∀ p1 p2 p3 p4 p5 p6 : pet,
        s.current_floor = 1 → s.is_deactivating = false → s.elevator_pets = [] →
        s.elevator_num_pets = 0 → s.elevator_weight = 0 →
        s.floor_waiting 0 = [p1, p2, p3, p4, p5, p6] →
        weight_sum [p1, p2, p3, p4, p5] = 48 → weights p6.type = 3 →
        (do_load s).elevator_pets = [p1, p2, p3, p4, p5] ∧
          (do_load s).floor_waiting 0 = [p6] ∧
          (tick s).elevator_state = state_t.LOADING ∧
          (tick s).elevator_pets = [p1, p2, p3, p4, p5] ∧
          (tick s).floor_waiting 0 = [p6] ∧
          can_load (tick s) = false) := by
  refine ⟨?_, fun p rest hq hp => do_load_blocked s p rest hq hp, ?_⟩
  · cases hk : floor_idx s.current_floor with
    | none =>
      refine ⟨[], [], ?_, ?_, ?_, ?_, ?_⟩
      · simp [waiting_at, hk]
      · simp [do_load, hk]
      · simp [waiting_at, hk]
      · intro a c b h
        simp at h
      · intro p rest h
        simp at h
    | some k =>
      have hle := board_count_le (s.floor_waiting k) s.elevator_num_pets s.elevator_weight
      have hdl : do_load s = do_load_loop k (s.floor_waiting k) s := by
        simp [do_load, hk]
      refine ⟨(s.floor_waiting k).take
          (board_count s.elevator_num_pets s.elevator_weight (s.floor_waiting k)),
        (s.floor_waiting k).drop
          (board_count s.elevator_num_pets s.elevator_weight (s.floor_waiting k)),
        ?_, ?_, ?_, ?_, ?_⟩
      · simp [waiting_at, hk]
      · rw [hdl, do_load_loop_eq k _ s rfl]
      · rw [hdl, do_load_loop_eq k _ s rfl]
        simp [waiting_at, hk]
      · intro a c b h
        exact board_count_fits _ _ _ a c b h
      · intro p rest h
        have := board_count_stops _ _ _ p rest h
        rw [List.length_take, Nat.min_eq_left hle]
        exact this
  · intro p1 p2 p3 p4 p5 p6 hf hd he hn hw hq h48 h3
    have hload := do_load_five_of_six s p1 p2 p3 p4 p5 p6 hf hn hw hq h48
    have hidx : floor_idx s.current_floor = some 0 := by rw [hf]; rfl
    have hcl : can_load s = true := by
      have := weights_le p1.type
      simp only [can_load, waiting_at, hidx, hq, hn, hw, Bool.and_eq_true, decide_eq_true_eq]
      omega
    have hcu : can_unload s = false := by simp [can_unload, he]
    have htick : tick s = do_load { s with elevator_state := state_t.LOADING } := by
      unfold tick
      rw [if_neg (by simp [hd])]
      simp [hcl, hcu, hd]
    have hload2 := do_load_five_of_six { s with elevator_state := state_t.LOADING }
      p1 p2 p3 p4 p5 p6 hf hn hw hq h48
    rw [htick, hload, hload2]
    simp only [he, List.nil_append, Function.update_same, true_and]
    simp [can_load, waiting_at, hidx]

theorem C7_do_load_fifo_witness :
    ((tick ex_scenario_b).elevator_pets = [⟨3, 2⟩, ⟨3, 3⟩, ⟨2, 4⟩, ⟨0, 5⟩, ⟨0, 2⟩] ∧
        (tick ex_scenario_b).floor_waiting 0 = [⟨0, 3⟩]) ∧
      (ex_head_blocked.elevator_weight = 42 ∧ ex_head_blocked.elevator_num_pets = 3 ∧
        waiting_at ex_head_blocked 1 = [⟨1, 4⟩, ⟨0, 2⟩] ∧
        do_load ex_head_blocked = ex_head_blocked) :=
  have h := C7_do_load_fifo ex_scenario_b
  have hb := (C7_do_load_fifo ex_head_blocked).2.1 ⟨1, 4⟩ [⟨0, 2⟩] (by decide) (by decide)
  have hs := h.2.2 ⟨3, 2⟩ ⟨3, 3⟩ ⟨2, 4⟩ ⟨0, 5⟩ ⟨0, 2⟩ ⟨0, 3⟩ (by decide) (by decide) (by decide)
    (by decide) (by decide) (by decide) (by decide) (by decide)
  ⟨⟨hs.2.2.2.1, hs.2.2.2.2.1⟩, by decide, by decide, by decide, hb⟩

/-! ## The scheduler tick, branch by branch -/

theorem do_load_frame (s : ElevState) :
    (do_load s).direction = s.direction ∧ (do_load s).current_floor = s.current_floor ∧
      (do_load s).elevator_state = s.elevator_state ∧
      (do_load s).is_deactivating = s.is_deactivating ∧
      (do_load s).work_to_do = s.work_to_do ∧
      (do_load s).total_serviced = s.total_serviced := by
  unfold do_load
  split
  · rw [do_load_loop_eq _ _ s rfl]
    simp
  · simp

theorem do_unload_frame (s : ElevState) :
    (do_unload s).direction = s.direction ∧ (do_unload s).current_floor = s.current_floor ∧
      (do_unload s).elevator_state = s.elevator_state ∧
      (do_unload s).is_deactivating = s.is_deactivating ∧
      (do_unload s).work_to_do = s.work_to_do ∧
      (do_unload s).floor_waiting = s.floor_waiting ∧
      (do_unload s).floor_num_waiting = s.floor_num_waiting ∧
      (do_unload s).total_waiting = s.total_waiting := by
  rw [do_unload_eq]
  simp

theorem tick_drain (s : ElevState) (hd : s.is_deactivating = true) (he : s.elevator_pets = []) :
    tick s = { s with elevator_state := state_t.OFFLINE, work_to_do := false } := by
  unfold tick
  rw [if_pos ⟨hd, he⟩]

theorem tick_loading (s : ElevState) (hnd : ¬ (s.is_deactivating = true ∧ s.elevator_pets = []))
    (hl : (can_unload s || (!s.is_deactivating && can_load s)) = true) :
    tick s =
      (if (!s.is_deactivating && can_load s) = true then
        do_load
          (if can_unload s = true then do_unload { s with elevator_state := state_t.LOADING }
            else { s with elevator_state := state_t.LOADING })
      else
        (if can_unload s = true then do_unload { s with elevator_state := state_t.LOADING }
          else { s with elevator_state := state_t.LOADING })) := by
  unfold tick
  rw [if_neg hnd]
  simp only []
  rw [if_pos hl]

theorem tick_move (s : ElevState) (hnd : ¬ (s.is_deactivating = true ∧ s.elevator_pets = []))
    (hl : can_unload s = false) (hb : (!s.is_deactivating && can_load s) = false)
    (hp : has_pending s = true) :
    tick s =
      { s with
        direction := if has_requests_in_dir s s.direction = true then s.direction else -s.direction
        elevator_state :=
          if (if has_requests_in_dir s s.direction = true then s.direction else -s.direction) > 0
          then state_t.UP else state_t.DOWN
        current_floor :=
          s.current_floor +
            (if has_requests_in_dir s s.direction = true then s.direction else -s.direction) } := by
  unfold tick
  rw [if_neg hnd]
  simp only []
  rw [if_neg (by simp [hl, hb]), if_pos hp]

theorem tick_idle (s : ElevState) (hnd : ¬ (s.is_deactivating = true ∧ s.elevator_pets = []))
    (hl : can_unload s = false) (hb : (!s.is_deactivating && can_load s) = false)
    (hp : has_pending s = false) :
    tick s = { s with elevator_state := state_t.IDLE, work_to_do := false } := by
  unfold tick
  rw [if_neg hnd]
  simp only []
  rw [if_neg (by simp [hl, hb]), if_neg (by simp [hp])]

theorem tick_loading_frame (s : ElevState)
    (hnd : ¬ (s.is_deactivating = true ∧ s.elevator_pets = []))
    (hl : (can_unload s || (!s.is_deactivating && can_load s)) = true) :
    (tick s).direction = s.direction ∧ (tick s).current_floor = s.current_floor ∧
      (tick s).elevator_state = state_t.LOADING ∧
      (tick s).is_deactivating = s.is_deactivating ∧ (tick s).work_to_do = s.work_to_do := by
  rw [tick_loading s hnd hl]
  split <;> split <;>
    simp only [do_load_frame, do_unload_frame, and_self]

/-- A tick that is not a movement tick keeps the direction and the floor. -/
theorem tick_keeps_unless_move (s : ElevState)
    (h : ¬ (can_unload s = false ∧ (!s.is_deactivating && can_load s) = false ∧
      has_pending s = true)) :
    (tick s).direction = s.direction ∧ (tick s).current_floor = s.current_floor := by
  by_cases hnd : s.is_deactivating = true ∧ s.elevator_pets = []
  · rw [tick_drain s hnd.1 hnd.2]
    exact ⟨rfl, rfl⟩
  · by_cases hl : (can_unload s || (!s.is_deactivating && can_load s)) = true
    · exact ⟨(tick_loading_frame s hnd hl).1, (tick_loading_frame s hnd hl).2.1⟩
    · simp only [Bool.or_eq_true, not_or, Bool.not_eq_true] at hl
      have hp : has_pending s = false := by
        cases hp : has_pending s
        · rfl
        · exact absurd ⟨hl.1, hl.2, hp⟩ h
      rw [tick_idle s hnd hl.1 hl.2 hp]
      exact ⟨rfl, rfl⟩

theorem need_service_iff (s : ElevState) (f : Int) :
    need_service s f = true ↔
      (s.is_deactivating = false ∧ 0 < num_waiting_at s f) ∨
        ∃ p ∈ s.elevator_pets, p.dest_floor = f := by
  simp [need_service]

theorem not_drain_of_pending (s : ElevState) (hp : has_pending s = true) :
    ¬ (s.is_deactivating = true ∧ s.elevator_pets = []) := by
  rintro ⟨hd, he⟩
  obtain ⟨f, _, _, hf⟩ := (has_pending_iff s).mp hp
  simp [need_service, hd, he] at hf

/-! ## LOOK direction rule -/

/-- C8: a tick changes the direction only in a movement tick (nothing to
unload or board at the current floor, some floor needs service) in which
`has_requests_in_dir` of the old direction is false, that is, no floor strictly
beyond the current one in that direction needs service.  When a floor strictly
ahead needs service the direction is kept, and in a movement tick the car then
moves by `direction` (one floor: the direction is 1 or -1 in reachable states)
and the state is UP or DOWN to match; a tick that is not a movement tick moves
nothing.  `need_service f` holds when the car is
not deactivating and the count of floor `f` is positive (its queue is
non-empty, the counts being the queue lengths), or an item aboard goes to `f`. -/
theorem C8_look_direction (s : ElevState) :
    ((tick s).direction ≠ s.direction →
        (can_unload s = false ∧ (!s.is_deactivating && can_load s) = false ∧
          has_pending s = true) ∧
        has_requests_in_dir s s.direction = false ∧
        (tick s).direction = -s.direction) ∧
      (has_requests_in_dir s s.direction = false ↔
        (if s.direction > 0 then
          ∀ f : Int, s.current_floor < f → f ≤ 5 → need_service s f = false
        else ∀ f : Int, 1 ≤ f → f < s.current_floor → need_service s f = false)) ∧
      (has_requests_in_dir s s.direction = true → (tick s).direction = s.direction) ∧
      (can_unload s = false → (!s.is_deactivating && can_load s) = false →
        has_pending s = true → has_requests_in_dir s s.direction = true →
        (tick s).direction = s.direction ∧
          (tick s).current_floor = s.current_floor + s.direction ∧
          (tick s).elevator_state = (if s.direction > 0 then state_t.UP else state_t.DOWN)) ∧
      (¬ (can_unload s = false ∧ (!s.is_deactivating && can_load s) = false ∧
          has_pending s = true) →
        (tick s).direction = s.direction ∧ (tick s).current_floor = s.current_floor) ∧
      (Reachable s → s.direction = 1 ∨ s.direction = -1) ∧
      (∀ f : Int, need_service s f = true ↔
        (s.is_deactivating = false ∧ 0 < num_waiting_at s f) ∨
          ∃ p ∈ s.elevator_pets, p.dest_floor = f) ∧
      ((∀ k : Fin 5, s.floor_num_waiting k = ((s.floor_waiting k).length : Int)) →
        ∀ f : Int, need_service s f = true ↔
          (s.is_deactivating = false ∧ waiting_at s f ≠ []) ∨
            ∃ p ∈ s.elevator_pets, p.dest_floor = f) := by
  have hmove : can_unload s = false → (!s.is_deactivating && can_load s) = false →
      has_pending s = true →
      (tick s).direction =
          (if has_requests_in_dir s s.direction = true then s.direction else -s.direction) ∧
        (tick s).current_floor = s.current_floor +
          (if has_requests_in_dir s s.direction = true then s.direction else -s.direction) ∧
        (tick s).elevator_state =
          (if (if has_requests_in_dir s s.direction = true then s.direction else -s.direction) > 0
            then state_t.UP else state_t.DOWN) := by
    intro hl hb hp
    rw [tick_move s (not_drain_of_pending s hp) hl hb hp]
    exact ⟨rfl, rfl, rfl⟩
  refine ⟨?_, ?_, ?_, ?_, tick_keeps_unless_move s, ?_, need_service_iff s, ?_⟩
  · intro hne
    by_cases hm : can_unload s = false ∧ (!s.is_deactivating && can_load s) = false ∧
        has_pending s = true
    · refine ⟨hm, ?_⟩
      have hdir := (hmove hm.1 hm.2.1 hm.2.2).1
      cases ha : has_requests_in_dir s s.direction
      · rw [ha] at hdir
        exact ⟨rfl, by simpa using hdir⟩
      · rw [ha, if_pos rfl] at hdir
        exact absurd hdir hne
    · exact absurd (tick_keeps_unless_move s hm).1 hne
  · by_cases hd : s.direction > 0
    · rw [if_pos hd, ← Bool.not_eq_true, has_requests_up_iff s s.direction hd]
      constructor
      · intro h f h1 h2
        cases hn : need_service s f
        · rfl
        · exact absurd ⟨f, h1, h2, hn⟩ h
      · rintro h ⟨f, h1, h2, hn⟩
        rw [h f h1 h2] at hn
        cases hn
    · rw [if_neg hd, ← Bool.not_eq_true, has_requests_down_iff s s.direction hd]
      constructor
      · intro h f h1 h2
        cases hn : need_service s f
        · rfl
        · exact absurd ⟨f, h1, h2, hn⟩ h
      · rintro h ⟨f, h1, h2, hn⟩
        rw [h f h1 h2] at hn
        cases hn
  · intro ha
    by_cases hm : can_unload s = false ∧ (!s.is_deactivating && can_load s) = false ∧
        has_pending s = true
    · have hdir := (hmove hm.1 hm.2.1 hm.2.2).1
      rw [if_pos ha] at hdir
      exact hdir
    · exact (tick_keeps_unless_move s hm).1
  · intro hl hb hp ha
    have h3 := hmove hl hb hp
    simp only [ha, if_true] at h3
    exact h3
  · intro hr
    exact (inv_reachable s hr).dir_unit
  · intro hc f
    rw [need_service_iff]
    have hq : 0 < num_waiting_at s f ↔ waiting_at s f ≠ [] := by
      unfold num_waiting_at waiting_at
      split
      · rename_i k _
        rw [hc k]
        simp [List.length_pos]
      · simp
    rw [hq]

theorem C8_look_direction_witness :
    (ex_loaded.direction = 1 ∧ ex_loaded.current_floor = 1 ∧
        has_requests_in_dir ex_loaded ex_loaded.direction = true ∧
        (tick ex_loaded).direction = ex_loaded.direction ∧
        (tick ex_loaded).current_floor = ex_loaded.current_floor + ex_loaded.direction ∧
        (tick ex_loaded).elevator_state = state_t.UP) ∧
      (ex_reversal.direction = 1 ∧ ex_reversal.current_floor = 3 ∧
        (tick ex_reversal).direction = -1 ∧ (tick ex_reversal).current_floor = 2 ∧
        has_requests_in_dir ex_reversal ex_reversal.direction = false) :=
  have h1 := (C8_look_direction ex_loaded).2.2.2.1 (by decide) (by decide) (by decide) (by decide)
  have h2 := (C8_look_direction ex_reversal).1 (by decide)
  ⟨⟨by decide, by decide, by decide, h1.1, h1.2.1, h1.2.2⟩,
    by decide, by decide, by decide, by decide, h2.2.1⟩

/-! ## Deactivation -/

/-- The tick of a deactivating car: drain, unload, move or idle; `do_load` is
never called. -/
theorem tick_deact (s : ElevState) (hd : s.is_deactivating = true) :
    tick s =
      if s.elevator_pets = [] then
        { s with elevator_state := state_t.OFFLINE, work_to_do := false }
      else if can_unload s = true then do_unload { s with elevator_state := state_t.LOADING }
      else if has_pending s = true then
        { s with
          direction :=
            if has_requests_in_dir s s.direction = true then s.direction else -s.direction
          elevator_state :=
            if (if has_requests_in_dir s s.direction = true then s.direction else -s.direction) > 0
            then state_t.UP else state_t.DOWN
          current_floor :=
            s.current_floor +
              (if has_requests_in_dir s s.direction = true then s.direction else -s.direction) }
      else { s with elevator_state := state_t.IDLE, work_to_do := false } := by
  have hb : (!s.is_deactivating && can_load s) = false := by simp [hd]
  by_cases he : s.elevator_pets = []
  · rw [if_pos he, tick_drain s hd he]
  · rw [if_neg he]
    have hnd : ¬ (s.is_deactivating = true ∧ s.elevator_pets = []) := fun h => he h.2
    by_cases hl : can_unload s = true
    · rw [if_pos hl, tick_loading s hnd (by simp [hl]), if_neg (by simp [hb]), if_pos hl]
    · rw [if_neg hl]
      simp only [Bool.not_eq_true] at hl
      by_cases hp : has_pending s = true
      · rw [if_pos hp, tick_move s hnd hl hb hp]
      · rw [if_neg hp]
        simp only [Bool.not_eq_true] at hp
        rw [tick_idle s hnd hl hb hp]

/-- What a tick of a deactivating car leaves alone, and its bookkeeping. -/
theorem tick_deact_frame (s : ElevState) (hd : s.is_deactivating = true) :
    (tick s).is_deactivating = true ∧
      (tick s).floor_waiting = s.floor_waiting ∧
      (tick s).floor_num_waiting = s.floor_num_waiting ∧
      (tick s).total_waiting = s.total_waiting ∧
      List.Sublist (tick s).elevator_pets s.elevator_pets ∧
      (tick s).total_serviced + ((tick s).elevator_pets.length : Int) =
        s.total_serviced + (s.elevator_pets.length : Int) := by
  rw [tick_deact s hd]
  split
  · exact ⟨hd, rfl, rfl, rfl, List.Sublist.refl _, rfl⟩
  · split
    · rw [do_unload_eq]
      refine ⟨hd, rfl, rfl, rfl, List.filter_sublist _, ?_⟩
      have := length_filter_split (goes_to s.current_floor) s.elevator_pets
      simp only
      omega
    · split
      · exact ⟨hd, rfl, rfl, rfl, List.Sublist.refl _, rfl⟩
      · exact ⟨hd, rfl, rfl, rfl, List.Sublist.refl _, rfl⟩

theorem tick_offline_fixed (s : ElevState) (hd : s.is_deactivating = true)
    (he : s.elevator_pets = []) (n : Nat) : tick^[n + 1] s = tick s := by
  induction n with
  | zero => rfl
  | succ n ih =>
    rw [Function.iterate_succ_apply', ih, tick_drain s hd he]
    exact tick_drain _ hd he

/-- C9: while the deactivation flag is set a tick boards nothing: the floor
queues, the floor counts and `total_waiting` are unchanged, the new manifest is
a subsequence of the old one and `total_serviced` does not decrease; with an
empty manifest the tick sets the state to Offline, clears the wake flag and
changes nothing else, and every further tick leaves that state as it is. -/
theorem C9_deactivating_tick (s : ElevState) (hd : s.is_deactivating = true) :
    (tick s).floor_waiting = s.floor_waiting ∧
      (tick s).floor_num_waiting = s.floor_num_waiting ∧
      (tick s).total_waiting = s.total_waiting ∧
      List.Sublist (tick s).elevator_pets s.elevator_pets ∧
      s.total_serviced ≤ (tick s).total_serviced ∧
      (s.elevator_pets = [] →
        tick s = { s with elevator_state := state_t.OFFLINE, work_to_do := false } ∧
          ∀ n : Nat, tick^[n + 1] s = tick s ∧
            (tick^[n + 1] s).elevator_state = state_t.OFFLINE) := by
  have hf := tick_deact_frame s hd
  refine ⟨hf.2.1, hf.2.2.1, hf.2.2.2.1, hf.2.2.2.2.1, ?_, ?_⟩
  · have hlen := hf.2.2.2.2.1.length_le
    have := hf.2.2.2.2.2
    omega
  · intro he
    refine ⟨tick_drain s hd he, fun n => ?_⟩
    rw [tick_offline_fixed s hd he n, tick_drain s hd he]
    exact ⟨rfl, rfl⟩

theorem C9_deactivating_tick_witness :
    ex_stopping.is_deactivating = true ∧
      (ex_stopping.floor_waiting 1 = [⟨1, 5⟩] ∧ ex_stopping.elevator_pets = [⟨0, 3⟩]) ∧
      ((tick ex_stopping).floor_waiting = ex_stopping.floor_waiting ∧
        List.Sublist (tick ex_stopping).elevator_pets ex_stopping.elevator_pets) ∧
      (ex_drained.elevator_pets = [] ∧ ex_drained.elevator_state = state_t.LOADING ∧
        ex_drained.floor_waiting 1 = [⟨1, 5⟩] ∧
        (tick^[4 + 1] ex_drained).elevator_state = state_t.OFFLINE) :=
  have h1 := C9_deactivating_tick ex_stopping (by decide)
  have h2 := C9_deactivating_tick ex_drained (by decide)
  ⟨by decide, by decide, ⟨h1.1, h1.2.2.2.1⟩, by decide, by decide, by decide,
    ((h2.2.2.2.2.2 (by decide)).2 4).2⟩

/-! ## Draining the car -/

theorem need_service_deact (s : ElevState) (hd : s.is_deactivating = true) (f : Int) :
    need_service s f = dest_flag s f := by
  simp [need_service, dest_flag, hd]

theorem same_need_service (s t : ElevState) (h : SameCar s t) :
    need_service s = need_service t := by
  funext f
  rw [need_service_deact s h.1, need_service_deact t h.2.1, h.2.2.2.2 f]

theorem same_can_unload (s t : ElevState) (h : SameCar s t) : can_unload s = can_unload t := by
  have := h.2.2.2.2 s.current_floor
  unfold dest_flag at this
  unfold can_unload
  rw [this, h.2.2.1]

theorem same_has_pending (s t : ElevState) (h : SameCar s t) : has_pending s = has_pending t := by
  unfold has_pending
  rw [same_need_service s t h]

theorem same_has_requests (s t : ElevState) (h : SameCar s t) (d : Int) :
    has_requests_in_dir s d = has_requests_in_dir t d := by
  unfold has_requests_in_dir
  rw [same_need_service s t h, h.2.2.1]

theorem same_empty (s t : ElevState) (h : SameCar s t) :
    s.elevator_pets = [] ↔ t.elevator_pets = [] := by
  have key : ∀ u : ElevState, u.elevator_pets = [] ↔ ∀ f : Int, dest_flag u f = false := by
    intro u
    constructor
    · intro he f
      simp [dest_flag, he]
    · intro hf
      cases hu : u.elevator_pets with
      | nil => rfl
      | cons p rest =>
        have := hf p.dest_floor
        simp [dest_flag, hu] at this
  rw [key s, key t]
  constructor
  · intro hs f
    rw [← h.2.2.2.2 f]
    exact hs f
  · intro ht f
    rw [h.2.2.2.2 f]
    exact ht f

theorem any_dest_filter (l : List pet) (cf f : Int) :
    ((l.filter (fun p => !decide (p.dest_floor = cf))).any (fun p => decide (p.dest_floor = f))) =
      (l.any (fun p => decide (p.dest_floor = f)) && !decide (f = cf)) := by
  induction l with
  | nil => rfl
  | cons p rest ih =>
    by_cases hp : p.dest_floor = cf
    · by_cases hf : f = cf
      · simp [List.filter, hp, hf]
      · have hpf : ¬ cf = f := fun h => hf h.symm
        simp only [List.filter, hp, decide_True, Bool.not_true, ih, List.any_cons,
          hpf, decide_False, Bool.false_or]
    · simp only [List.filter, hp, decide_False, Bool.not_false, List.any_cons, ih]
      by_cases hf : f = cf
      · subst hf
        simp [hp]
      · simp [hf]

theorem dest_flag_do_unload (s : ElevState) (f : Int) :
    dest_flag (do_unload s) f = (dest_flag s f && !decide (f = s.current_floor)) := by
  rw [do_unload_eq]
  exact any_dest_filter s.elevator_pets s.current_floor f

theorem same_tick (s t : ElevState) (h : SameCar s t) : SameCar (tick s) (tick t) := by
  obtain ⟨hs, ht, hf, hdir, hfl⟩ := h
  have h0 : SameCar s t := ⟨hs, ht, hf, hdir, hfl⟩
  have hfs := tick_deact_frame s hs
  have hft := tick_deact_frame t ht
  refine ⟨hfs.1, hft.1, ?_⟩
  rw [tick_deact s hs, tick_deact t ht]
  by_cases he : s.elevator_pets = []
  · have he2 := (same_empty s t h0).mp he
    rw [if_pos he, if_pos he2]
    exact ⟨hf, hdir, hfl⟩
  · have he2 : ¬ t.elevator_pets = [] := fun h2 => he ((same_empty s t h0).mpr h2)
    rw [if_neg he, if_neg he2, ← same_can_unload s t h0]
    by_cases hl : can_unload s = true
    · rw [if_pos hl, if_pos hl]
      refine ⟨?_, ?_, ?_⟩
      · rw [(do_unload_frame _).2.1, (do_unload_frame _).2.1]
        exact hf
      · rw [(do_unload_frame _).1, (do_unload_frame _).1]
        exact hdir
      · intro f
        rw [dest_flag_do_unload, dest_flag_do_unload]
        have := hfl f
        unfold dest_flag at this ⊢
        simp only
        rw [this, hf]
    · rw [if_neg hl, if_neg hl, ← same_has_pending s t h0, ← same_has_requests s t h0, ← hdir]
      by_cases hp : has_pending s = true
      · rw [if_pos hp, if_pos hp]
        refine ⟨?_, rfl, hfl⟩
        simp only
        rw [hf]
      · rw [if_neg hp, if_neg hp]
        exact ⟨hf, rfl, hfl⟩

theorem same_iterate (s t : ElevState) (h : SameCar s t) (n : Nat) :
    SameCar (tick^[n] s) (tick^[n] t) := by
  induction n with
  | zero => exact h
  | succ n ih =>
    rw [Function.iterate_succ_apply', Function.iterate_succ_apply']
    exact same_tick _ _ ih

theorem dest_flag_canon (cf dir : Int) (b1 b2 b3 b4 b5 : Bool) (f : Int) :
    dest_flag (canon cf dir b1 b2 b3 b4 b5) f =
      ((b1 && decide (1 = f)) || (b2 && decide (2 = f)) || (b3 && decide (3 = f)) ||
        (b4 && decide (4 = f)) || (b5 && decide (5 = f))) := by
  cases b1 <;> cases b2 <;> cases b3 <;> cases b4 <;> cases b5 <;>
    simp [canon, dest_flag, Bool.or_assoc]

theorem dest_flag_outside (s : ElevState) (hi : Inv s) (f : Int) (hf : ¬ (1 ≤ f ∧ f ≤ 5)) :
    dest_flag s f = false := by
  unfold dest_flag
  rw [List.any_eq_false]
  intro p hp
  have := hi.pets_valid p hp
  simp only [decide_eq_true_eq]
  intro hpf
  have h2 := this.2.2
  rw [hpf] at h2
  exact hf h2

theorem same_canon (s : ElevState) (hi : Inv s) (hd : s.is_deactivating = true) :
    SameCar s
      (canon s.current_floor s.direction (dest_flag s 1) (dest_flag s 2) (dest_flag s 3)
        (dest_flag s 4) (dest_flag s 5)) := by
  refine ⟨hd, rfl, rfl, rfl, fun f => ?_⟩
  rw [dest_flag_canon]
  by_cases h1 : 1 = f
  · subst h1; simp
  by_cases h2 : 2 = f
  · subst h2; simp
  by_cases h3 : 3 = f
  · subst h3; simp
  by_cases h4 : 4 = f
  · subst h4; simp
  by_cases h5 : 5 = f
  · subst h5; simp
  rw [dest_flag_outside s hi f (by omega)]
  simp [h1, h2, h3, h4, h5]

set_option maxRecDepth 100000 in
/-- Every deactivating car inside the building has an empty manifest after 12
ticks, whatever floors its items are bound for: checked on the 320 cars. -/
theorem canon_drains :
    ∀ cf ∈ ([1, 2, 3, 4, 5] : List Int), ∀ dir ∈ ([1, -1] : List Int),
      ∀ b1 b2 b3 b4 b5 : Bool,
        (tick^[12] (canon cf dir b1 b2 b3 b4 b5)).elevator_pets = [] := by
  decide

theorem iterate_deact_frame (s : ElevState) (hd : s.is_deactivating = true) (n : Nat) :
    (tick^[n] s).is_deactivating = true ∧
      (tick^[n] s).floor_waiting = s.floor_waiting ∧
      (tick^[n] s).floor_num_waiting = s.floor_num_waiting ∧
      (tick^[n] s).total_waiting = s.total_waiting ∧
      (tick^[n] s).total_serviced + ((tick^[n] s).elevator_pets.length : Int) =
        s.total_serviced + (s.elevator_pets.length : Int) := by
  induction n with
  | zero => exact ⟨hd, rfl, rfl, rfl, rfl⟩
  | succ n ih =>
    rw [Function.iterate_succ_apply']
    have h := tick_deact_frame (tick^[n] s) ih.1
    exact ⟨h.1, h.2.1.trans ih.2.1, h.2.2.1.trans ih.2.2.1, h.2.2.2.1.trans ih.2.2.2.1,
      h.2.2.2.2.2.trans ih.2.2.2.2⟩

/-- A consistent deactivating car is Offline and empty from the 13th tick on. -/
theorem drain_within (s : ElevState) (hi : Inv s) (hd : s.is_deactivating = true)
    (m : Nat) (hm : 13 ≤ m) :
    (tick^[m] s).elevator_state = state_t.OFFLINE ∧ (tick^[m] s).elevator_pets = [] ∧
      (tick^[m] s).total_serviced = s.total_serviced + (s.elevator_pets.length : Int) ∧
      (tick^[m] s).floor_waiting = s.floor_waiting := by
  have hcf : s.current_floor ∈ ([1, 2, 3, 4, 5] : List Int) := by
    have := hi.floor_range
    simp only [List.mem_cons, List.mem_singleton, List.not_mem_nil, or_false]
    omega
  have hdir : s.direction ∈ ([1, -1] : List Int) := by
    have := hi.dir_unit
    simpa using this
  have hc := canon_drains s.current_floor hcf s.direction hdir (dest_flag s 1) (dest_flag s 2)
    (dest_flag s 3) (dest_flag s 4) (dest_flag s 5)
  have hsame := same_iterate _ _ (same_canon s hi hd) 12
  have he : (tick^[12] s).elevator_pets = [] := (same_empty _ _ hsame).mpr hc
  have hfr := iterate_deact_frame s hd 12
  have hfix := tick_offline_fixed (tick^[12] s) hfr.1 he (m - 13)
  have hm2 : tick^[m] s = tick (tick^[12] s) := by
    rw [← hfix, ← Function.iterate_add_apply]
    congr 1
    omega
  rw [hm2, tick_drain _ hfr.1 he]
  refine ⟨rfl, he, ?_, hfr.2.1⟩
  have := hfr.2.2.2.2
  rw [he] at this
  simp only [List.length_nil, Nat.cast_zero, add_zero] at this
  exact this

/-- C10: from every reachable state with the deactivation flag set (so the
floor is in 1..5, at most 5 items are aboard and every destination is in 1..5)
the ticks alone bring the car Offline with an empty manifest: after 13 ticks,
and after any larger number such as 20, the state is Offline, the manifest is
empty, `total_serviced` has grown by exactly the number of items that were
aboard, and the floor queues are as they were. -/
theorem C10_drain_terminates (s : ElevState) (hr : Reachable s)
    (hd : s.is_deactivating = true) :
    ((1 ≤ s.current_floor ∧ s.current_floor ≤ 5) ∧ s.elevator_pets.length ≤ 5 ∧
        ∀ p ∈ s.elevator_pets, 1 ≤ p.dest_floor ∧ p.dest_floor ≤ 5) ∧
      ∃ n : Nat, n ≤ 20 ∧ ∀ m : Nat, n ≤ m →
        (tick^[m] s).elevator_state = state_t.OFFLINE ∧ (tick^[m] s).elevator_pets = [] ∧
          (tick^[m] s).total_serviced = s.total_serviced + (s.elevator_pets.length : Int) ∧
          (tick^[m] s).floor_waiting = s.floor_waiting := by
  have hi := inv_reachable s hr
  refine ⟨⟨hi.floor_range, hi.num_le, fun p hp => (hi.pets_valid p hp).2.2⟩, 13, by decide, ?_⟩
  intro m hm
  exact drain_within s hi hd m hm

theorem C10_drain_terminates_witness :
    Reachable ex_stopping ∧ ex_stopping.is_deactivating = true ∧
      (ex_stopping.elevator_state = state_t.LOADING ∧ ex_stopping.elevator_pets = [⟨0, 3⟩] ∧
        ex_stopping.total_serviced = 0 ∧ (tick^[3] ex_stopping).elevator_state ≠ state_t.OFFLINE ∧
        (tick^[4] ex_stopping).elevator_state = state_t.OFFLINE ∧
        (tick^[4] ex_stopping).total_serviced = 1 ∧
        (tick^[4] ex_stopping).floor_waiting 1 = [⟨1, 5⟩]) ∧
      ∃ n : Nat, n ≤ 20 ∧ ∀ m : Nat, n ≤ m →
        (tick^[m] ex_stopping).elevator_state = state_t.OFFLINE ∧
          (tick^[m] ex_stopping).elevator_pets = [] ∧
          (tick^[m] ex_stopping).total_serviced =
            ex_stopping.total_serviced + (ex_stopping.elevator_pets.length : Int) ∧
          (tick^[m] ex_stopping).floor_waiting = ex_stopping.floor_waiting :=
  have hr : Reachable ex_stopping :=
    Reachable.stop _ (Reachable.issue _ 2 5 1 true
      (Reachable.tick _ (Reachable.start _ true (Reachable.issue _ 1 3 0 true Reachable.init))))
  ⟨hr, by decide, by decide, (C10_drain_terminates ex_stopping hr (by decide)).2⟩

/-! ## The floor stays inside the building -/

/-- In the movement branch of a consistent state some floor strictly ahead in
the direction the car takes (kept or just reversed) needs service. -/
theorem ahead_in_chosen_dir (s : ElevState) (h : Inv s)
    (hl : can_unload s = false) (hb : (!s.is_deactivating && can_load s) = false)
    (hp : has_pending s = true) :
    has_requests_in_dir s
      (if has_requests_in_dir s s.direction = true then s.direction else -s.direction) = true := by
  obtain ⟨f, h1, h5, hne, hf⟩ := pending_elsewhere s h hl hb hp
  by_cases ha : has_requests_in_dir s s.direction = true
  · rw [if_pos ha]
    exact ha
  · rw [if_neg ha]
    rcases h.dir_unit with hd | hd
    · have hlow : f < s.current_floor := by
        by_contra hc
        exact ha ((has_requests_up_iff s s.direction (by omega)).mpr ⟨f, by omega, h5, hf⟩)
      exact (has_requests_down_iff s (-s.direction) (by omega)).mpr ⟨f, h1, hlow, hf⟩
    · have hhigh : s.current_floor < f := by
        by_contra hc
        exact ha ((has_requests_down_iff s s.direction (by omega)).mpr ⟨f, h1, by omega, hf⟩)
      exact (has_requests_up_iff s (-s.direction) (by omega)).mpr ⟨f, hhigh, h5, hf⟩

/-- C11: in every reachable state the current floor is in 1..5.  Whenever the
tick of a reachable state takes the movement branch, some floor strictly ahead
in the direction taken (kept, or just reversed) needs service, the car moves
one floor in that direction, and the floor it arrives at is again in 1..5; a
tick that is not a movement tick leaves the floor alone. -/
theorem C11_floor_in_range (s : ElevState) (h : Reachable s) :
    (1 ≤ s.current_floor ∧ s.current_floor ≤ 5) ∧
      (1 ≤ (tick s).current_floor ∧ (tick s).current_floor ≤ 5) ∧
      (can_unload s = false → (!s.is_deactivating && can_load s) = false →
        has_pending s = true →
        has_requests_in_dir s (tick s).direction = true ∧
          ((tick s).direction = 1 ∨ (tick s).direction = -1) ∧
          (tick s).current_floor = s.current_floor + (tick s).direction ∧
          (((tick s).direction = 1 ∧
              ∃ f : Int, s.current_floor < f ∧ f ≤ 5 ∧ need_service s f = true) ∨
            ((tick s).direction = -1 ∧
              ∃ f : Int, 1 ≤ f ∧ f < s.current_floor ∧ need_service s f = true))) ∧
      (¬ (can_unload s = false ∧ (!s.is_deactivating && can_load s) = false ∧
          has_pending s = true) →
        (tick s).current_floor = s.current_floor) := by
  have hi := inv_reachable s h
  have hit := inv_tick s hi
  refine ⟨hi.floor_range, hit.floor_range, ?_, fun hm => (tick_keeps_unless_move s hm).2⟩
  intro hl hb hp
  have ha := ahead_in_chosen_dir s hi hl hb hp
  have hdu := hit.dir_unit
  rw [tick_move s (not_drain_of_pending s hp) hl hb hp] at hdu ⊢
  simp only at hdu ⊢
  refine ⟨ha, hdu, trivial, ?_⟩
  rcases hdu with hd | hd
  · left
    rw [hd] at ha
    exact ⟨hd, (has_requests_up_iff s 1 (by decide)).mp ha⟩
  · right
    rw [hd] at ha
    exact ⟨hd, (has_requests_down_iff s (-1) (by decide)).mp ha⟩

theorem C11_floor_in_range_witness :
    Reachable ex_reversal ∧
      (ex_reversal.current_floor = 3 ∧ ex_reversal.direction = 1 ∧
        (tick ex_reversal).current_floor = 2 ∧ (tick ex_reversal).direction = -1) ∧
      need_service ex_reversal 2 = true ∧
      (1 ≤ (tick ex_reversal).current_floor ∧ (tick ex_reversal).current_floor ≤ 5) :=
  have hr : Reachable ex_reversal :=
    Reachable.issue _ 2 1 0 true
      (Reachable.tick _ (Reachable.tick _ (Reachable.tick _
        (Reachable.tick _ (Reachable.start _ true
          (Reachable.issue _ 1 3 0 true Reachable.init))))))
  ⟨hr, by decide, by decide, (C11_floor_in_range ex_reversal hr).2.1⟩

/-! ## Scenario A -/

/-- C12: Scenario A as a run.  From the initial state `my_issue_request 1 3 0`
returns 0, the car stays Offline and the item waits on floor 1; then
`my_start_elevator` returns 0, the item still waits and the wake flag is set;
the ticks then board the item at floor 1, move up to floor 2 and floor 3 and
unload it, so that after four ticks the floor is 3, the manifest is empty,
`total_waiting` is 0 and `total_serviced` is 1; the fifth tick sets Idle. -/
theorem C12_scenario_a :
    (my_issue_request init_state 1 3 0 true).1 = 0 ∧
      ex_submitted.elevator_state = state_t.OFFLINE ∧
      ex_submitted.floor_waiting 0 = [⟨0, 3⟩] ∧ ex_submitted.total_waiting = 1 ∧
      (my_start_elevator ex_submitted true).1 = 0 ∧
      (ex_activated.floor_waiting 0 = [⟨0, 3⟩] ∧ ex_activated.work_to_do = true ∧
        ex_activated.elevator_state = state_t.IDLE ∧ ex_activated.current_floor = 1) ∧
      ((tick ex_activated).elevator_state = state_t.LOADING ∧
        (tick ex_activated).current_floor = 1 ∧
        (tick ex_activated).elevator_pets = [⟨0, 3⟩] ∧
        (tick ex_activated).floor_waiting 0 = [] ∧
        (tick ex_activated).total_waiting = 0) ∧
      ((tick^[2] ex_activated).elevator_state = state_t.UP ∧
        (tick^[2] ex_activated).current_floor = 2 ∧
        (tick^[2] ex_activated).elevator_pets = [⟨0, 3⟩]) ∧
      ((tick^[3] ex_activated).elevator_state = state_t.UP ∧
        (tick^[3] ex_activated).current_floor = 3 ∧
        (tick^[3] ex_activated).elevator_pets = [⟨0, 3⟩]) ∧
      ((tick^[4] ex_activated).elevator_state = state_t.LOADING ∧
        (tick^[4] ex_activated).current_floor = 3 ∧
        (tick^[4] ex_activated).elevator_pets = [] ∧
        (tick^[4] ex_activated).elevator_weight = 0 ∧
        (tick^[4] ex_activated).total_waiting = 0 ∧
        (tick^[4] ex_activated).total_serviced = 1) ∧
      ((tick^[5] ex_activated).elevator_state = state_t.IDLE ∧
        (tick^[5] ex_activated).current_floor = 3 ∧
        (tick^[5] ex_activated).total_serviced = 1 ∧
        (tick^[5] ex_activated).work_to_do = false) := by
  decide

/-! ## Variables the scheduler does not read -/

theorem agree_refl (s : ElevState) : Agree s s :=
  ⟨rfl, rfl, rfl, rfl, rfl, rfl, rfl, rfl, rfl⟩

theorem has_pending_quiet (s : ElevState)
    (hc : ∀ k : Fin 5, s.floor_num_waiting k = ((s.floor_waiting k).length : Int))
    (hd : s.is_deactivating = false) (he : s.elevator_pets = []) :
    has_pending s = true ↔ ∃ k : Fin 5, s.floor_waiting k ≠ [] := by
  rw [has_pending_iff]
  constructor
  · rintro ⟨f, h1, h5, hf⟩
    obtain ⟨k, hk⟩ := floor_idx_some f ⟨h1, h5⟩
    simp only [need_service, he, hd, List.any_nil, Bool.or_false, Bool.not_false, Bool.true_and,
      num_waiting_at, hk, gt_iff_lt, decide_eq_true_eq] at hf
    refine ⟨k, ?_⟩
    intro hq
    have := hc k
    rw [hq] at this
    simp only [List.length_nil, Nat.cast_zero] at this
    omega
  · rintro ⟨k, hk⟩
    refine ⟨(k : Nat) + 1, by omega, by have := k.isLt; omega, ?_⟩
    have hidx : floor_idx (((k : Nat) : Int) + 1) = some k := by
      unfold floor_idx
      have hk5 := k.isLt
      rw [dif_pos (by omega)]
      simp
    simp only [need_service, he, hd, List.any_nil, Bool.or_false, Bool.not_false, Bool.true_and,
      num_waiting_at, hidx, gt_iff_lt, decide_eq_true_eq]
    have := hc k
    have hpos : 0 < (s.floor_waiting k).length := List.length_pos.mpr hk
    omega

/-- C14 fails as stated: in the reachable Offline state `ex_offline_at_3`
(floor 3, deactivation flag set, wake flag clear) a failed worker start returns
`-ENOMEM` but leaves the floor at 1, the deactivation flag clear and the wake
flag set, so the state is not the state before the call. -/
theorem C14_counterexample :
    Reachable ex_offline_at_3 ∧ ex_offline_at_3.elevator_state = state_t.OFFLINE ∧
      (my_start_elevator ex_offline_at_3 false).1 = -ENOMEM ∧
      (ex_offline_at_3.current_floor = 3 ∧
        (my_start_elevator ex_offline_at_3 false).2.current_floor = 1) ∧
      (ex_offline_at_3.is_deactivating = true ∧
        (my_start_elevator ex_offline_at_3 false).2.is_deactivating = false) ∧
      (ex_offline_at_3.work_to_do = false ∧
        (my_start_elevator ex_offline_at_3 false).2.work_to_do = true) ∧
      (my_start_elevator ex_offline_at_3 false).2 ≠ ex_offline_at_3 := by
  have hr : Reachable ex_offline_at_3 :=
    Reachable.tick _ (Reachable.tick _ (Reachable.tick _ (Reachable.tick _
      (Reachable.stop _ (Reachable.issue _ 2 5 1 true
        (Reachable.tick _ (Reachable.start _ true
          (Reachable.issue _ 1 3 0 true Reachable.init))))))))
  refine ⟨hr, by decide, by decide, by decide, by decide, by decide, ?_⟩
  intro h
  have hf := congrArg ElevState.current_floor h
  revert hf
  decide

/-- C14 (amended): in a reachable Offline state a failed worker start makes
`my_start_elevator` return `-ENOMEM` (which is -12, neither 0 nor 1) and puts
the lifecycle state back to Offline; the queues, floor counts, `total_waiting`,
`total_serviced`, the manifest, the weight and the onboard count are as before
the call; the floor, the direction and the deactivation flag keep their reset
values 1, up and false, and the wake flag is true exactly when some floor queue
is non-empty.  The state after the call is the state before it exactly when it
had these four values already. -/
theorem C14_failed_start (s : ElevState) (h : Reachable s)
    (ho : s.elevator_state = state_t.OFFLINE) :
    (my_start_elevator s false).1 = -ENOMEM ∧
      (-ENOMEM = -12 ∧ -ENOMEM ≠ 0 ∧ -ENOMEM ≠ 1) ∧
      (my_start_elevator s false).2.elevator_state = state_t.OFFLINE ∧
      (my_start_elevator s false).2.floor_waiting = s.floor_waiting ∧
      (my_start_elevator s false).2.floor_num_waiting = s.floor_num_waiting ∧
      (my_start_elevator s false).2.total_waiting = s.total_waiting ∧
      (my_start_elevator s false).2.total_serviced = s.total_serviced ∧
      (my_start_elevator s false).2.elevator_pets = s.elevator_pets ∧
      (my_start_elevator s false).2.elevator_weight = s.elevator_weight ∧
      (my_start_elevator s false).2.elevator_num_pets = s.elevator_num_pets ∧
      (my_start_elevator s false).2.current_floor = 1 ∧
      (my_start_elevator s false).2.direction = 1 ∧
      (my_start_elevator s false).2.is_deactivating = false ∧
      ((my_start_elevator s false).2.work_to_do = true ↔ ∃ k : Fin 5, s.floor_waiting k ≠ []) ∧
      ((my_start_elevator s false).2 = s ↔
        s.current_floor = 1 ∧ s.direction = 1 ∧ s.is_deactivating = false ∧
          (s.work_to_do = true ↔ ∃ k : Fin 5, s.floor_waiting k ≠ [])) := by
  have hi := inv_reachable s h
  have he := hi.offline_empty ho
  have hn := hi.num_eq
  have hw := hi.weight_eq
  rw [he] at hn hw
  simp only [List.length_nil, Nat.cast_zero, weight_sum, List.map_nil, List.sum_nil] at hn hw
  have hwake :
      has_pending
          { s with
            current_floor := 1
            elevator_weight := 0
            elevator_num_pets := 0
            is_deactivating := false
            direction := 1
            elevator_state := state_t.IDLE } = true ↔
        ∃ k : Fin 5, s.floor_waiting k ≠ [] :=
    has_pending_quiet _ hi.count_eq rfl he
  unfold my_start_elevator
  rw [if_neg (by simpa using ho)]
  simp only [Bool.false_eq_true, if_false]
  refine ⟨trivial, by decide, trivial, trivial, trivial, trivial, trivial, trivial, hw.symm,
    hn.symm, trivial, trivial, trivial, hwake, ?_⟩
  constructor
  · intro heq
    have h1 := congrArg ElevState.current_floor heq
    have h2 := congrArg ElevState.direction heq
    have h3 := congrArg ElevState.is_deactivating heq
    have h4 := congrArg ElevState.work_to_do heq
    simp only at h1 h2 h3 h4
    refine ⟨h1.symm, h2.symm, h3.symm, ?_⟩
    rw [← h4]
    exact hwake
  · rintro ⟨h1, h2, h3, h4⟩
    apply ElevState.ext <;> simp only [h1, h2, h3, hn, hw, ho]
    rw [Bool.eq_iff_iff, h4]
    exact hwake

theorem C14_failed_start_witness :
    Reachable ex_submitted ∧ ex_submitted.elevator_state = state_t.OFFLINE ∧
      (my_start_elevator ex_submitted false).1 = -12 ∧
      (my_start_elevator ex_submitted false).2.elevator_state = state_t.OFFLINE ∧
      (ex_submitted.work_to_do = false ∧
        (my_start_elevator ex_submitted false).2.work_to_do = true) :=
  have hr : Reachable ex_submitted := Reachable.issue _ 1 3 0 true Reachable.init
  have h := C14_failed_start ex_submitted hr (by decide)
  ⟨hr, by decide, h.1, h.2.2.1, by decide, by decide⟩

/-! ## Unloading and the serviced counter -/

theorem can_unload_iff_filter (s : ElevState) :
    can_unload s = true ↔ 0 < (s.elevator_pets.filter (goes_to s.current_floor)).length := by
  unfold can_unload
  rw [List.any_eq_true, List.length_pos]
  constructor
  · rintro ⟨p, hp, hd⟩
    intro he
    have : p ∈ s.elevator_pets.filter (goes_to s.current_floor) :=
      List.mem_filter.mpr ⟨hp, hd⟩
    rw [he] at this
    exact absurd this (List.not_mem_nil p)
  · intro hne
    obtain ⟨p, hp⟩ := List.exists_mem_of_ne_nil _ hne
    exact ⟨p, (List.mem_filter.mp hp).1, (List.mem_filter.mp hp).2⟩

/-- The state of a loading tick after its unloading part. -/
theorem unload_part (s : ElevState) :
    (if can_unload s = true then do_unload { s with elevator_state := state_t.LOADING }
      else { s with elevator_state := state_t.LOADING }) =
      { s with
        elevator_state := state_t.LOADING
        elevator_pets := s.elevator_pets.filter (fun p => !goes_to s.current_floor p)
        elevator_weight :=
          s.elevator_weight - weight_sum (s.elevator_pets.filter (goes_to s.current_floor))
        elevator_num_pets :=
          s.elevator_num_pets - ((s.elevator_pets.filter (goes_to s.current_floor)).length : Int)
        total_serviced :=
          s.total_serviced + ((s.elevator_pets.filter (goes_to s.current_floor)).length : Int) } := by
  by_cases hc : can_unload s = true
  · rw [if_pos hc, do_unload_eq]
  · rw [if_neg hc]
    have h0 : s.elevator_pets.filter (goes_to s.current_floor) = [] := by
      by_contra hne
      exact hc ((can_unload_iff_filter s).mpr (List.length_pos.mpr hne))
    have h1 : s.elevator_pets.filter (fun p => !goes_to s.current_floor p) = s.elevator_pets := by
      rw [List.filter_eq_self]
      intro p hp
      cases hg : goes_to s.current_floor p
      · rfl
      · have : p ∈ s.elevator_pets.filter (goes_to s.current_floor) :=
          List.mem_filter.mpr ⟨hp, hg⟩
        rw [h0] at this
        exact absurd this (List.not_mem_nil p)
    rw [h0, h1]
    simp [weight_sum]

theorem tick_serviced (s : ElevState) :
    (tick s).total_serviced =
      s.total_serviced +
        (if can_unload s = true then
          ((s.elevator_pets.filter (goes_to s.current_floor)).length : Int) else 0) := by
  have hzero : can_unload s = false →
      ((s.elevator_pets.filter (goes_to s.current_floor)).length : Int) = 0 := by
    intro hc
    have := (can_unload_iff_filter s).not.mp (by simp [hc])
    omega
  by_cases hd : s.is_deactivating = true ∧ s.elevator_pets = []
  · rw [tick_drain s hd.1 hd.2]
    simp [can_unload, hd.2]
  · by_cases hl : (can_unload s || (!s.is_deactivating && can_load s)) = true
    · rw [tick_loading s hd hl, unload_part]
      have : (if (!s.is_deactivating && can_load s) = true then
            do_load
              { s with
                elevator_state := state_t.LOADING
                elevator_pets := s.elevator_pets.filter (fun p => !goes_to s.current_floor p)
                elevator_weight :=
                  s.elevator_weight -
                    weight_sum (s.elevator_pets.filter (goes_to s.current_floor))
                elevator_num_pets :=
                  s.elevator_num_pets -
                    ((s.elevator_pets.filter (goes_to s.current_floor)).length : Int)
                total_serviced :=
                  s.total_serviced +
                    ((s.elevator_pets.filter (goes_to s.current_floor)).length : Int) }
          else
            { s with
              elevator_state := state_t.LOADING
              elevator_pets := s.elevator_pets.filter (fun p => !goes_to s.current_floor p)
              elevator_weight :=
                s.elevator_weight -
                  weight_sum (s.elevator_pets.filter (goes_to s.current_floor))
              elevator_num_pets :=
                s.elevator_num_pets -
                  ((s.elevator_pets.filter (goes_to s.current_floor)).length : Int)
              total_serviced :=
                s.total_serviced +
                  ((s.elevator_pets.filter (goes_to s.current_floor)).length : Int) }).total_serviced =
          s.total_serviced +
            ((s.elevator_pets.filter (goes_to s.current_floor)).length : Int) := by
        split
        · rw [(do_load_frame _).2.2.2.2.2]
        · rfl
      rw [this]
      cases hc : can_unload s
      · rw [hzero hc]; simp
      · simp
    · simp only [Bool.or_eq_true, not_or, Bool.not_eq_true] at hl
      rw [hl.1]
      simp only [Bool.false_eq_true, if_false, add_zero]
      cases hp : has_pending s
      · rw [tick_idle s hd hl.1 hl.2 hp]
      · rw [tick_move s hd hl.1 hl.2 hp]

/-- C18: `do_unload` removes exactly the manifest items bound for the current
floor and keeps the others in their order; `total_serviced` grows by the number
removed, the onboard count drops by that number, the weight drops by the sum of
their kind-weights, and the floor queues, floor counts, `total_waiting`, floor
and direction are unchanged.  No other operation changes `total_serviced`: the
three calls and `do_load` leave it alone, and a tick adds to it exactly what its
`do_unload` adds, so it never decreases. -/
theorem C18_do_unload (s : ElevState) :
    ((do_unload s).elevator_pets =
        s.elevator_pets.filter (fun p => !decide (p.dest_floor = s.current_floor)) ∧
      (do_unload s).total_serviced =
        s.total_serviced +
          ((s.elevator_pets.filter (fun p => decide (p.dest_floor = s.current_floor))).length : Int) ∧
      (do_unload s).elevator_num_pets =
        s.elevator_num_pets -
          ((s.elevator_pets.filter (fun p => decide (p.dest_floor = s.current_floor))).length : Int) ∧
      (do_unload s).elevator_weight =
        s.elevator_weight -
          weight_sum (s.elevator_pets.filter (fun p => decide (p.dest_floor = s.current_floor))) ∧
      (do_unload s).floor_waiting = s.floor_waiting ∧
      (do_unload s).floor_num_waiting = s.floor_num_waiting ∧
      (do_unload s).total_waiting = s.total_waiting ∧
      (do_unload s).current_floor = s.current_floor ∧
      (do_unload s).direction = s.direction) ∧
      ((∀ ok : Bool, (my_start_elevator s ok).2.total_serviced = s.total_serviced) ∧
        (∀ (a b c : Int) (ok : Bool),
          (my_issue_request s a b c ok).2.total_serviced = s.total_serviced) ∧
        (my_stop_elevator s).2.total_serviced = s.total_serviced ∧
        (do_load s).total_serviced = s.total_serviced ∧
        (tick s).total_serviced =
          s.total_serviced +
            (if can_unload s = true then
              ((s.elevator_pets.filter
                (fun p => decide (p.dest_floor = s.current_floor))).length : Int)
            else 0) ∧
        s.total_serviced ≤ (tick s).total_serviced ∧
        ∀ e : Event, s.total_serviced ≤ (step s e).total_serviced) := by
  have hts := tick_serviced s
  have hge : s.total_serviced ≤ (tick s).total_serviced := by
    rw [hts]
    split <;> omega
  have hstart : ∀ ok : Bool, (my_start_elevator s ok).2.total_serviced = s.total_serviced := by
    intro ok
    unfold my_start_elevator
    split_ifs <;> rfl
  have hissue : ∀ (a b c : Int) (ok : Bool),
      (my_issue_request s a b c ok).2.total_serviced = s.total_serviced := by
    intro a b c ok
    unfold my_issue_request
    split
    · rfl
    · split
      · rfl
      · simp only []
        cases floor_idx a <;> (simp only; split_ifs <;> rfl)
  have hstop : (my_stop_elevator s).2.total_serviced = s.total_serviced := by
    unfold my_stop_elevator
    split_ifs <;> rfl
  refine ⟨?_, hstart, hissue, hstop, (do_load_frame s).2.2.2.2.2, hts, hge, ?_⟩
  · rw [do_unload_eq]
    exact ⟨rfl, rfl, rfl, rfl, rfl, rfl, rfl, rfl, rfl⟩
  · intro e
    cases e with
    | start ok => exact le_of_eq (hstart ok).symm
    | issue a b c ok => exact le_of_eq (hissue a b c ok).symm
    | stop => exact le_of_eq hstop.symm
    | tick => exact hge

theorem C18_do_unload_witness :
    (ex_full_arrival.current_floor = 2 ∧ ex_full_arrival.elevator_pets.length = 5 ∧
        ex_full_arrival.elevator_weight = 15 ∧ ex_full_arrival.total_serviced = 0) ∧
      ((do_unload ex_full_arrival).elevator_pets = [] ∧
        (do_unload ex_full_arrival).total_serviced = 5 ∧
        (do_unload ex_full_arrival).elevator_weight = 0 ∧
        (do_unload ex_full_arrival).elevator_num_pets = 0) ∧
      (do_unload ex_full_arrival).floor_waiting = ex_full_arrival.floor_waiting :=
  ⟨by decide, by decide, (C18_do_unload ex_full_arrival).1.2.2.2.2.1⟩

/-! ## Conservation of items -/

theorem in_system_do_load (s : ElevState) : in_system (do_load s) = in_system s := by
  unfold do_load
  split
  · rw [do_load_loop_eq _ _ s rfl]
    simp only [in_system]
    omega
  · rfl

theorem in_system_tick (s : ElevState) : in_system (tick s) = in_system s := by
  by_cases hd : s.is_deactivating = true ∧ s.elevator_pets = []
  · rw [tick_drain s hd.1 hd.2]
    rfl
  · by_cases hl : (can_unload s || (!s.is_deactivating && can_load s)) = true
    · rw [tick_loading s hd hl, unload_part]
      split
      · rw [in_system_do_load]
        simp only [in_system]
        omega
      · simp only [in_system]
        omega
    · simp only [Bool.or_eq_true, not_or, Bool.not_eq_true] at hl
      cases hp : has_pending s
      · rw [tick_idle s hd hl.1 hl.2 hp]
        rfl
      · rw [tick_move s hd hl.1 hl.2 hp]
        rfl

theorem in_system_start (s : ElevState) (hi : Inv s) (ok : Bool) :
    in_system (my_start_elevator s ok).2 = in_system s := by
  unfold my_start_elevator
  by_cases ho : s.elevator_state = state_t.OFFLINE
  · have hn := hi.num_eq
    rw [hi.offline_empty ho] at hn
    simp only [List.length_nil, Nat.cast_zero] at hn
    rw [if_neg (by simpa using ho)]
    cases ok <;> simp [in_system, hn]
  · rw [if_pos ho]

theorem in_system_stop (s : ElevState) : in_system (my_stop_elevator s).2 = in_system s := by
  unfold my_stop_elevator
  split_ifs <;> rfl

theorem in_system_issue (s : ElevState) (a b c : Int) (ok : Bool) :
    in_system (my_issue_request s a b c ok).2 =
      in_system s + (if (my_issue_request s a b c ok).1 = 0 then 1 else 0) := by
  unfold my_issue_request
  split
  · simp
  · rename_i hv
    split
    · simp
    · obtain ⟨k, hk⟩ := floor_idx_some a (by omega)
      simp only [hk]
      split_ifs <;> simp only [in_system] <;> omega

theorem in_system_step (s : ElevState) (hi : Inv s) (e : Event) :
    in_system (step s e) = in_system s + (if accepted s e = true then 1 else 0) := by
  cases e with
  | start ok => simpa [step, accepted] using in_system_start s hi ok
  | issue a b c ok =>
    simp only [step, accepted, decide_eq_true_eq]
    exact in_system_issue s a b c ok
  | stop => simpa [step, accepted] using in_system_stop s
  | tick => simpa [step, accepted] using in_system_tick s

theorem inv_step (s : ElevState) (hi : Inv s) (e : Event) : Inv (step s e) := by
  cases e with
  | start ok => exact inv_start s ok hi
  | issue a b c ok => exact inv_issue s a b c ok hi
  | stop => exact inv_stop s hi
  | tick => exact inv_tick s hi

theorem in_system_run (es : List Event) (s : ElevState) (hi : Inv s) :
    in_system (run es s) = in_system s + (accepted_count es s : Int) := by
  induction es generalizing s with
  | nil => simp [run, accepted_count]
  | cons e es ih =>
    rw [run, accepted_count, ih _ (inv_step s hi e), in_system_step s hi e]
    split_ifs
    · simp only [Nat.cast_add, Nat.cast_one]
      omega
    · simp

theorem reachable_run (es : List Event) (s : ElevState) (h : Reachable s) :
    Reachable (run es s) := by
  induction es generalizing s with
  | nil => exact h
  | cons e es ih =>
    rw [run]
    apply ih
    cases e with
    | start ok => exact Reachable.start s ok h
    | issue a b c ok => exact Reachable.issue s a b c ok h
    | stop => exact Reachable.stop s h
    | tick => exact Reachable.tick s h

theorem do_load_moves (s : ElevState) :
    (do_load s).elevator_pets ++ waiting_at (do_load s) s.current_floor =
      s.elevator_pets ++ waiting_at s s.current_floor := by
  unfold do_load waiting_at
  cases hk : floor_idx s.current_floor with
  | none => simp
  | some k =>
    simp only
    rw [do_load_loop_eq k _ s rfl]
    simp

/-- C19: conservation of items.  After every run from the initial state (any
list of start, issue, stop and tick events) `total_waiting` + the onboard count
+ `total_serviced` is the number of `my_issue_request` calls of the run that
returned 0.  From a reachable state an accepted request raises the sum by one,
a rejected one, a tick, a start (worker started or not) and a stop leave it
unchanged; `do_load` only moves items from the head of the current queue to the
end of the manifest. -/
theorem C19_conservation (es : List Event) :
    (run es init_state).total_waiting + (run es init_state).elevator_num_pets +
        (run es init_state).total_serviced = (accepted_count es init_state : Int) ∧
      Reachable (run es init_state) ∧
      (∀ s : ElevState, Reachable s →
        (∀ (a b c : Int) (ok : Bool), (my_issue_request s a b c ok).1 = 0 →
          in_system (my_issue_request s a b c ok).2 = in_system s + 1) ∧
        (∀ (a b c : Int) (ok : Bool), (my_issue_request s a b c ok).1 ≠ 0 →
          in_system (my_issue_request s a b c ok).2 = in_system s) ∧
        in_system (tick s) = in_system s ∧
        (∀ ok : Bool, in_system (my_start_elevator s ok).2 = in_system s) ∧
        in_system (my_stop_elevator s).2 = in_system s ∧
        (do_load s).elevator_pets ++ waiting_at (do_load s) s.current_floor =
          s.elevator_pets ++ waiting_at s s.current_floor) ∧
      (∀ s : ElevState,
        in_system s = s.total_waiting + s.elevator_num_pets + s.total_serviced) := by
  refine ⟨?_, reachable_run es init_state Reachable.init, ?_, fun s => rfl⟩
  · have h := in_system_run es init_state inv_init
    have h0 : in_system init_state = 0 := by decide
    rw [h0] at h
    simp only [in_system] at h
    omega
  · intro s hr
    have hi := inv_reachable s hr
    refine ⟨?_, ?_, in_system_tick s, in_system_start s hi, in_system_stop s, do_load_moves s⟩
    · intro a b c ok h0
      rw [in_system_issue, if_pos h0]
    · intro a b c ok h0
      rw [in_system_issue, if_neg h0]
      omega

theorem C19_conservation_witness :
    accepted_count
        [Event.issue 1 3 0 true, Event.issue 9 3 0 true, Event.start true, Event.tick,
          Event.issue 2 5 1 true, Event.tick, Event.tick, Event.tick, Event.stop, Event.tick]
        init_state = 2 ∧
      (run
        [Event.issue 1 3 0 true, Event.issue 9 3 0 true, Event.start true, Event.tick,
          Event.issue 2 5 1 true, Event.tick, Event.tick, Event.tick, Event.stop, Event.tick]
        init_state).total_serviced = 1 ∧
      (run
          [Event.issue 1 3 0 true, Event.issue 9 3 0 true, Event.start true, Event.tick,
            Event.issue 2 5 1 true, Event.tick, Event.tick, Event.tick, Event.stop, Event.tick]
          init_state).total_waiting +
        (run
          [Event.issue 1 3 0 true, Event.issue 9 3 0 true, Event.start true, Event.tick,
            Event.issue 2 5 1 true, Event.tick, Event.tick, Event.tick, Event.stop, Event.tick]
          init_state).elevator_num_pets +
        (run
          [Event.issue 1 3 0 true, Event.issue 9 3 0 true, Event.start true, Event.tick,
            Event.issue 2 5 1 true, Event.tick, Event.tick, Event.tick, Event.stop, Event.tick]
          init_state).total_serviced =
        ((accepted_count
          [Event.issue 1 3 0 true, Event.issue 9 3 0 true, Event.start true, Event.tick,
            Event.issue 2 5 1 true, Event.tick, Event.tick, Event.tick, Event.stop, Event.tick]
          init_state : Nat) : Int) :=
  ⟨by decide, by decide,
    (C19_conservation
      [Event.issue 1 3 0 true, Event.issue 9 3 0 true, Event.start true, Event.tick,
        Event.issue 2 5 1 true, Event.tick, Event.tick, Event.tick, Event.stop, Event.tick]).1⟩

/-! ## Loading ticks -/

theorem not_drain_of_loading (s : ElevState)
    (hl : (can_unload s || (!s.is_deactivating && can_load s)) = true) :
    ¬ (s.is_deactivating = true ∧ s.elevator_pets = []) := by
  rintro ⟨hd, he⟩
  simp [can_unload, he, hd] at hl

/-- After `do_load` the head of the current queue, if any, does not fit. -/
theorem can_load_do_load (s : ElevState) : can_load (do_load s) = false := by
  have hcf : (do_load s).current_floor = s.current_floor := (do_load_frame s).2.1
  unfold can_load
  rw [hcf]
  unfold do_load waiting_at
  cases hk : floor_idx s.current_floor with
  | none => rfl
  | some k =>
    simp only [do_load_loop_eq k _ s rfl, Function.update_same]
    cases hdrop : (s.floor_waiting k).drop
        (board_count s.elevator_num_pets s.elevator_weight (s.floor_waiting k)) with
    | nil => rfl
    | cons p rest =>
      have hstop := board_count_stops _ _ _ p rest hdrop
      simp only [Bool.and_eq_false_iff, decide_eq_false_iff_not]
      by_contra hc
      simp only [not_or, not_not] at hc
      exact hstop hc

/-- When the head of the current queue fits, `do_load` boards it. -/
theorem do_load_boards_head (s : ElevState) (p : pet) (rest : List pet)
    (hq : waiting_at s s.current_floor = p :: rest)
    (hfit : s.elevator_num_pets < 5 ∧ s.elevator_weight + weights p.type ≤ 50) :
    ∃ (m : Nat) (more : List pet),
      (do_load s).elevator_pets = s.elevator_pets ++ p :: more ∧
        (p :: more) ++ waiting_at (do_load s) s.current_floor = p :: rest ∧
        (p :: more).length = m + 1 ∧
        (do_load s).total_waiting = s.total_waiting - ((m + 1 : Nat) : Int) ∧
        (do_load s).elevator_num_pets = s.elevator_num_pets + ((m + 1 : Nat) : Int) := by
  unfold waiting_at at hq
  unfold do_load waiting_at
  cases hk : floor_idx s.current_floor with
  | none => simp [hk] at hq
  | some k =>
    simp only [hk] at hq
    simp only
    rw [do_load_loop_eq k _ s rfl, hq]
    have hle := board_count_le rest (s.elevator_num_pets + 1) (s.elevator_weight + weights p.type)
    refine ⟨board_count (s.elevator_num_pets + 1) (s.elevator_weight + weights p.type) rest,
      rest.take (board_count (s.elevator_num_pets + 1) (s.elevator_weight + weights p.type) rest),
      ?_, ?_, ?_, ?_, ?_⟩
    · simp only [board_count, if_pos hfit, List.take_succ_cons]
    · simp only [board_count, if_pos hfit, List.drop_succ_cons, Function.update_same,
        List.cons_append, List.take_append_drop]
    · simp only [List.length_cons, List.length_take, Nat.min_eq_left hle]
    · simp only [board_count, if_pos hfit]
    · simp only [board_count, if_pos hfit]

theorem tick_loading_eq (s : ElevState)
    (hl : (can_unload s || (!s.is_deactivating && can_load s)) = true) :
    tick s =
      (if (!s.is_deactivating && can_load s) = true then
        do_load
          { s with
            elevator_state := state_t.LOADING
            elevator_pets := s.elevator_pets.filter (fun p => !goes_to s.current_floor p)
            elevator_weight :=
              s.elevator_weight - weight_sum (s.elevator_pets.filter (goes_to s.current_floor))
            elevator_num_pets :=
              s.elevator_num_pets -
                ((s.elevator_pets.filter (goes_to s.current_floor)).length : Int)
            total_serviced :=
              s.total_serviced +
                ((s.elevator_pets.filter (goes_to s.current_floor)).length : Int) }
      else
        { s with
          elevator_state := state_t.LOADING
          elevator_pets := s.elevator_pets.filter (fun p => !goes_to s.current_floor p)
          elevator_weight :=
            s.elevator_weight - weight_sum (s.elevator_pets.filter (goes_to s.current_floor))
          elevator_num_pets :=
            s.elevator_num_pets -
              ((s.elevator_pets.filter (goes_to s.current_floor)).length : Int)
          total_serviced :=
            s.total_serviced +
              ((s.elevator_pets.filter (goes_to s.current_floor)).length : Int) }) := by
  rw [tick_loading s (not_drain_of_loading s hl) hl, unload_part]

theorem can_load_head (s : ElevState) (h : can_load s = true) :
    ∃ (p : pet) (rest : List pet), waiting_at s s.current_floor = p :: rest ∧
      s.elevator_num_pets < 5 ∧ s.elevator_weight + weights p.type ≤ 50 := by
  unfold can_load at h
  cases hq : waiting_at s s.current_floor with
  | nil => simp [hq] at h
  | cons p rest =>
    simp only [hq, Bool.and_eq_true, decide_eq_true_eq] at h
    exact ⟨p, rest, rfl, h⟩

/-- The two halves of a loading tick: `u` is the state after the unloading
part, with `r` items removed, and the tick is `do_load u` when the boarding
condition held at the start of the tick and `u` otherwise. -/
theorem loading_tick_parts (s : ElevState)
    (hl : (can_unload s || (!s.is_deactivating && can_load s)) = true) :
    ∃ (u : ElevState) (r : Nat),
      tick s = (if (!s.is_deactivating && can_load s) = true then do_load u else u) ∧
        r = (s.elevator_pets.filter (goes_to s.current_floor)).length ∧
        (can_unload s = true → 1 ≤ r) ∧
        u.elevator_state = state_t.LOADING ∧
        u.elevator_pets = s.elevator_pets.filter (fun p => !goes_to s.current_floor p) ∧
        u.elevator_num_pets = s.elevator_num_pets - (r : Int) ∧
        u.elevator_weight ≤ s.elevator_weight ∧
        u.total_serviced = s.total_serviced + (r : Int) ∧
        u.total_waiting = s.total_waiting ∧
        u.floor_waiting = s.floor_waiting ∧
        u.floor_num_waiting = s.floor_num_waiting ∧
        u.current_floor = s.current_floor ∧
        u.is_deactivating = s.is_deactivating := by
  refine ⟨_, _, tick_loading_eq s hl, rfl, ?_, rfl, rfl, rfl, ?_, rfl, rfl, rfl, rfl, rfl, rfl⟩
  · intro hc
    exact (can_unload_iff_filter s).mp hc
  · have := weight_sum_nonneg (s.elevator_pets.filter (goes_to s.current_floor))
    simp only
    omega

/-- C20: every loading tick makes progress.  When the tick takes the loading
branch it unloads `r` items and boards `m` items with `r ≥ 1` or `m ≥ 1`
(`r ≥ 1` when something could be unloaded, `m ≥ 1` when the boarding condition
held at the start of the tick), so `total_waiting` + onboard count strictly
decreases or `total_waiting` strictly decreases.  If the boarding condition
(not deactivating and `can_load`) held before unloading, the head of the
current floor queue is boarded, right behind the items left after unloading. -/
theorem C20_loading_progress (s : ElevState)
    (hl : (can_unload s || (!s.is_deactivating && can_load s)) = true) :
    (tick s).elevator_state = state_t.LOADING ∧
      (∃ r m : Nat,
        (1 ≤ r ∨ 1 ≤ m) ∧
          (can_unload s = true → 1 ≤ r) ∧
          ((!s.is_deactivating && can_load s) = true → 1 ≤ m) ∧
          (tick s).total_serviced = s.total_serviced + (r : Int) ∧
          (tick s).elevator_num_pets = s.elevator_num_pets - (r : Int) + (m : Int) ∧
          (tick s).total_waiting = s.total_waiting - (m : Int) ∧
          (tick s).elevator_pets.length + r = s.elevator_pets.length + m) ∧
      ((tick s).total_waiting + (tick s).elevator_num_pets <
          s.total_waiting + s.elevator_num_pets ∨
        (tick s).total_waiting < s.total_waiting) ∧
      ((!s.is_deactivating && can_load s) = true →
        ∃ (p : pet) (rest more : List pet),
          waiting_at s s.current_floor = p :: rest ∧
            (tick s).elevator_pets =
              s.elevator_pets.filter (fun q => !decide (q.dest_floor = s.current_floor)) ++
                p :: more ∧
            (p :: more) ++ waiting_at (tick s) s.current_floor = p :: rest) := by
  obtain ⟨u, r, ht, hr, hr1, hst, hpets, hnum, hwt, hts, htw, hfw, hfn, hcf, hde⟩ :=
    loading_tick_parts s hl
  have hlen : u.elevator_pets.length + r = s.elevator_pets.length := by
    rw [hpets, hr]
    have := length_filter_split (goes_to s.current_floor) s.elevator_pets
    omega
  by_cases hb : (!s.is_deactivating && can_load s) = true
  · rw [if_pos hb] at ht
    have hcl : can_load s = true := by
      simp only [Bool.and_eq_true] at hb
      exact hb.2
    obtain ⟨p, rest, hq, hn5, hw50⟩ := can_load_head s hcl
    have hqu : waiting_at u u.current_floor = p :: rest := by
      unfold waiting_at at hq ⊢
      rw [hcf, hfw]
      exact hq
    obtain ⟨m, more, hp, hsplit, hml, hdw, hdn⟩ :=
      do_load_boards_head u p rest hqu ⟨by omega, by omega⟩
    have hfr := do_load_frame u
    refine ⟨?_, ⟨r, m + 1, Or.inr (by omega), hr1, fun _ => by omega, ?_, ?_, ?_, ?_⟩, ?_, ?_⟩
    · rw [ht, hfr.2.2.1, hst]
    · rw [ht, hfr.2.2.2.2.2, hts]
    · rw [ht, hdn, hnum]
    · rw [ht, hdw, htw]
    · rw [ht, hp, List.length_append, hml]
      omega
    · right
      rw [ht, hdw, htw]
      have : (0 : Int) < ((m + 1 : Nat) : Int) := by omega
      omega
    · intro _
      refine ⟨p, rest, more, hq, ?_, ?_⟩
      · rw [ht, hp, hpets]
        rfl
      · rw [ht, ← hcf]
        exact hsplit
  · rw [if_neg hb] at ht
    have hcu : can_unload s = true := by
      cases hc : can_unload s
      · simp only [Bool.not_eq_true] at hb
        rw [hc, hb] at hl
        exact absurd hl (by decide)
      · rfl
    have h1 := hr1 hcu
    refine ⟨?_, ⟨r, 0, Or.inl h1, hr1, fun h => absurd h hb, ?_, ?_, ?_, ?_⟩, ?_,
      fun h => absurd h hb⟩
    · rw [ht, hst]
    · rw [ht, hts]
    · rw [ht, hnum]
      simp
    · rw [ht, htw]
      simp
    · rw [ht]
      omega
    · left
      rw [ht, htw, hnum]
      omega

theorem C20_loading_progress_witness :
    (can_unload ex_activated || (!ex_activated.is_deactivating && can_load ex_activated)) = true ∧
      (ex_activated.total_waiting = 1 ∧ (tick ex_activated).total_waiting = 0) ∧
      ((tick ex_activated).total_waiting + (tick ex_activated).elevator_num_pets <
          ex_activated.total_waiting + ex_activated.elevator_num_pets ∨
        (tick ex_activated).total_waiting < ex_activated.total_waiting) :=
  ⟨by decide, by decide, (C20_loading_progress ex_activated (by decide)).2.2.1⟩

theorem can_load_false_iff (s : ElevState) :
    can_load s = false ↔
      waiting_at s s.current_floor = [] ∨ 5 ≤ s.elevator_num_pets ∨
        ∃ (p : pet) (rest : List pet), waiting_at s s.current_floor = p :: rest ∧
          50 < s.elevator_weight + weights p.type := by
  unfold can_load
  cases hq : waiting_at s s.current_floor with
  | nil => simp
  | cons p rest =>
    simp only [Bool.and_eq_false_iff, decide_eq_false_iff_not, List.cons.injEq, false_or,
      reduceCtorEq]
    constructor
    · rintro (h | h)
      · left; omega
      · right; exact ⟨p, rest, ⟨rfl, rfl⟩, by omega⟩
    · rintro (h | ⟨q, rest2, ⟨hq1, _⟩, h⟩)
      · left; omega
      · right; rw [hq1]; omega

/-- C17 fails as stated: `ex_full_arrival` is reachable, not deactivating, at
floor 2 with five items aboard that all get off there and one item waiting
there.  Its tick takes the loading branch and unloads the five, but the
boarding flag was computed before the unloading (car full), so `do_load` is not
called: after the tick the car is empty, the item still waits, and `can_load`
holds. -/
theorem C17_counterexample :
    Reachable ex_full_arrival ∧ ex_full_arrival.is_deactivating = false ∧
      (can_unload ex_full_arrival ||
        (!ex_full_arrival.is_deactivating && can_load ex_full_arrival)) = true ∧
      (ex_full_arrival.current_floor = 2 ∧ ex_full_arrival.elevator_num_pets = 5 ∧
        can_load ex_full_arrival = false) ∧
      ((tick ex_full_arrival).elevator_state = state_t.LOADING ∧
        (tick ex_full_arrival).elevator_pets = [] ∧
        (tick ex_full_arrival).elevator_num_pets = 0 ∧
        (tick ex_full_arrival).elevator_weight = 0 ∧
        waiting_at (tick ex_full_arrival) 2 = [⟨0, 3⟩]) ∧
      can_load (tick ex_full_arrival) = true := by
  have hr : Reachable ex_full_arrival :=
    Reachable.tick _ (Reachable.tick _ (Reachable.start _ true
      (Reachable.issue _ 2 3 0 true (Reachable.issue _ 1 2 0 true
        (Reachable.issue _ 1 2 0 true (Reachable.issue _ 1 2 0 true
          (Reachable.issue _ 1 2 0 true (Reachable.issue _ 1 2 0 true Reachable.init))))))))
  exact ⟨hr, by decide, by decide, by decide, by decide, by decide⟩

/-- C17 (amended): in a reachable state with the deactivation flag clear whose
tick takes the loading branch, unloading is done first.  If `can_load` held at
the start of the tick (before unloading), boarding then runs against the freed
capacity for as long as the head fits, so after the tick `can_load` is false:
the current queue is empty, or 5 items are aboard, or the head would take the
weight over 50.  If `can_load` did not hold at the start of the tick, nothing
boards in this tick, whatever room the unloading made; when `can_load` holds
afterwards, the next tick is a loading tick at the same floor that boards, and
`can_load` is false after it. -/
theorem C17_loading_order (s : ElevState) (hr : Reachable s)
    (hd : s.is_deactivating = false)
    (hl : (can_unload s || (!s.is_deactivating && can_load s)) = true) :
    (∃ u : ElevState,
        u.elevator_pets =
            s.elevator_pets.filter (fun p => !decide (p.dest_floor = s.current_floor)) ∧
          u.floor_waiting = s.floor_waiting ∧
          tick s = (if can_load s = true then do_load u else u)) ∧
      (can_load s = true →
        can_load (tick s) = false ∧
          (waiting_at (tick s) (tick s).current_floor = [] ∨
            (tick s).elevator_pets.length = 5 ∨
            ∃ (p : pet) (rest : List pet),
              waiting_at (tick s) (tick s).current_floor = p :: rest ∧
                50 < (tick s).elevator_weight + weights p.type)) ∧
      (can_load s = false →
        (tick s).floor_waiting = s.floor_waiting ∧
          (tick s).total_waiting = s.total_waiting ∧
          (tick s).elevator_pets =
            s.elevator_pets.filter (fun p => !decide (p.dest_floor = s.current_floor)) ∧
          (can_load (tick s) = true →
            (tick (tick s)).elevator_state = state_t.LOADING ∧
              (tick (tick s)).current_floor = s.current_floor ∧
              (tick (tick s)).total_waiting < s.total_waiting ∧
              can_load (tick (tick s)) = false)) := by
  obtain ⟨u, r, ht, _, _, _, hpets, _, _, _, htw, hfw, _, hcf, hde⟩ := loading_tick_parts s hl
  have hbool : (!s.is_deactivating && can_load s) = can_load s := by simp [hd]
  rw [hbool] at ht
  refine ⟨⟨u, hpets, hfw, ht⟩, ?_, ?_⟩
  · intro hc
    rw [if_pos hc] at ht
    have hfalse : can_load (tick s) = false := by
      rw [ht]
      exact can_load_do_load u
    refine ⟨hfalse, ?_⟩
    have hit := inv_tick s (inv_reachable s hr)
    rcases (can_load_false_iff (tick s)).mp hfalse with h | h | h
    · exact Or.inl h
    · right; left
      have h1 := hit.num_eq
      have h2 := hit.num_le
      omega
    · exact Or.inr (Or.inr h)
  · intro hc
    rw [if_neg (by simp [hc])] at ht
    refine ⟨by rw [ht, hfw], by rw [ht, htw], by rw [ht, hpets]; rfl, ?_⟩
    intro hc2
    have hd2 : (tick s).is_deactivating = false := by rw [ht, hde, hd]
    have hb2 : (!(tick s).is_deactivating && can_load (tick s)) = true := by simp [hd2, hc2]
    have hl2 : (can_unload (tick s) ||
        (!(tick s).is_deactivating && can_load (tick s))) = true := by
      simp [hd2, hc2]
    obtain ⟨u2, r2, ht2, _, _, hst2, _, hn2, hw2, _, htw2, hfw2, _, hcf2, _⟩ :=
      loading_tick_parts (tick s) hl2
    rw [if_pos hb2] at ht2
    obtain ⟨p, rest, hq, hn5, hw50⟩ := can_load_head (tick s) hc2
    have hqu : waiting_at u2 u2.current_floor = p :: rest := by
      unfold waiting_at at hq ⊢
      rw [hcf2, hfw2]
      exact hq
    obtain ⟨m, more, _, _, _, hdw, _⟩ :=
      do_load_boards_head u2 p rest hqu ⟨by omega, by omega⟩
    have hfr := do_load_frame u2
    refine ⟨?_, ?_, ?_, ?_⟩
    · rw [ht2, hfr.2.2.1, hst2]
    · rw [ht2, hfr.2.1, hcf2, ht, hcf]
    · rw [ht2, hdw, htw2, ht, htw]
      have : (0 : Int) < ((m + 1 : Nat) : Int) := by omega
      omega
    · rw [ht2]
      exact can_load_do_load u2

theorem C17_loading_order_witness :
    Reachable ex_full_arrival ∧ ex_full_arrival.is_deactivating = false ∧
      (can_unload ex_full_arrival ||
        (!ex_full_arrival.is_deactivating && can_load ex_full_arrival)) = true ∧
      can_load ex_full_arrival = false ∧ can_load (tick ex_full_arrival) = true ∧
      ((tick (tick ex_full_arrival)).elevator_state = state_t.LOADING ∧
        (tick (tick ex_full_arrival)).current_floor = ex_full_arrival.current_floor ∧
        (tick (tick ex_full_arrival)).total_waiting < ex_full_arrival.total_waiting ∧
        can_load (tick (tick ex_full_arrival)) = false) ∧
      (tick (tick ex_full_arrival)).elevator_pets = [⟨0, 3⟩] :=
  have hr : Reachable ex_full_arrival :=
    Reachable.tick _ (Reachable.tick _ (Reachable.start _ true
      (Reachable.issue _ 2 3 0 true (Reachable.issue _ 1 2 0 true
        (Reachable.issue _ 1 2 0 true (Reachable.issue _ 1 2 0 true
          (Reachable.issue _ 1 2 0 true (Reachable.issue _ 1 2 0 true Reachable.init))))))))
  have h := C17_loading_order ex_full_arrival hr (by decide) (by decide)
  ⟨hr, by decide, by decide, by decide, by decide,
    (h.2.2 (by decide)).2.2.2 (by decide), by decide⟩

/-! ## The status report -/

theorem scnprintf_take (X text : List Char) :
    scnprintf (X.take 2047) text = (X ++ text).take 2047 := by
  unfold scnprintf PROC_BUF_SIZE
  rw [List.take_append_eq_append_take, List.length_take]
  congr 2
  omega

theorem print_pets_take (l : List pet) (X : List Char) :
    print_pets (X.take 2047) l = (X ++ pets_text l).take 2047 := by
  induction l generalizing X with
  | nil => simp [print_pets, pets_text]
  | cons p rest ih =>
    have := ih (X ++ (' ' :: type_chars p.type :: fmt_d p.dest_floor))
    unfold print_pets at this ⊢
    rw [List.foldl_cons, scnprintf_take, this, pets_text, List.append_assoc]

theorem print_floor_take (s : ElevState)
    (hc : ∀ k : Fin 5, s.floor_num_waiting k = ((s.floor_waiting k).length : Int))
    (X : List Char) (f : Int) :
    print_floor s (X.take 2047) f = (X ++ report_floor s f).take 2047 := by
  unfold print_floor report_floor
  simp only
  rw [scnprintf_take]
  by_cases hpos : num_waiting_at s f > 0
  · rw [if_pos hpos, print_pets_take, scnprintf_take]
    simp only [List.append_assoc]
  · rw [if_neg hpos]
    have hq : waiting_at s f = [] := by
      unfold num_waiting_at at hpos
      unfold waiting_at
      cases hk : floor_idx f with
      | none => rfl
      | some k =>
        simp only [hk] at hpos
        simp only
        have := hc k
        apply List.eq_nil_of_length_eq_zero
        omega
    rw [hq, scnprintf_take]
    simp only [pets_text, List.append_assoc, List.nil_append]

/-- With the floor counts equal to the queue lengths, the buffer of
`proc_read` holds the first 2047 characters of the report. -/
theorem proc_buf_eq (s : ElevState)
    (hc : ∀ k : Fin 5, s.floor_num_waiting k = ((s.floor_waiting k).length : Int)) :
    proc_buf s = (report s).take 2047 := by
  have h0 : ([] : List Char) = ([] : List Char).take 2047 := rfl
  have hman : ∀ X : List Char,
      (if s.elevator_pets = [] then scnprintf (X.take 2047) " (empty)".toList
        else print_pets (X.take 2047) s.elevator_pets) =
      (X ++ (if s.elevator_pets = [] then " (empty)".toList
        else pets_text s.elevator_pets)).take 2047 := by
    intro X
    split
    · exact scnprintf_take X _
    · exact print_pets_take _ X
  unfold proc_buf report
  simp only [List.foldl_cons, List.foldl_nil]
  rw [h0, scnprintf_take, scnprintf_take, scnprintf_take, scnprintf_take, hman, scnprintf_take,
    print_floor_take s hc, print_floor_take s hc, print_floor_take s hc, print_floor_take s hc,
    print_floor_take s hc, scnprintf_take, scnprintf_take, scnprintf_take]
  simp only [List.append_assoc, List.nil_append]

theorem proc_buf_length_le (s : ElevState)
    (hc : ∀ k : Fin 5, s.floor_num_waiting k = ((s.floor_waiting k).length : Int)) :
    (proc_buf s).length ≤ 2047 := by
  rw [proc_buf_eq s hc, List.length_take]
  exact Nat.min_le_left _ _

theorem reachable_crowd (n : Nat) : Reachable (crowd_step^[n] init_state) := by
  induction n with
  | zero => exact Reachable.init
  | succ n ih =>
    rw [Function.iterate_succ_apply']
    exact Reachable.issue _ 1 2 0 true ih

theorem crowd_step_queue (s : ElevState) :
    (crowd_step s).floor_waiting 0 = s.floor_waiting 0 ++ [⟨0, 2⟩] := by
  have hidx : floor_idx 1 = some 0 := rfl
  unfold crowd_step my_issue_request
  rw [if_neg (by decide)]
  simp only [Bool.not_true, Bool.false_eq_true, if_false, hidx]
  split_ifs <;> simp

theorem crowd_queue (n : Nat) :
    (crowd_step^[n] init_state).floor_waiting 0 = List.replicate n ⟨0, 2⟩ := by
  induction n with
  | zero => rfl
  | succ n ih =>
    rw [Function.iterate_succ_apply', crowd_step_queue, ih, List.replicate_succ']

theorem waiting_at_one (s : ElevState) : waiting_at s 1 = s.floor_waiting 0 := rfl

theorem pets_text_replicate (n : Nat) :
    (pets_text (List.replicate n ⟨0, 2⟩)).length = 3 * n := by
  induction n with
  | zero => rfl
  | succ n ih =>
    rw [List.replicate_succ, pets_text, List.length_append, ih]
    have : (' ' :: type_chars (0 : Int) :: fmt_d 2).length = 3 := by decide
    simp only at this ⊢
    omega

theorem report_length_ge (s : ElevState) :
    (pets_text (waiting_at s 1)).length ≤ (report s).length := by
  unfold report report_floor
  simp only [List.length_append]
  omega

theorem proc_read_copied (s : ElevState) (size : Nat) (offs : Int) (a c : Bool) :
    (proc_read s size offs a c).2 = s ∧
      ((proc_read s size offs a c).1.copied = [] ∨
        (proc_read s size offs a c).1.copied = proc_buf s) := by
  unfold proc_read
  split_ifs <;> exact ⟨rfl, by simp⟩

/-- C15 fails as stated: with 700 items waiting on floor 1 (a reachable state)
the report has more than 2047 characters, while the buffer of `proc_read` never
holds more than `PROC_BUF_SIZE - 1 = 2047`; the text is cut short and no read
returns the complete report. -/
theorem C15_counterexample :
    Reachable ex_crowd ∧ (waiting_at ex_crowd 1).length = 700 ∧
      2047 < (report ex_crowd).length ∧ (proc_buf ex_crowd).length ≤ 2047 ∧
      proc_buf ex_crowd ≠ report ex_crowd ∧
      ∀ (size : Nat) (offs : Int) (alloc_ok copy_ok : Bool),
        (proc_read ex_crowd size offs alloc_ok copy_ok).1.copied ≠ report ex_crowd := by
  have hr : Reachable ex_crowd := by
    unfold ex_crowd
    exact reachable_crowd 700
  have hq : waiting_at ex_crowd 1 = List.replicate 700 ⟨0, 2⟩ := by
    rw [waiting_at_one]
    unfold ex_crowd
    exact crowd_queue 700
  have hlen : 2047 < (report ex_crowd).length := by
    have h1 := report_length_ge ex_crowd
    rw [hq, pets_text_replicate] at h1
    omega
  have hbuf := proc_buf_length_le ex_crowd (inv_reachable _ hr).count_eq
  refine ⟨hr, by rw [hq, List.length_replicate], hlen, hbuf, ?_, ?_⟩
  · intro h
    rw [h] at hbuf
    omega
  · intro size offs a c h
    rcases (proc_read_copied ex_crowd size offs a c).2 with h0 | h0
    · rw [h0] at h
      rw [← h] at hlen
      simp at hlen
    · rw [h0] at h
      rw [h] at hbuf
      omega

/-- The report of `ex_crowd` does not fit the buffer. -/
theorem crowd_report_long : 2047 < (report ex_crowd).length := by
  have hq : waiting_at ex_crowd 1 = List.replicate 700 ⟨0, 2⟩ := by
    rw [waiting_at_one]
    unfold ex_crowd
    exact crowd_queue 700
  have h1 := report_length_ge ex_crowd
  rw [hq, pets_text_replicate] at h1
  omega

/-- With the floor counts equal to the queue lengths, what `proc_read` gives
back in each of its five cases, in terms of the report. -/
theorem proc_read_eq (s : ElevState)
    (hc : ∀ k : Fin 5, s.floor_num_waiting k = ((s.floor_waiting k).length : Int))
    (size : Nat) (offs : Int) (alloc_ok copy_ok : Bool) :
    (proc_read s size offs alloc_ok copy_ok).1 =
      if offs > 0 then { ret := 0, copied := [], offs := offs }
      else if alloc_ok = false then { ret := -ENOMEM, copied := [], offs := offs }
      else if size < min 2047 (report s).length then
        { ret := -ENOSPC, copied := [], offs := offs }
      else if copy_ok = false then { ret := -EFAULT, copied := [], offs := offs }
      else
        { ret := ((min 2047 (report s).length : Nat) : Int), copied := (report s).take 2047,
          offs := offs + ((min 2047 (report s).length : Nat) : Int) } := by
  unfold proc_read
  rw [proc_buf_eq s hc, List.length_take]
  simp only [gt_iff_lt]
  by_cases h1 : 0 < offs
  · rw [if_pos h1, if_pos h1]
  · rw [if_neg h1, if_neg h1]
    cases alloc_ok
    · rfl
    · by_cases h3 : size < min 2047 (report s).length
      · simp only [Bool.not_true, Bool.false_eq_true, if_false, h3, if_true]
        rfl
      · cases copy_ok
        · simp only [Bool.not_true, Bool.not_false, Bool.false_eq_true, if_false, h3, if_true]
          rfl
        · simp only [Bool.not_true, Bool.false_eq_true, if_false, h3]
          rfl

/-- C15 (amended): in every reachable state `proc_read` leaves the state
unchanged, and the text it builds is the first 2047 characters of the report
`report`: the state line, the floor, the load, the manifest line (` (empty)` or
the items in boarding order), the lines of floors 5 down to 1 with the marker,
the count and the waiting items in FIFO order, and the three counters.  When
the report has at most 2047 characters the text is the complete report, and
the first read into a buffer that can hold it returns it whole.  Every call is
determined: a positive offset gives 0 and nothing; a failed allocation gives
`-ENOMEM`; a user buffer smaller than the text (the report length, at most 2047)
gives `-ENOSPC`; a failed copy gives `-EFAULT`; otherwise the read returns the
first 2047 characters of the report and their number, and advances the offset
by it.  So when the report is longer than 2047 characters the first read into
a buffer of at least 2047 bytes returns exactly its first 2047 characters. -/
theorem C15_status_report (s : ElevState) (hr : Reachable s) :
    (∀ (size : Nat) (offs : Int) (alloc_ok copy_ok : Bool),
        (proc_read s size offs alloc_ok copy_ok).2 = s) ∧
      proc_buf s = (report s).take 2047 ∧
      ((report s).length ≤ 2047 →
        proc_buf s = report s ∧
          ∀ size : Nat, (report s).length ≤ size →
            (proc_read s size 0 true true).1 =
              { ret := ((report s).length : Int), copied := report s,
                offs := ((report s).length : Int) }) ∧
      (∀ (size : Nat) (offs : Int) (alloc_ok copy_ok : Bool),
        (proc_read s size offs alloc_ok copy_ok).1 =
          if offs > 0 then { ret := 0, copied := [], offs := offs }
          else if alloc_ok = false then { ret := -ENOMEM, copied := [], offs := offs }
          else if size < min 2047 (report s).length then
            { ret := -ENOSPC, copied := [], offs := offs }
          else if copy_ok = false then { ret := -EFAULT, copied := [], offs := offs }
          else
            { ret := ((min 2047 (report s).length : Nat) : Int),
              copied := (report s).take 2047,
              offs := offs + ((min 2047 (report s).length : Nat) : Int) }) ∧
      (2047 < (report s).length →
        ∀ size : Nat, 2047 ≤ size →
          (proc_read s size 0 true true).1 =
            { ret := 2047, copied := (report s).take 2047, offs := 2047 } ∧
          ((proc_read s size 0 true true).1.copied).length = 2047) := by
  have hc := (inv_reachable s hr).count_eq
  have heq := proc_buf_eq s hc
  refine ⟨fun size offs a c => (proc_read_copied s size offs a c).1, heq, ?_,
    proc_read_eq s hc, ?_⟩
  · intro hlen
    have hfull : proc_buf s = report s := by
      rw [heq, List.take_of_length_le hlen]
    refine ⟨hfull, ?_⟩
    intro size hsize
    unfold proc_read
    rw [hfull]
    rw [if_neg (by decide), if_neg (by decide), if_neg (by omega), if_neg (by decide)]
    simp
  · intro hlen size hsize
    have hmin : min 2047 (report s).length = 2047 := by omega
    have hrd := proc_read_eq s hc size 0 true true
    rw [hmin, if_neg (by decide), if_neg (by decide), if_neg (by omega),
      if_neg (by decide)] at hrd
    rw [hrd]
    refine ⟨by simp, ?_⟩
    simp only [List.length_take]
    omega

set_option maxRecDepth 100000 in
/-- Witness for C15 at `ex_stopping` (a short report, returned whole) and at
`ex_crowd` (a report longer than 2047 characters, of which a read into a
4096-byte buffer returns the first 2047). -/
theorem C15_status_report_witness :
    Reachable ex_stopping ∧
      String.mk (proc_buf ex_stopping) =
        "Elevator state: LOADING\nCurrent floor: 1\nCurrent load: 3 lbs\nElevator status: C3\n[ ] Floor 5: 0\n[ ] Floor 4: 0\n[ ] Floor 3: 0\n[ ] Floor 2: 1 P5\n[*] Floor 1: 0\nNumber of pets: 1\nNumber of pets waiting: 1\nNumber of pets serviced: 0\n" ∧
      proc_buf ex_stopping = (report ex_stopping).take 2047 ∧
      Reachable ex_crowd ∧ 2047 < (report ex_crowd).length ∧
      (proc_read ex_crowd 4096 0 true true).1 =
        { ret := 2047, copied := (report ex_crowd).take 2047, offs := 2047 } :=
  have hr : Reachable ex_stopping :=
    Reachable.stop _ (Reachable.issue _ 2 5 1 true
      (Reachable.tick _ (Reachable.start _ true (Reachable.issue _ 1 3 0 true Reachable.init))))
  have hcr : Reachable ex_crowd := reachable_crowd 700
  ⟨hr, by decide, (C15_status_report ex_stopping hr).2.1, hcr, crowd_report_long,
    ((C15_status_report ex_crowd hcr).2.2.2.2 crowd_report_long 4096 (by decide)).1⟩

/-! ## Every request is served -/

set_option maxRecDepth 100000 in
/-- LOOK reaches a floor where loading is possible: for every floor and
direction, every set `S` of floors needing service and every non-empty set
`U ⊆ S` of floors where loading is possible that does not contain the current
floor, one movement step brings the car strictly nearer (in steps) to `U`. -/
theorem look_reaches :
    ∀ cf ∈ ([1, 2, 3, 4, 5] : List Int), ∀ dir ∈ ([1, -1] : List Int),
      ∀ s1 s2 s3 s4 s5 u1 u2 u3 u4 u5 : Bool,
        (u1 → s1) → (u2 → s2) → (u3 → s3) → (u4 → s4) → (u5 → s5) →
        (u1 || u2 || u3 || u4 || u5) = true →
        bits u1 u2 u3 u4 u5 cf = false →
        steps_to (bits s1 s2 s3 s4 s5) (bits u1 u2 u3 u4 u5) 16
            (cf + look_dir (bits s1 s2 s3 s4 s5) cf dir) (look_dir (bits s1 s2 s3 s4 s5) cf dir) <
          steps_to (bits s1 s2 s3 s4 s5) (bits u1 u2 u3 u4 u5) 16 cf dir := by
  decide

theorem steps_to_le (S U : Int → Bool) (fuel : Nat) (cf dir : Int) :
    steps_to S U fuel cf dir ≤ fuel := by
  induction fuel generalizing cf dir with
  | zero => simp [steps_to]
  | succ n ih =>
    unfold steps_to
    split
    · omega
    · have := ih (cf + look_dir S cf dir) (look_dir S cf dir)
      omega

theorem bits_of (g : Int → Bool) (h : ∀ f : Int, ¬ (1 ≤ f ∧ f ≤ 5) → g f = false) :
    g = bits (g 1) (g 2) (g 3) (g 4) (g 5) := by
  funext f
  unfold bits
  by_cases h1 : f = 1
  · subst h1; simp
  by_cases h2 : f = 2
  · subst h2; simp
  by_cases h3 : f = 3
  · subst h3; simp
  by_cases h4 : f = 4
  · subst h4; simp
  by_cases h5 : f = 5
  · subst h5; simp
  simp only [h1, h2, h3, h4, h5, if_false]
  exact h f (by omega)

theorem need_service_outside (s : ElevState) (hi : Inv s) (f : Int)
    (hf : ¬ (1 ≤ f ∧ f ≤ 5)) : need_service s f = false := by
  have hd := dest_flag_outside s hi f hf
  unfold dest_flag at hd
  unfold need_service num_waiting_at
  rw [floor_idx_none f hf]
  simp only [hd, gt_iff_lt, lt_self_iff_false, decide_False, Bool.and_false, Bool.or_false]

theorem head_fits_queue (s : ElevState) (f : Int) (h : head_fits s f = true) :
    ∃ (p : pet) (rest : List pet), waiting_at s f = p :: rest ∧
      s.elevator_num_pets < 5 ∧ s.elevator_weight + weights p.type ≤ 50 := by
  unfold head_fits at h
  cases hq : waiting_at s f with
  | nil => simp [hq] at h
  | cons p rest =>
    simp only [hq, Bool.and_eq_true, decide_eq_true_eq] at h
    exact ⟨p, rest, rfl, h⟩

theorem waiting_num_pos (s : ElevState) (hi : Inv s) (f : Int) (p : pet) (rest : List pet)
    (hq : waiting_at s f = p :: rest) : 0 < num_waiting_at s f := by
  unfold waiting_at at hq
  unfold num_waiting_at
  cases hk : floor_idx f with
  | none => simp [hk] at hq
  | some k =>
    simp only [hk] at hq ⊢
    have := hi.count_eq k
    rw [hq] at this
    simp only [List.length_cons, Nat.cast_add, Nat.cast_one] at this
    omega

theorem serviceable_outside (s : ElevState) (hi : Inv s) (f : Int)
    (hf : ¬ (1 ≤ f ∧ f ≤ 5)) : serviceable s f = false := by
  unfold serviceable head_fits waiting_at
  rw [dest_flag_outside s hi f hf, floor_idx_none f hf]
  simp

theorem serviceable_need (s : ElevState) (hi : Inv s) (f : Int)
    (h : serviceable s f = true) : need_service s f = true := by
  unfold serviceable at h
  simp only [Bool.or_eq_true, Bool.and_eq_true, Bool.not_eq_true'] at h
  rw [need_service_iff]
  rcases h with h | ⟨hd, hh⟩
  · right
    unfold dest_flag at h
    rw [List.any_eq_true] at h
    obtain ⟨p, hp, hpf⟩ := h
    exact ⟨p, hp, by simpa using hpf⟩
  · left
    obtain ⟨p, rest, hq, _, _⟩ := head_fits_queue s f hh
    exact ⟨hd, waiting_num_pos s hi f p rest hq⟩

theorem loading_eq_serviceable (s : ElevState) :
    (can_unload s || (!s.is_deactivating && can_load s)) = serviceable s s.current_floor := rfl

theorem fin_floor_idx (k : Fin 5) : floor_idx (((k : Nat) : Int) + 1) = some k := by
  unfold floor_idx
  have hk5 := k.isLt
  rw [dif_pos (by omega)]
  simp

/-- With work pending and the deactivation flag clear, loading is possible at
some floor: where an item aboard gets off, or, in an empty car, wherever an
item waits. -/
theorem serviceable_exists (s : ElevState) (hi : Inv s) (hd : s.is_deactivating = false)
    (hp : has_pending s = true) :
    ∃ f : Int, (1 ≤ f ∧ f ≤ 5) ∧ serviceable s f = true := by
  by_cases he : s.elevator_pets = []
  · obtain ⟨k, hk⟩ := (has_pending_quiet s hi.count_eq hd he).mp hp
    have hk5 := k.isLt
    refine ⟨((k : Nat) : Int) + 1, ⟨by omega, by omega⟩, ?_⟩
    have hn := hi.num_eq
    have hw := hi.weight_eq
    rw [he] at hn hw
    simp only [List.length_nil, Nat.cast_zero, weight_sum, List.map_nil, List.sum_nil] at hn hw
    unfold serviceable head_fits waiting_at
    rw [fin_floor_idx k]
    cases hq : s.floor_waiting k with
    | nil => exact absurd hq hk
    | cons p rest =>
      have := weights_le p.type
      simp only [hd, hn, hw, hq, Bool.not_false, Bool.true_and, Bool.or_eq_true,
        Bool.and_eq_true, decide_eq_true_eq]
      right
      omega
  · obtain ⟨q, hq⟩ := List.exists_mem_of_ne_nil _ he
    have hv := hi.pets_valid q hq
    refine ⟨q.dest_floor, ⟨hv.2.2.1, hv.2.2.2⟩, ?_⟩
    unfold serviceable dest_flag
    simp only [Bool.or_eq_true, List.any_eq_true, decide_eq_true_eq]
    exact Or.inl ⟨q, hq, rfl⟩

/-- In a movement tick of a consistent state with the deactivation flag clear
the car gets one step nearer to a floor where loading is possible. -/
theorem move_steps_decrease (s : ElevState) (hi : Inv s) (hd : s.is_deactivating = false)
    (hl : serviceable s s.current_floor = false) (hp : has_pending s = true) :
    steps_to (need_service s) (serviceable s) 16
        (s.current_floor + look_dir (need_service s) s.current_floor s.direction)
        (look_dir (need_service s) s.current_floor s.direction) <
      steps_to (need_service s) (serviceable s) 16 s.current_floor s.direction := by
  have hS := bits_of (need_service s) (need_service_outside s hi)
  have hU := bits_of (serviceable s) (serviceable_outside s hi)
  have hcf : s.current_floor ∈ ([1, 2, 3, 4, 5] : List Int) := by
    have := hi.floor_range
    simp only [List.mem_cons, List.mem_singleton, List.not_mem_nil, or_false]
    omega
  have hdir : s.direction ∈ ([1, -1] : List Int) := by
    have := hi.dir_unit
    simpa using this
  obtain ⟨f, hf, hsf⟩ := serviceable_exists s hi hd hp
  have hne : (serviceable s 1 || serviceable s 2 || serviceable s 3 || serviceable s 4 ||
      serviceable s 5) = true := by
    have h15 : f = 1 ∨ f = 2 ∨ f = 3 ∨ f = 4 ∨ f = 5 := by omega
    rcases h15 with h | h | h | h | h <;> subst h <;> simp [hsf]
  have hcur : bits (serviceable s 1) (serviceable s 2) (serviceable s 3) (serviceable s 4)
      (serviceable s 5) s.current_floor = false := by
    rw [← hU]
    exact hl
  have key := look_reaches s.current_floor hcf s.direction hdir
    (need_service s 1) (need_service s 2) (need_service s 3) (need_service s 4)
    (need_service s 5) (serviceable s 1) (serviceable s 2) (serviceable s 3)
    (serviceable s 4) (serviceable s 5)
    (serviceable_need s hi 1) (serviceable_need s hi 2) (serviceable_need s hi 3)
    (serviceable_need s hi 4) (serviceable_need s hi 5) hne hcur
  rw [← hS, ← hU] at key
  exact key

/-- What a loading tick does to the counters: it unloads `r` items and boards
`m`, not both zero. -/
theorem loading_tick_counts (s : ElevState)
    (hl : (can_unload s || (!s.is_deactivating && can_load s)) = true) :
    ∃ r m : Nat, (1 ≤ r ∨ 1 ≤ m) ∧
      (tick s).total_waiting = s.total_waiting - (m : Int) ∧
      (tick s).elevator_num_pets = s.elevator_num_pets - (r : Int) + (m : Int) ∧
      (tick s).total_serviced = s.total_serviced + (r : Int) := by
  obtain ⟨u, r, ht, _, hr1, _, _, hnum, hwt, hts, htw, hfw, _, hcf, _⟩ :=
    loading_tick_parts s hl
  by_cases hb : (!s.is_deactivating && can_load s) = true
  · rw [if_pos hb] at ht
    have hcl : can_load s = true := by
      simp only [Bool.and_eq_true] at hb
      exact hb.2
    obtain ⟨p, rest, hq, hn5, hw50⟩ := can_load_head s hcl
    have hqu : waiting_at u u.current_floor = p :: rest := by
      unfold waiting_at at hq ⊢
      rw [hcf, hfw]
      exact hq
    obtain ⟨m, more, _, _, _, hdw, hdn⟩ :=
      do_load_boards_head u p rest hqu ⟨by omega, by omega⟩
    refine ⟨r, m + 1, Or.inr (by omega), ?_, ?_, ?_⟩
    · rw [ht, hdw, htw]
    · rw [ht, hdn, hnum]
    · rw [ht, (do_load_frame u).2.2.2.2.2, hts]
  · rw [if_neg hb] at ht
    have hcu : can_unload s = true := by
      cases hc : can_unload s
      · simp only [Bool.not_eq_true] at hb
        rw [hc, hb] at hl
        exact absurd hl (by decide)
      · rfl
    refine ⟨r, 0, Or.inl (hr1 hcu), ?_, ?_, ?_⟩
    · rw [ht, htw]; simp
    · rw [ht, hnum]; simp
    · rw [ht, hts]

theorem load_work_nonneg (s : ElevState) (hi : Inv s) : 0 ≤ load_work s := by
  have h1 := hi.num_eq
  have h2 := hi.total_eq
  have c0 := hi.count_eq 0
  have c1 := hi.count_eq 1
  have c2 := hi.count_eq 2
  have c3 := hi.count_eq 3
  have c4 := hi.count_eq 4
  unfold sum5 at h2
  unfold load_work
  omega

theorem tick_keeps_flag (s : ElevState) (hd : s.is_deactivating = false) :
    (tick s).is_deactivating = false := by
  have hnd : ¬ (s.is_deactivating = true ∧ s.elevator_pets = []) := by simp [hd]
  by_cases hl : (can_unload s || (!s.is_deactivating && can_load s)) = true
  · rw [(tick_loading_frame s hnd hl).2.2.2.1, hd]
  · simp only [Bool.or_eq_true, not_or, Bool.not_eq_true] at hl
    cases hp : has_pending s
    · rw [tick_idle s hnd hl.1 hl.2 hp]
      exact hd
    · rw [tick_move s hnd hl.1 hl.2 hp]
      exact hd

/-- While loading is possible at the current floor or work is pending, a tick
of a consistent state with the deactivation flag clear lowers `ticks_bound`. -/
theorem ticks_bound_decrease (s : ElevState) (hi : Inv s) (hd : s.is_deactivating = false)
    (hb : serviceable s s.current_floor = true ∨ has_pending s = true) :
    ticks_bound (tick s) < ticks_bound s := by
  have hnd : ¬ (s.is_deactivating = true ∧ s.elevator_pets = []) := by simp [hd]
  by_cases hl : serviceable s s.current_floor = true
  · obtain ⟨r, m, hrm, htw, hnum, _⟩ := loading_tick_counts s hl
    have h0 := load_work_nonneg (tick s) (inv_tick s hi)
    have hD := steps_to_le (need_service (tick s)) (serviceable (tick s)) 16
      (tick s).current_floor (tick s).direction
    unfold ticks_bound
    unfold load_work at h0 ⊢
    rw [htw, hnum] at h0 ⊢
    omega
  · have hp : has_pending s = true := by
      rcases hb with h | h
      · exact absurd h hl
      · exact h
    simp only [Bool.not_eq_true] at hl
    have hl2 : can_unload s = false ∧ (!s.is_deactivating && can_load s) = false := by
      have := loading_eq_serviceable s
      rw [hl] at this
      simpa using this
    have key := move_steps_decrease s hi hd hl hp
    have e := tick_move s hnd hl2.1 hl2.2 hp
    have h1 : load_work (tick s) = load_work s := by rw [e]; rfl
    have h2 : need_service (tick s) = need_service s := by rw [e]; rfl
    have h3 : serviceable (tick s) = serviceable s := by rw [e]; rfl
    have h4 : (tick s).direction = look_dir (need_service s) s.current_floor s.direction := by
      rw [e]; rfl
    have h5 : (tick s).current_floor =
        s.current_floor + look_dir (need_service s) s.current_floor s.direction := by
      rw [e]; rfl
    unfold ticks_bound
    rw [h1, h2, h3, h4, h5]
    omega

/-- From a consistent state with the deactivation flag clear the ticks reach,
within `ticks_bound` ticks, a state where no loading is possible and nothing is
pending. -/
theorem settles (s : ElevState) (hi : Inv s) (hd : s.is_deactivating = false) :
    ∃ n : Nat, n ≤ ticks_bound s ∧
      serviceable (tick^[n] s) (tick^[n] s).current_floor = false ∧
      has_pending (tick^[n] s) = false ∧ Inv (tick^[n] s) ∧
      (tick^[n] s).is_deactivating = false ∧ in_system (tick^[n] s) = in_system s := by
  generalize hb : ticks_bound s = b
  induction b using Nat.strong_induction_on generalizing s with
  | _ b ih =>
    subst hb
    by_cases hbusy : serviceable s s.current_floor = true ∨ has_pending s = true
    · have hlt := ticks_bound_decrease s hi hd hbusy
      obtain ⟨n, hn, h1, h2, h3, h4, h5⟩ :=
        ih (ticks_bound (tick s)) (by omega) (tick s) (inv_tick s hi) (tick_keeps_flag s hd) rfl
      refine ⟨n + 1, by omega, ?_⟩
      rw [Function.iterate_succ_apply]
      exact ⟨h1, h2, h3, h4, h5.trans (in_system_tick s)⟩
    · simp only [not_or, Bool.not_eq_true] at hbusy
      exact ⟨0, Nat.zero_le _, hbusy.1, hbusy.2, hi, hd, rfl⟩

/-- A consistent state with the deactivation flag clear and nothing pending
has every queue and the manifest empty. -/
theorem quiet_empty (s : ElevState) (hi : Inv s) (hd : s.is_deactivating = false)
    (hp : has_pending s = false) :
    (∀ k : Fin 5, s.floor_waiting k = []) ∧ s.elevator_pets = [] ∧ s.elevator_weight = 0 ∧
      s.elevator_num_pets = 0 ∧ s.total_waiting = 0 := by
  have he : s.elevator_pets = [] := by
    by_contra hne
    obtain ⟨q, hq⟩ := List.exists_mem_of_ne_nil _ hne
    have hv := hi.pets_valid q hq
    have : has_pending s = true :=
      (has_pending_iff s).mpr ⟨q.dest_floor, hv.2.2.1, hv.2.2.2, need_service_of_dest s q hq⟩
    rw [hp] at this
    exact absurd this (by decide)
  have hq : ∀ k : Fin 5, s.floor_waiting k = [] := by
    intro k
    by_contra hne
    have : has_pending s = true := (has_pending_quiet s hi.count_eq hd he).mpr ⟨k, hne⟩
    rw [hp] at this
    exact absurd this (by decide)
  have hn := hi.num_eq
  have hw := hi.weight_eq
  have ht := hi.total_eq
  have c0 := hi.count_eq 0
  have c1 := hi.count_eq 1
  have c2 := hi.count_eq 2
  have c3 := hi.count_eq 3
  have c4 := hi.count_eq 4
  rw [he] at hn hw
  rw [hq] at c0 c1 c2 c3 c4
  simp only [List.length_nil, Nat.cast_zero, weight_sum, List.map_nil, List.sum_nil] at hn hw c0 c1 c2 c3 c4
  unfold sum5 at ht
  exact ⟨hq, he, hw, hn, by omega⟩

/-- Once nothing is pending and no loading is possible, every tick leaves the
Idle state as it is. -/
theorem idle_fixed (s : ElevState) (hd : s.is_deactivating = false)
    (hl : serviceable s s.current_floor = false) (hp : has_pending s = false) (n : Nat) :
    tick^[n + 1] s = { s with elevator_state := state_t.IDLE, work_to_do := false } := by
  have hnd : ¬ (s.is_deactivating = true ∧ s.elevator_pets = []) := by simp [hd]
  have hl2 : can_unload s = false ∧ (!s.is_deactivating && can_load s) = false := by
    have := loading_eq_serviceable s
    rw [hl] at this
    simpa using this
  induction n with
  | zero => exact tick_idle s hnd hl2.1 hl2.2 hp
  | succ n ih =>
    rw [Function.iterate_succ_apply', ih]
    exact tick_idle { s with elevator_state := state_t.IDLE, work_to_do := false }
      hnd hl2.1 hl2.2 hp

/-- The tick sets the state to Idle only from a consistent state in which
nothing waits and nothing is aboard. -/
theorem idle_only_when_empty (s : ElevState) (hi : Inv s)
    (hidle : (tick s).elevator_state = state_t.IDLE) :
    s.is_deactivating = false ∧ (∀ k : Fin 5, s.floor_waiting k = []) ∧
      s.elevator_pets = [] ∧ s.elevator_weight = 0 ∧ s.total_waiting = 0 := by
  by_cases hnd : s.is_deactivating = true ∧ s.elevator_pets = []
  · rw [tick_drain s hnd.1 hnd.2] at hidle
    exact state_t.noConfusion hidle
  · by_cases hl : (can_unload s || (!s.is_deactivating && can_load s)) = true
    · rw [(tick_loading_frame s hnd hl).2.2.1] at hidle
      exact state_t.noConfusion hidle
    · simp only [Bool.or_eq_true, not_or, Bool.not_eq_true] at hl
      cases hp : has_pending s
      · have hd : s.is_deactivating = false := by
          cases hdd : s.is_deactivating
          · rfl
          · have hne : s.elevator_pets ≠ [] := fun he => hnd ⟨hdd, he⟩
            obtain ⟨q, hq⟩ := List.exists_mem_of_ne_nil _ hne
            have hv := hi.pets_valid q hq
            have : has_pending s = true :=
              (has_pending_iff s).mpr
                ⟨q.dest_floor, hv.2.2.1, hv.2.2.2, need_service_of_dest s q hq⟩
            rw [hp] at this
            exact absurd this (by decide)
        obtain ⟨h1, h2, h3, _, h5⟩ := quiet_empty s hi hd hp
        exact ⟨hd, h1, h2, h3, h5⟩
      · rw [tick_move s hnd hl.1 hl.2 hp] at hidle
        simp only at hidle
        split_ifs at hidle

/-- C21: no request is missed.  For every reachable state with the
deactivation flag clear (whatever its lifecycle state), iterating the
scheduler tick reaches, after at most `ticks_bound s + 1` ticks, a state that
is Idle with all five floor queues empty, the manifest empty, weight 0 and
`total_serviced` increased by exactly the number of items that were waiting or
aboard, and every later tick keeps it so; and whenever a tick of a reachable
state sets the state to Idle, nothing is waiting and nothing is aboard in that
state. -/
theorem C21_every_request_served (s : ElevState) (hr : Reachable s)
    (hd : s.is_deactivating = false) :
    (∃ n : Nat, n ≤ ticks_bound s + 1 ∧ ∀ m : Nat, n ≤ m →
      (tick^[m] s).elevator_state = state_t.IDLE ∧
      (∀ k : Fin 5, (tick^[m] s).floor_waiting k = []) ∧
      (tick^[m] s).elevator_pets = [] ∧ (tick^[m] s).elevator_weight = 0 ∧
      (tick^[m] s).total_waiting = 0 ∧ (tick^[m] s).elevator_num_pets = 0 ∧
      (tick^[m] s).total_serviced =
        s.total_serviced + s.total_waiting + s.elevator_num_pets ∧
      (tick^[m] s).total_serviced =
        s.total_serviced +
          (((s.floor_waiting 0).length + (s.floor_waiting 1).length +
            (s.floor_waiting 2).length + (s.floor_waiting 3).length +
            (s.floor_waiting 4).length + s.elevator_pets.length : Nat) : Int)) ∧
    (∀ t : ElevState, Reachable t → (tick t).elevator_state = state_t.IDLE →
      (∀ k : Fin 5, t.floor_waiting k = []) ∧ t.elevator_pets = [] ∧
        t.elevator_weight = 0 ∧ t.total_waiting = 0 ∧
        (∀ k : Fin 5, (tick t).floor_waiting k = []) ∧ (tick t).elevator_pets = []) := by
  have hi := inv_reachable s hr
  constructor
  · obtain ⟨n, hn, hl, hp, hit, hdt, hsys⟩ := settles s hi hd
    obtain ⟨hq, he, hw, hnum, htw⟩ := quiet_empty _ hit hdt hp
    refine ⟨n + 1, by omega, ?_⟩
    intro m hm
    have hm2 : m = (m - n - 1 + 1) + n := by omega
    have hfix := idle_fixed _ hdt hl hp (m - n - 1)
    have hst : tick^[m] s =
        { tick^[n] s with elevator_state := state_t.IDLE, work_to_do := false } := by
      rw [← hfix, ← Function.iterate_add_apply, ← hm2]
    have hts : (tick^[n] s).total_serviced =
        s.total_serviced + s.total_waiting + s.elevator_num_pets := by
      unfold in_system at hsys
      omega
    rw [hst]
    refine ⟨rfl, hq, he, hw, htw, hnum, hts, ?_⟩
    show (tick^[n] s).total_serviced = _
    rw [hts]
    have ht := hi.total_eq
    have hne := hi.num_eq
    have c0 := hi.count_eq 0
    have c1 := hi.count_eq 1
    have c2 := hi.count_eq 2
    have c3 := hi.count_eq 3
    have c4 := hi.count_eq 4
    unfold sum5 at ht
    push_cast
    omega
  · intro t ht hidle
    have hit := inv_reachable t ht
    obtain ⟨hdt, h1, h2, h3, h4⟩ := idle_only_when_empty t hit hidle
    have hnd : ¬ (t.is_deactivating = true ∧ t.elevator_pets = []) := by simp [hdt]
    have hp : has_pending t = false := by
      cases hp : has_pending t
      · rfl
      · have := (has_pending_quiet t hit.count_eq hdt h2).mp hp
        obtain ⟨k, hk⟩ := this
        exact absurd (h1 k) hk
    have hl : serviceable t t.current_floor = false := by
      cases hs : serviceable t t.current_floor
      · rfl
      · have := serviceable_need t hit t.current_floor hs
        have hpp : has_pending t = true :=
          (has_pending_iff t).mpr
            ⟨t.current_floor, hit.floor_range.1, hit.floor_range.2, this⟩
        rw [hp] at hpp
        exact absurd hpp (by decide)
    have hfix := idle_fixed t hdt hl hp 0
    simp only [zero_add, Function.iterate_one] at hfix
    rw [hfix]
    exact ⟨h1, h2, h3, h4, h1, h2⟩

/-- Witness for C21 at `ex_busy`: one item aboard and one waiting, state
Loading; after nine ticks the car is Idle with both items serviced. -/
theorem C21_every_request_served_witness :
    Reachable ex_busy ∧ ex_busy.is_deactivating = false ∧
    ex_busy.elevator_state = state_t.LOADING ∧
    ex_busy.total_waiting = 1 ∧ ex_busy.elevator_num_pets = 1 ∧
    ex_busy.total_serviced = 0 ∧
    (tick^[9] ex_busy).elevator_state = state_t.IDLE ∧
    (tick^[9] ex_busy).total_serviced = 2 ∧
    (tick^[8] ex_busy).elevator_state = state_t.LOADING ∧
    (∃ n : Nat, n ≤ ticks_bound ex_busy + 1 ∧ ∀ m : Nat, n ≤ m →
      (tick^[m] ex_busy).elevator_state = state_t.IDLE ∧
      (∀ k : Fin 5, (tick^[m] ex_busy).floor_waiting k = []) ∧
      (tick^[m] ex_busy).elevator_pets = [] ∧ (tick^[m] ex_busy).elevator_weight = 0 ∧
      (tick^[m] ex_busy).total_waiting = 0 ∧ (tick^[m] ex_busy).elevator_num_pets = 0 ∧
      (tick^[m] ex_busy).total_serviced =
        ex_busy.total_serviced + ex_busy.total_waiting + ex_busy.elevator_num_pets ∧
      (tick^[m] ex_busy).total_serviced =
        ex_busy.total_serviced +
          (((ex_busy.floor_waiting 0).length + (ex_busy.floor_waiting 1).length +
            (ex_busy.floor_waiting 2).length + (ex_busy.floor_waiting 3).length +
            (ex_busy.floor_waiting 4).length + ex_busy.elevator_pets.length : Nat) : Int)) := by
  have hr : Reachable ex_busy :=
    Reachable.issue _ 4 2 1 true
      (Reachable.tick _ (Reachable.start _ true (Reachable.issue _ 1 3 0 true Reachable.init)))
  exact ⟨hr, by decide, by decide, by decide, by decide, by decide, by decide, by decide,
    by decide, (C21_every_request_served ex_busy hr (by decide)).1⟩

end Elevator

namespace Timer

/-! ## Elapsed time between two reads -/

/-- For normalised timestamps the value `elapsed_ns` is the true difference
when the nanosecond field did not go down, and the true difference plus one
second when it did. -/
theorem elapsed_ns_eq (cur prev : timespec64) (hc : normalised cur) (hp : normalised prev) :
    elapsed_ns cur prev =
      to_ns cur - to_ns prev + (if cur.tv_nsec < prev.tv_nsec then 1000000000 else 0) := by
  obtain ⟨c1, c2⟩ := hc
  obtain ⟨p1, p2⟩ := hp
  unfold elapsed_ns timespec64_sub set_normalized_timespec64 to_ns NSEC_PER_SEC
  simp only
  by_cases h : cur.tv_nsec < prev.tv_nsec
  · rw [if_pos h]
    have : (cur.tv_nsec - prev.tv_nsec) % 1000000000 = cur.tv_nsec - prev.tv_nsec + 1000000000 := by
      omega
    omega
  · rw [if_neg h]
    have : (cur.tv_nsec - prev.tv_nsec) % 1000000000 = cur.tv_nsec - prev.tv_nsec := by
      omega
    omega

/-- C16: the first read after load prints no elapsed time and every read
stores its clock value as the new previous time, but the elapsed time of a
later read is wrong whenever the nanosecond field went down: with the previous
read at 10.900000000 s and this read at 11.100000000 s the true difference is
0.200000000 s and `my_timer_show` prints `Elapsed time: 1.200000000`. -/
theorem C16_elapsed_time_borrow :
    (my_timer_show (my_timer_init ⟨10, 900000000⟩) ⟨10, 900000000⟩).1.elapsed = none ∧
      (my_timer_show (my_timer_init ⟨10, 900000000⟩) ⟨10, 900000000⟩).2 =
        { last_read_time := ⟨10, 900000000⟩, is_first_read := false } ∧
      to_ns ⟨11, 100000000⟩ - to_ns ⟨10, 900000000⟩ = 200000000 ∧
      elapsed_ns ⟨11, 100000000⟩ ⟨10, 900000000⟩ = 1200000000 ∧
      (my_timer_show { last_read_time := ⟨10, 900000000⟩, is_first_read := false }
          ⟨11, 100000000⟩).1.elapsed = some (1, 200000000) ∧
      (my_timer_show { last_read_time := ⟨10, 900000000⟩, is_first_read := false }
          ⟨11, 100000000⟩).2 =
        { last_read_time := ⟨11, 100000000⟩, is_first_read := false } := by
  decide

end Timer
